import Mathlib

/-!
# KDDockWidgets — segmented drop indicators

A shallow embedding of `src/private/indicators/SegmentedIndicators.cpp`:
the constructor, the geometry builder `segmentsForRect`, the registry rebuild
`updateSegments`, the hit tester `dropLocationForPos` and the highlight decision
of `drawSegment`.

Conventions of the embedding

* C++ `int` is embedded as `ℤ`; `/` on `int` is `Int.tdiv` (truncation toward
  zero).  `segmentsForRect` computes on unbounded integers; `segmentsForRect32`
  is the same method with every `int` sum and difference reduced to 32 bits, as
  the compiled code computes it.  The two agree on every rectangle with
  coordinates within `10^9` (`segmentsForRect32_eq`), and statements that would
  fail where an operation overflows carry that bound as a hypothesis.
* `qreal`/`double` values are embedded as the rationals they denote; every
  inexact operation (`/`, `*`, `+` on doubles, decimal literals) is followed by
  `fpRound`, round-to-nearest-even on a 53 bit significand.  Conversions
  `int → double` and differences of two converted `int`s are exact for 32 bit
  integers and are embedded without rounding.
* A `qreal` that may be NaN, the dragged-window opacity, is an optional
  rational, `none` standing for NaN.
* Qt value types (`QPoint`, `QRect`, `QPolygon`, `QMap`) are embedded with the
  behaviour of the Qt 5 implementation of the members the source calls.
-/

namespace KDDockWidgets

/-! ## binary64 arithmetic -/

/-- Fuelled binary logarithm: `ilog2Aux fuel n = ⌊log₂ n⌋` when `n ≤ 2 ^ fuel`. -/
def ilog2Aux : ℕ → ℕ → ℕ
  | 0, _ => 0
  | fuel + 1, n => if n < 2 then 0 else ilog2Aux fuel (n / 2) + 1

/-- Floor of the binary logarithm of a natural number (`0` at `0`). -/
def ilog2 (n : ℕ) : ℕ := ilog2Aux n n

/-- Binary exponent of a non-zero rational: the `e` with `2 ^ e ≤ |q| < 2 ^ (e + 1)`. -/
def binExp (q : ℚ) : ℤ :=
  let e0 : ℤ := (ilog2 q.num.natAbs : ℤ) - (ilog2 q.den : ℤ)
  if |q| < (2 : ℚ) ^ e0 then e0 - 1 else e0

/-- Nearest integer, ties to the even neighbour. -/
def roundHalfEven (q : ℚ) : ℤ :=
  let f := ⌊q⌋
  let r := q - f
  if r < 1 / 2 then f else if 1 / 2 < r then f + 1 else if f % 2 = 0 then f else f + 1

/-- Rounding of an exact result to binary64 (53 bit significand, round to
nearest, ties to even; the exponent range is not limited, no value computed
from 32 bit integers leaves it). -/
def fpRound (q : ℚ) : ℚ :=
  if q = 0 then 0 else
    let e := binExp q - 52
    (roundHalfEven (q / (2 : ℚ) ^ e) : ℚ) * (2 : ℚ) ^ e

/-- Sum of two doubles. -/
def fpAdd (a b : ℚ) : ℚ := fpRound (a + b)

/-- Product of two doubles. -/
def fpMul (a b : ℚ) : ℚ := fpRound (a * b)

/-- Quotient of two doubles. -/
def fpDiv (a b : ℚ) : ℚ := fpRound (a / b)

/-- Conversion `int(d)` of a double to `int`: truncation toward zero. -/
def truncToInt (q : ℚ) : ℤ := Int.tdiv q.num (q.den : ℤ)

/-! ## Qt value types -/

/-- Integer point `QPoint`. -/
structure QPoint where
  x : ℤ
  y : ℤ
  deriving DecidableEq, Repr

instance : Add QPoint := ⟨fun a b => ⟨a.x + b.x, a.y + b.y⟩⟩

/-- Integer rectangle `QRect`, stored as Qt stores it: the coordinates of the
top-left and of the bottom-right pixel. -/
structure QRect where
  x1 : ℤ
  y1 : ℤ
  x2 : ℤ
  y2 : ℤ
  deriving DecidableEq, Repr

namespace QRect

/-- Constructor `QRect(x, y, width, height)`. -/
def ofXYWH (x y w h : ℤ) : QRect := ⟨x, y, x + w - 1, y + h - 1⟩

/-- Constructor `QRect(topLeft, bottomRight)`. -/
def ofCorners (tl br : QPoint) : QRect := ⟨tl.x, tl.y, br.x, br.y⟩

def x (r : QRect) : ℤ := r.x1

def y (r : QRect) : ℤ := r.y1

def right (r : QRect) : ℤ := r.x2

def bottom (r : QRect) : ℤ := r.y2

def width (r : QRect) : ℤ := r.x2 - r.x1 + 1

def height (r : QRect) : ℤ := r.y2 - r.y1 + 1

/-- Member `isValid()`: `x1 <= x2 && y1 <= y2`. -/
def isValid (r : QRect) : Bool := decide (r.x1 ≤ r.x2) && decide (r.y1 ≤ r.y2)

/-- Member `center()`: `((x1 + x2) / 2, (y1 + y2) / 2)` in integer arithmetic. -/
def center (r : QRect) : QPoint := ⟨Int.tdiv (r.x1 + r.x2) 2, Int.tdiv (r.y1 + r.y2) 2⟩

end QRect

/-- Integer polygon `QPolygon`, a vector of points. -/
abbrev QPolygon := List QPoint

/-- One step of the scan of `QPolygon::boundingRect()`; the accumulator is
`(minx, maxx, miny, maxy)`. -/
def boundsStep (acc : ℤ × ℤ × ℤ × ℤ) (p : QPoint) : ℤ × ℤ × ℤ × ℤ :=
  let (minx, maxx, miny, maxy) := acc
  let (minx, maxx) := if p.x < minx then (p.x, maxx) else if p.x > maxx then (minx, p.x)
    else (minx, maxx)
  let (miny, maxy) := if p.y < miny then (p.y, maxy) else if p.y > maxy then (miny, p.y)
    else (miny, maxy)
  (minx, maxx, miny, maxy)

/-- Member `QPolygon::boundingRect()`. -/
def boundingRect : QPolygon → QRect
  | [] => QRect.ofXYWH 0 0 0 0
  | p :: rest =>
    let (minx, maxx, miny, maxy) := rest.foldl boundsStep (p.x, p.x, p.y, p.y)
    QRect.ofCorners ⟨minx, miny⟩ ⟨maxx, maxy⟩

/-- Qt's `qt_polygon_isect_line(p1, p2, pos, &winding)`: the winding number
after the edge `p1 → p2` has been examined.  Horizontal edges are ignored (on
32 bit integer coordinates `qFuzzyCompare(y1, y2)` is `y1 == y2`); an edge is counted
when `y1 ≤ y < y2` and its abscissa at height `y`, computed in doubles, is
`≤ pos.x`. -/
def qt_polygon_isect_line (p1 p2 pos : QPoint) (winding : ℤ) : ℤ :=
  if p1.y = p2.y then winding
  else
    let (x1, y1, x2, y2, dir) :=
      if p2.y < p1.y then (p2.x, p2.y, p1.x, p1.y, (-1 : ℤ))
      else (p1.x, p1.y, p2.x, p2.y, (1 : ℤ))
    if y1 ≤ pos.y ∧ pos.y < y2 then
      let x : ℚ := fpAdd (x1 : ℚ) (fpMul (fpDiv ((x2 : ℚ) - x1) ((y2 : ℚ) - y1)) ((pos.y : ℚ) - y1))
      if x ≤ (pos.x : ℚ) then winding + dir else winding
    else winding

/-- The loop of `QPolygon::containsPoint` over the points `at(1) …`: returns the
winding number and the last point seen. -/
def windingLoop (pt : QPoint) : List QPoint → QPoint → ℤ → ℤ × QPoint
  | [], last_pt, winding => (winding, last_pt)
  | e :: rest, last_pt, winding =>
    windingLoop pt rest e (qt_polygon_isect_line last_pt e pt winding)

/-- Member `QPolygon::containsPoint(pt, Qt::OddEvenFill)`. -/
def containsPoint (poly : QPolygon) (pt : QPoint) : Bool :=
  match poly with
  | [] => false
  | first :: rest =>
    let (winding, last_pt) := windingLoop pt rest first 0
    let winding := if last_pt ≠ first then qt_polygon_isect_line last_pt first pt winding
      else winding
    decide (Int.tmod winding 2 ≠ 0)

/-! ## Drop locations and the segment registry -/

/-- Modelled from the spec: the enumeration `DropLocation` is declared in
`DropIndicatorOverlayInterface_p.h`, which is not part of the sources at hand.
The sentinel comes first, then the inner family, then the outer family, in the
fixed order the spec gives. -/
inductive DropLocation where
  | DropLocation_None
  | DropLocation_Left
  | DropLocation_Top
  | DropLocation_Right
  | DropLocation_Bottom
  | DropLocation_Center
  | DropLocation_OutterLeft
  | DropLocation_OutterTop
  | DropLocation_OutterRight
  | DropLocation_OutterBottom
  deriving DecidableEq, Repr

namespace DropLocation

/-- Integer value of an enumerator. -/
def toInt : DropLocation → ℤ
  | DropLocation_None => 0
  | DropLocation_Left => 1
  | DropLocation_Top => 2
  | DropLocation_Right => 3
  | DropLocation_Bottom => 4
  | DropLocation_Center => 5
  | DropLocation_OutterLeft => 6
  | DropLocation_OutterTop => 7
  | DropLocation_OutterRight => 8
  | DropLocation_OutterBottom => 9

/-- The cast `DropLocation(n)`; values outside the enumeration are mapped to
the sentinel. -/
def ofInt (n : ℤ) : DropLocation :=
  if n = 1 then DropLocation_Left
  else if n = 2 then DropLocation_Top
  else if n = 3 then DropLocation_Right
  else if n = 4 then DropLocation_Bottom
  else if n = 5 then DropLocation_Center
  else if n = 6 then DropLocation_OutterLeft
  else if n = 7 then DropLocation_OutterTop
  else if n = 8 then DropLocation_OutterRight
  else if n = 9 then DropLocation_OutterBottom
  else DropLocation_None

/-- Bound `DropLocation_First`. -/
def DropLocation_First : DropLocation := DropLocation_Left

/-- Bound `DropLocation_Last`. -/
def DropLocation_Last : DropLocation := DropLocation_OutterBottom

/-- All locations from `DropLocation_First` to `DropLocation_Last`, ascending. -/
def enumeration : List DropLocation :=
  [DropLocation_Left, DropLocation_Top, DropLocation_Right, DropLocation_Bottom,
   DropLocation_Center, DropLocation_OutterLeft, DropLocation_OutterTop,
   DropLocation_OutterRight, DropLocation_OutterBottom]

end DropLocation

open DropLocation

/-- The registry `QMap<DropLocation, QPolygon>`: entries in ascending key order,
which is the order in which a `QMap` is iterated. -/
abbrev SegmentMap := List (DropLocation × QPolygon)

namespace SegmentMap

/-- Member `QMap::insert(key, value)`: the value of an existing key is replaced. -/
def insert : SegmentMap → DropLocation → QPolygon → SegmentMap
  | [], k, v => [(k, v)]
  | (k', v') :: rest, k, v =>
    if k.toInt < k'.toInt then (k, v) :: (k', v') :: rest
    else if k = k' then (k, v) :: rest
    else (k', v') :: insert rest k v

/-- Member `QMap::value(key)`: the stored value, or a default-constructed
(empty) polygon. -/
def value : SegmentMap → DropLocation → QPolygon
  | [], _ => []
  | (k', v') :: rest, k => if k = k' then v' else value rest k

/-- Member `QMap::contains(key)`. -/
def contains (m : SegmentMap) (k : DropLocation) : Bool := m.any (fun e => decide (e.1 = k))

/-- Keys of the map, in iteration order. -/
def keys (m : SegmentMap) : List DropLocation := m.map Prod.fst

end SegmentMap

/-! ## The indicator -/

/-- Reduction of an integer to the range of a 32 bit `int`: the value the
compiled code leaves in an `int` when an operation overflows. -/
def wrapInt (n : ℤ) : ℤ := (n + 2147483648) % 4294967296 - 2147483648

def SEGMENT_GIRTH : ℤ := 50

def SEGMENT_PEN_WIDTH : ℤ := 4

/-- A `qreal` configuration value that may be unset: `none` stands for NaN, the
value the "dragged-window opacity" holds while the embedding application has
not chosen one; `some q` for the number `q`. -/
abbrev Opacity := Option ℚ

/-- Function `qIsNaN`. -/
def qIsNaN (d : Opacity) : Bool := d.isNone

/-- State of a `SegmentedIndicators` overlay together with the values it reads
from its collaborators: the widget size (`rect()` is `QRect(0, 0, width, height)`),
`hoveredFrameRect()` and `m_dropArea->count()`. -/
structure SegmentedIndicators where
  width : ℤ
  height : ℤ
  hoveredFrameRect : QRect
  count : ℤ
  m_hoveredPt : QPoint
  m_segments : SegmentMap
  deriving Repr

namespace SegmentedIndicators

/-- Member `QWidget::rect()`. -/
def rect (s : SegmentedIndicators) : QRect := QRect.ofXYWH 0 0 s.width s.height

/-- Method `dropLocationForPos` on a registry: the key of the first entry, in
iteration order, whose polygon contains `pos`. -/
def dropLocationForPosIn : SegmentMap → QPoint → DropLocation
  | [], _ => DropLocation_None
  | (k, v) :: rest, pos => if containsPoint v pos then k else dropLocationForPosIn rest pos

/-- Method `SegmentedIndicators::dropLocationForPos`. -/
def dropLocationForPos (s : SegmentedIndicators) (pos : QPoint) : DropLocation :=
  dropLocationForPosIn s.m_segments pos

/-- Method `SegmentedIndicators::segmentsForRect(r, center, useOffset)` for an
overlay whose `rect()` is `container`: the vector of the left, top, right and
bottom polygons, and the polygon written to `center`. -/
def segmentsForRect (container r : QRect) (useOffset : Bool) : List QPolygon × QPolygon :=
  let penWidth := SEGMENT_PEN_WIDTH
  let halfPenWidth := Int.tdiv penWidth 2
  let l := SEGMENT_GIRTH
  let top := if r.y = 0 ∧ useOffset then l else r.y
  let left := if r.x = 0 ∧ useOffset then l else r.x
  let right := if container.right = r.right ∧ useOffset then r.right - l else r.right
  let bottom := if container.bottom = r.bottom ∧ useOffset then r.bottom - l else r.bottom
  let topLeft : QPoint := ⟨left + halfPenWidth, top + halfPenWidth⟩
  let topRight : QPoint := ⟨right, top + halfPenWidth⟩
  let bottomLeft : QPoint := ⟨left + halfPenWidth, bottom⟩
  let bottomRight : QPoint := ⟨right, bottom⟩
  let leftPoints : QPolygon :=
    [topLeft, bottomLeft, (⟨left, bottom⟩ : QPoint) + ⟨l, -l⟩, topLeft + ⟨l, l⟩, topLeft]
  let rightPoints : QPolygon :=
    [topRight, bottomRight, bottomRight + ⟨-l, -l⟩, topRight + ⟨-l, l⟩]
  let topPoints : QPolygon :=
    [topLeft, topRight, topRight + ⟨-l, l⟩, topLeft + ⟨l, l⟩]
  let bottomPoints : QPolygon :=
    [bottomLeft, bottomRight, bottomRight + ⟨-l, -l⟩, bottomLeft + ⟨l, -l⟩]
  let bounds : QPolygon :=
    [topLeft + ⟨l, l⟩, topRight + ⟨-l, l⟩, bottomRight + ⟨-l, -l⟩, bottomLeft + ⟨l, -l⟩]
  let maxWidth := (boundingRect bounds).width
  let centerPos := (boundingRect bounds).center
  let indicatorWidth := min 300 (maxWidth - 100)
  let indicatorHeight := min 160 (truncToInt (fpMul (indicatorWidth : ℚ) (fpRound (60 / 100))))
  let tabWidth := truncToInt (fpMul (indicatorWidth : ℚ) (fpRound (267 / 1000)))
  let tabHeight := truncToInt (fpMul (indicatorHeight : ℚ) (fpRound (187 / 1000)))
  let centerRectLeft := centerPos.x - Int.tdiv indicatorWidth 2
  let centerRectRight := centerPos.x + Int.tdiv indicatorWidth 2
  let centerRectBottom := centerPos.y + Int.tdiv indicatorHeight 2
  let centerRectTop := centerPos.y - Int.tdiv indicatorHeight 2
  let center : QPolygon :=
    [⟨centerRectLeft, centerRectTop⟩,
     ⟨centerRectLeft + tabWidth, centerRectTop⟩,
     ⟨centerRectLeft + tabWidth, centerRectTop + tabHeight⟩,
     ⟨centerRectRight, centerRectTop + tabHeight⟩,
     ⟨centerRectRight, centerRectBottom⟩,
     ⟨centerRectLeft, centerRectBottom⟩]
  ([leftPoints, topPoints, rightPoints, bottomPoints], center)

/-- The locals `indicatorWidth` and `indicatorHeight` of `segmentsForRect`,
computed as `segmentsForRect` computes them. -/
def indicatorSize (container r : QRect) (useOffset : Bool) : ℤ × ℤ :=
  let penWidth := SEGMENT_PEN_WIDTH
  let halfPenWidth := Int.tdiv penWidth 2
  let l := SEGMENT_GIRTH
  let top := if r.y = 0 ∧ useOffset then l else r.y
  let left := if r.x = 0 ∧ useOffset then l else r.x
  let right := if container.right = r.right ∧ useOffset then r.right - l else r.right
  let bottom := if container.bottom = r.bottom ∧ useOffset then r.bottom - l else r.bottom
  let topLeft : QPoint := ⟨left + halfPenWidth, top + halfPenWidth⟩
  let topRight : QPoint := ⟨right, top + halfPenWidth⟩
  let bottomLeft : QPoint := ⟨left + halfPenWidth, bottom⟩
  let bottomRight : QPoint := ⟨right, bottom⟩
  let bounds : QPolygon :=
    [topLeft + ⟨l, l⟩, topRight + ⟨-l, l⟩, bottomRight + ⟨-l, -l⟩, bottomLeft + ⟨l, -l⟩]
  let maxWidth := (boundingRect bounds).width
  let indicatorWidth := min 300 (maxWidth - 100)
  let indicatorHeight := min 160 (truncToInt (fpMul (indicatorWidth : ℚ) (fpRound (60 / 100))))
  (indicatorWidth, indicatorHeight)

/-- Method `SegmentedIndicators::segmentsForRect` with the result of every `int`
addition and subtraction reduced to 32 bits, as the compiled code computes it. -/
def segmentsForRect32 (container r : QRect) (useOffset : Bool) : List QPolygon × QPolygon :=
  let penWidth := SEGMENT_PEN_WIDTH
  let halfPenWidth := Int.tdiv penWidth 2
  let l := SEGMENT_GIRTH
  let add : QPoint → QPoint → QPoint := fun a b => ⟨wrapInt (a.x + b.x), wrapInt (a.y + b.y)⟩
  let top := if r.y = 0 ∧ useOffset then l else r.y
  let left := if r.x = 0 ∧ useOffset then l else r.x
  let right := if container.right = r.right ∧ useOffset then wrapInt (r.right - l) else r.right
  let bottom :=
    if container.bottom = r.bottom ∧ useOffset then wrapInt (r.bottom - l) else r.bottom
  let topLeft : QPoint := ⟨wrapInt (left + halfPenWidth), wrapInt (top + halfPenWidth)⟩
  let topRight : QPoint := ⟨right, wrapInt (top + halfPenWidth)⟩
  let bottomLeft : QPoint := ⟨wrapInt (left + halfPenWidth), bottom⟩
  let bottomRight : QPoint := ⟨right, bottom⟩
  let leftPoints : QPolygon :=
    [topLeft, bottomLeft, add ⟨left, bottom⟩ ⟨l, -l⟩, add topLeft ⟨l, l⟩, topLeft]
  let rightPoints : QPolygon :=
    [topRight, bottomRight, add bottomRight ⟨-l, -l⟩, add topRight ⟨-l, l⟩]
  let topPoints : QPolygon :=
    [topLeft, topRight, add topRight ⟨-l, l⟩, add topLeft ⟨l, l⟩]
  let bottomPoints : QPolygon :=
    [bottomLeft, bottomRight, add bottomRight ⟨-l, -l⟩, add bottomLeft ⟨l, -l⟩]
  let bounds : QPolygon :=
    [add topLeft ⟨l, l⟩, add topRight ⟨-l, l⟩, add bottomRight ⟨-l, -l⟩, add bottomLeft ⟨l, -l⟩]
  let maxWidth := wrapInt (boundingRect bounds).width
  let centerPos := (boundingRect bounds).center
  let indicatorWidth := min 300 (wrapInt (maxWidth - 100))
  let indicatorHeight := min 160 (truncToInt (fpMul (indicatorWidth : ℚ) (fpRound (60 / 100))))
  let tabWidth := truncToInt (fpMul (indicatorWidth : ℚ) (fpRound (267 / 1000)))
  let tabHeight := truncToInt (fpMul (indicatorHeight : ℚ) (fpRound (187 / 1000)))
  let centerRectLeft := wrapInt (centerPos.x - Int.tdiv indicatorWidth 2)
  let centerRectRight := wrapInt (centerPos.x + Int.tdiv indicatorWidth 2)
  let centerRectBottom := wrapInt (centerPos.y + Int.tdiv indicatorHeight 2)
  let centerRectTop := wrapInt (centerPos.y - Int.tdiv indicatorHeight 2)
  let center : QPolygon :=
    [⟨centerRectLeft, centerRectTop⟩,
     ⟨wrapInt (centerRectLeft + tabWidth), centerRectTop⟩,
     ⟨wrapInt (centerRectLeft + tabWidth), wrapInt (centerRectTop + tabHeight)⟩,
     ⟨centerRectRight, wrapInt (centerRectTop + tabHeight)⟩,
     ⟨centerRectRight, centerRectBottom⟩,
     ⟨centerRectLeft, centerRectBottom⟩]
  ([leftPoints, topPoints, rightPoints, bottomPoints], center)

/-- Modelled from the spec: the default argument `useOffset = false` of
`segmentsForRect` is part of its declaration in `SegmentedIndicators_p.h`, which
is not part of the sources at hand (the outer ring is built "with
`useOffset = false`"). -/
def useOffsetDefault : Bool := false

/-- The loop `for (int i = 0; i < 4; ++i) m_segments.insert(DropLocation(first + i), segments[i])`,
from index `i` with `n` iterations left. -/
def insertSegments (first : DropLocation) (segments : List QPolygon) :
    ℕ → ℤ → SegmentMap → SegmentMap
  | 0, _, m => m
  | n + 1, i, m =>
    insertSegments first segments n (i + 1)
      (m.insert (DropLocation.ofInt (first.toInt + i)) (segments.getD i.toNat []))

/-- Method `SegmentedIndicators::updateSegments` (the repaint request `update()`
does not change the state; the local `center` is dropped on return). -/
def updateSegments (s : SegmentedIndicators) : SegmentedIndicators :=
  let m : SegmentMap := []
  let hasMultipleFrames := decide (s.count > 1)
  let needsInnerIndicators := s.hoveredFrameRect.isValid
  let needsOutterIndicators := hasMultipleFrames || !needsInnerIndicators
  let m :=
    if needsInnerIndicators then
      let useOffset := needsOutterIndicators
      let (segments, center) := segmentsForRect s.rect s.hoveredFrameRect useOffset
      let m := insertSegments DropLocation_Left segments 4 0 m
      m.insert DropLocation_Center center
    else m
  let m :=
    if needsOutterIndicators then
      let (segments, _) := segmentsForRect s.rect s.rect useOffsetDefault
      insertSegments DropLocation_OutterLeft segments 4 0 m
    else m
  { s with m_segments := m }

/-- Method `SegmentedIndicators::hover_impl`, with `mapFromGlobal` given by the
host: stores the hovered point, rebuilds the registry and returns the new state
with the location passed to `setCurrentDropLocation`. -/
def hover_impl (mapFromGlobal : QPoint → QPoint) (s : SegmentedIndicators) (pt : QPoint) :
    SegmentedIndicators × DropLocation :=
  let s := updateSegments { s with m_hoveredPt := mapFromGlobal pt }
  (s, dropLocationForPos s s.m_hoveredPt)

/-- Method `SegmentedIndicators::drawSegment`: `none` when the segment is empty
and nothing is drawn, otherwise whether the highlight brush is chosen. -/
def drawSegment (s : SegmentedIndicators) (segment : QPolygon) : Option Bool :=
  if segment.isEmpty then none else some (containsPoint segment s.m_hoveredPt)

/-- Method `SegmentedIndicators::drawSegments`: the outcome of `drawSegment` for
every location from `DropLocation_First` to `DropLocation_Last`. -/
def drawSegments (s : SegmentedIndicators) : List (DropLocation × Option Bool) :=
  DropLocation.enumeration.map (fun loc => (loc, drawSegment s (s.m_segments.value loc)))

/-- Constructor `SegmentedIndicators::SegmentedIndicators`, as a function from
the shared configuration `Config::self()` it finds to the one it leaves. The
class `Config` is not part of the sources at hand: its type and its accessors
`draggedWindowOpacity` and `setDraggedWindowOpacity` are parameters. The
literal 0.7 is the double nearest to 7/10. -/
def construct {Config : Type} (draggedWindowOpacity : Config → Opacity)
    (setDraggedWindowOpacity : Config → Opacity → Config) (config : Config) : Config :=
  let userChoseOpacity := !qIsNaN (draggedWindowOpacity config)
  if !userChoseOpacity then setDraggedWindowOpacity config (some (fpRound (7 / 10)))
  else config

/-! ## Descriptions used by the theorems -/

/-- Strictly ascending keys: the invariant of a `QMap`. -/
def Ordered (m : SegmentMap) : Prop := m.Pairwise (fun a b => a.1.toInt < b.1.toInt)

/-- The five entries `updateSegments` stores for the hovered frame. -/
def innerEntries (container r : QRect) (useOffset : Bool) : SegmentMap :=
  let sc := segmentsForRect container r useOffset
  [(DropLocation_Left, sc.1.getD 0 []), (DropLocation_Top, sc.1.getD 1 []),
   (DropLocation_Right, sc.1.getD 2 []), (DropLocation_Bottom, sc.1.getD 3 []),
   (DropLocation_Center, sc.2)]

/-- The four entries `updateSegments` stores for the container. -/
def outerEntries (container : QRect) : SegmentMap :=
  let sc := segmentsForRect container container false
  [(DropLocation_OutterLeft, sc.1.getD 0 []), (DropLocation_OutterTop, sc.1.getD 1 []),
   (DropLocation_OutterRight, sc.1.getD 2 []), (DropLocation_OutterBottom, sc.1.getD 3 [])]

/-- The inner family of locations. -/
def innerLocations : List DropLocation :=
  [DropLocation_Left, DropLocation_Top, DropLocation_Right, DropLocation_Bottom,
   DropLocation_Center]

/-- The outer family of locations. -/
def outerLocations : List DropLocation :=
  [DropLocation_OutterLeft, DropLocation_OutterTop, DropLocation_OutterRight,
   DropLocation_OutterBottom]

/-- An overlay with the given size, hovered frame rect and panel count, an empty
registry and the hovered point at the origin. -/
def initial (w h : ℤ) (hovered : QRect) (count : ℤ) : SegmentedIndicators :=
  { width := w, height := h, hoveredFrameRect := hovered, count := count,
    m_hoveredPt := ⟨0, 0⟩, m_segments := [] }

/-- Effective top side used by `segmentsForRect`. -/
def effTop (r : QRect) (useOffset : Bool) : ℤ := if r.y = 0 ∧ useOffset then 50 else r.y

/-- Effective left side used by `segmentsForRect`. -/
def effLeft (r : QRect) (useOffset : Bool) : ℤ := if r.x = 0 ∧ useOffset then 50 else r.x

/-- Effective right side used by `segmentsForRect`. -/
def effRight (container r : QRect) (useOffset : Bool) : ℤ :=
  if container.right = r.right ∧ useOffset then r.right - 50 else r.right

/-- Effective bottom side used by `segmentsForRect`. -/
def effBottom (container r : QRect) (useOffset : Bool) : ℤ :=
  if container.bottom = r.bottom ∧ useOffset then r.bottom - 50 else r.bottom

/-- The polygon `leftPoints` for effective sides `L`, `T`, `B`. -/
def leftPolygon (L T B : ℤ) : QPolygon :=
  [⟨L + 2, T + 2⟩, ⟨L + 2, B⟩, ⟨L + 50, B - 50⟩, ⟨L + 52, T + 52⟩, ⟨L + 2, T + 2⟩]

/-- The polygon `topPoints` for effective sides `L`, `T`, `R`. -/
def topPolygon (L T R : ℤ) : QPolygon :=
  [⟨L + 2, T + 2⟩, ⟨R, T + 2⟩, ⟨R - 50, T + 52⟩, ⟨L + 52, T + 52⟩]

/-- The polygon `rightPoints` for effective sides `T`, `R`, `B`. -/
def rightPolygon (T R B : ℤ) : QPolygon :=
  [⟨R, T + 2⟩, ⟨R, B⟩, ⟨R - 50, B - 50⟩, ⟨R - 50, T + 52⟩]

/-- The polygon `bottomPoints` for effective sides `L`, `R`, `B`. -/
def bottomPolygon (L R B : ℤ) : QPolygon :=
  [⟨L + 2, B⟩, ⟨R, B⟩, ⟨R - 50, B - 50⟩, ⟨L + 52, B - 50⟩]

/-- The width `indicatorWidth` when the polygon `bounds` spans the abscissas `a`, `b`. -/
def indicatorWidthOf (a b : ℤ) : ℤ := min 300 (max a b - min a b + 1 - 100)

/-- The height `indicatorHeight` for a given `indicatorWidth`. -/
def indicatorHeightOf (iw : ℤ) : ℤ :=
  min 160 (truncToInt (fpMul (iw : ℚ) (fpRound (60 / 100))))

/-- The polygon written to `center` when the polygon `bounds` has the corners
`(a, c)`, `(b, c)`, `(b, d)`, `(a, d)`. -/
def centerPolygon (a b c d : ℤ) : QPolygon :=
  let iw := indicatorWidthOf a b
  let ih := indicatorHeightOf iw
  let tw := truncToInt (fpMul (iw : ℚ) (fpRound (267 / 1000)))
  let th := truncToInt (fpMul (ih : ℚ) (fpRound (187 / 1000)))
  let cx := Int.tdiv (min a b + max a b) 2
  let cy := Int.tdiv (min c d + max c d) 2
  [⟨cx - Int.tdiv iw 2, cy - Int.tdiv ih 2⟩,
   ⟨cx - Int.tdiv iw 2 + tw, cy - Int.tdiv ih 2⟩,
   ⟨cx - Int.tdiv iw 2 + tw, cy - Int.tdiv ih 2 + th⟩,
   ⟨cx + Int.tdiv iw 2, cy - Int.tdiv ih 2 + th⟩,
   ⟨cx + Int.tdiv iw 2, cy + Int.tdiv ih 2⟩,
   ⟨cx - Int.tdiv iw 2, cy + Int.tdiv ih 2⟩]

/-- The point lies in the bounding box of `r` extended outward by half the
stroke width, two pixels, on each side. -/
def withinExtended (r : QRect) (p : QPoint) : Prop :=
  r.x - 2 ≤ p.x ∧ p.x ≤ r.right + 2 ∧ r.y - 2 ≤ p.y ∧ p.y ≤ r.bottom + 2

instance (r : QRect) (p : QPoint) : Decidable (withinExtended r p) := by
  unfold withinExtended
  infer_instance

/-- The inner edge locations. -/
def edgeLocations : List DropLocation :=
  [DropLocation_Left, DropLocation_Top, DropLocation_Right, DropLocation_Bottom]

/-- The point keeps a distance of at least `SEGMENT_GIRTH` from every side of
the container that the rectangle `r` touches. -/
def clearOfTouchedSides (container r : QRect) (p : QPoint) : Prop :=
  (r.x = 0 → SEGMENT_GIRTH ≤ p.x) ∧ (r.y = 0 → SEGMENT_GIRTH ≤ p.y) ∧
  (r.right = container.right → p.x ≤ container.right - SEGMENT_GIRTH) ∧
  (r.bottom = container.bottom → p.y ≤ container.bottom - SEGMENT_GIRTH)

instance (container r : QRect) (p : QPoint) : Decidable (clearOfTouchedSides container r p) := by
  unfold clearOfTouchedSides
  infer_instance

/-- Abscissa, computed in doubles, of the edge from `(x1, y1)` up to `(x2, y2)`
at height `y`, as `qt_polygon_isect_line` computes it. -/
def edgeX (x1 y1 x2 y2 y : ℤ) : ℚ :=
  fpAdd (x1 : ℚ) (fpMul (fpDiv ((x2 : ℚ) - x1) ((y2 : ℚ) - y1)) ((y : ℚ) - y1))

/-- Contribution of the edge `p1 → p2` to the winding number at `pos`. -/
def isectDelta (p1 p2 pos : QPoint) : ℤ := qt_polygon_isect_line p1 p2 pos 0

/-- The edge `p1 → p2` changes the winding number at `pos`. -/
def crossing (p1 p2 pos : QPoint) : Bool := decide (isectDelta p1 p2 pos ≠ 0)

/-- Magnitude small enough for every sum formed from such numbers to be a double. -/
def Small (n : ℤ) : Prop := -1099511627776 ≤ n ∧ n ≤ 1099511627776

/-- Magnitude of a pixel coordinate: within the range of a 32 bit integer, with
room for the offsets the geometry adds. -/
def Coord (n : ℤ) : Prop := -4294967296 ≤ n ∧ n ≤ 4294967296

instance (n : ℤ) : Decidable (Coord n) := by
  unfold Coord
  infer_instance

/-- Every coordinate of the rectangle is a pixel coordinate. -/
def rectInRange (r : QRect) : Prop := Coord r.x1 ∧ Coord r.y1 ∧ Coord r.x2 ∧ Coord r.y2

instance (r : QRect) : Decidable (rectInRange r) := by
  unfold rectInRange
  infer_instance

/-- Both coordinates of the point are pixel coordinates. -/
def pointInRange (p : QPoint) : Prop := Coord p.x ∧ Coord p.y

instance (p : QPoint) : Decidable (pointInRange p) := by
  unfold pointInRange
  infer_instance

/-- Magnitude of a coordinate, at most `10^9`, for which no `int` operation of
the geometry builder overflows: sums and differences of two such numbers, also
with the offsets the builder adds, stay within 32 bits. -/
def IntSafe (n : ℤ) : Prop := -1000000000 ≤ n ∧ n ≤ 1000000000

instance (n : ℤ) : Decidable (IntSafe n) := by
  unfold IntSafe
  infer_instance

/-- Every coordinate of the rectangle is within `10^9` in magnitude. -/
def rectIntSafe (r : QRect) : Prop :=
  IntSafe r.x1 ∧ IntSafe r.y1 ∧ IntSafe r.x2 ∧ IntSafe r.y2

instance (r : QRect) : Decidable (rectIntSafe r) := by
  unfold rectIntSafe
  infer_instance

/-- Value of `needsOutterIndicators` in `updateSegments`. -/
def needsOuter (s : SegmentedIndicators) : Bool :=
  decide (s.count > 1) || !s.hoveredFrameRect.isValid

/-- The polygon `updateSegments` stores under a location, the empty polygon for
a location it leaves out. -/
def storedPolygon (s : SegmentedIndicators) : DropLocation → QPolygon
  | DropLocation_None => []
  | DropLocation_Left =>
    if s.hoveredFrameRect.isValid then
      leftPolygon (effLeft s.hoveredFrameRect (needsOuter s))
        (effTop s.hoveredFrameRect (needsOuter s))
        (effBottom s.rect s.hoveredFrameRect (needsOuter s))
    else []
  | DropLocation_Top =>
    if s.hoveredFrameRect.isValid then
      topPolygon (effLeft s.hoveredFrameRect (needsOuter s))
        (effTop s.hoveredFrameRect (needsOuter s))
        (effRight s.rect s.hoveredFrameRect (needsOuter s))
    else []
  | DropLocation_Right =>
    if s.hoveredFrameRect.isValid then
      rightPolygon (effTop s.hoveredFrameRect (needsOuter s))
        (effRight s.rect s.hoveredFrameRect (needsOuter s))
        (effBottom s.rect s.hoveredFrameRect (needsOuter s))
    else []
  | DropLocation_Bottom =>
    if s.hoveredFrameRect.isValid then
      bottomPolygon (effLeft s.hoveredFrameRect (needsOuter s))
        (effRight s.rect s.hoveredFrameRect (needsOuter s))
        (effBottom s.rect s.hoveredFrameRect (needsOuter s))
    else []
  | DropLocation_Center =>
    if s.hoveredFrameRect.isValid then
      centerPolygon (effLeft s.hoveredFrameRect (needsOuter s) + 52)
        (effRight s.rect s.hoveredFrameRect (needsOuter s) - 50)
        (effTop s.hoveredFrameRect (needsOuter s) + 52)
        (effBottom s.rect s.hoveredFrameRect (needsOuter s) - 50)
    else []
  | DropLocation_OutterLeft =>
    if needsOuter s then leftPolygon 0 0 (s.height - 1) else []
  | DropLocation_OutterTop =>
    if needsOuter s then topPolygon 0 0 (s.width - 1) else []
  | DropLocation_OutterRight =>
    if needsOuter s then rightPolygon 0 (s.width - 1) (s.height - 1) else []
  | DropLocation_OutterBottom =>
    if needsOuter s then bottomPolygon 0 (s.width - 1) (s.height - 1) else []

/-- Hit regions of the five polygons built around the effective sides `L`, `T`,
`R`, `B`, named by the inner locations; empty for every other location. -/
def zoneOf (L T R B : ℤ) : DropLocation → QPoint → Prop
  | DropLocation_Left, p =>
    L + 2 ≤ p.x ∧ p.x ≤ L + 51 ∧ T + 2 ≤ p.y ∧ p.y < B ∧ p.x - L < p.y - T ∧
      p.x - (L + 2) < B - p.y
  | DropLocation_Top, p =>
    T + 2 ≤ p.y ∧ p.y < T + 52 ∧ L + (p.y - T) ≤ p.x ∧ p.x < R - (p.y - T - 2)
  | DropLocation_Right, p =>
    T + 2 ≤ p.y ∧ p.y < B ∧ p.x < R ∧ R - 50 ≤ p.x ∧ R - (p.y - T - 2) ≤ p.x ∧
      R - (B - p.y) ≤ p.x
  | DropLocation_Bottom, p =>
    B - 50 ≤ p.y ∧ p.y < B ∧ L + 2 + (B - p.y) ≤ p.x ∧ p.x < R - (B - p.y)
  | DropLocation_Center, p =>
    L + 52 ≤ p.x ∧ p.x < R - 50 ∧ T + 52 ≤ p.y ∧ p.y < B - 50
  | _, _ => False

/-- Hit region of the polygon stored under a location after `updateSegments`. -/
def regZone (s : SegmentedIndicators) (L : DropLocation) (p : QPoint) : Prop :=
  match L with
  | DropLocation_None => False
  | DropLocation_OutterLeft =>
    needsOuter s = true ∧ zoneOf 0 0 (s.width - 1) (s.height - 1) DropLocation_Left p
  | DropLocation_OutterTop =>
    needsOuter s = true ∧ zoneOf 0 0 (s.width - 1) (s.height - 1) DropLocation_Top p
  | DropLocation_OutterRight =>
    needsOuter s = true ∧ zoneOf 0 0 (s.width - 1) (s.height - 1) DropLocation_Right p
  | DropLocation_OutterBottom =>
    needsOuter s = true ∧ zoneOf 0 0 (s.width - 1) (s.height - 1) DropLocation_Bottom p
  | L =>
    s.hoveredFrameRect.isValid = true ∧
      zoneOf (effLeft s.hoveredFrameRect (needsOuter s)) (effTop s.hoveredFrameRect (needsOuter s))
        (effRight s.rect s.hoveredFrameRect (needsOuter s))
        (effBottom s.rect s.hoveredFrameRect (needsOuter s)) L p

/-- Conditions under which the polygons of the registry do not overlap: a
container of at least 103 x 103 pixels, with an `int` size, when the outer ring
is shown; a hovered frame rect, when valid, with coordinates within `10^9`, so
that no `int` operation overflows, and of at least 253 x 363 pixels; and, when
both rings are shown, each side of the hovered frame rect on the corresponding
side of the container or at least 50 pixels inside it. -/
def overlapFree (s : SegmentedIndicators) : Prop :=
  (needsOuter s = true →
    103 ≤ s.width ∧ s.width ≤ 2147483647 ∧ 103 ≤ s.height ∧ s.height ≤ 2147483647) ∧
  (s.hoveredFrameRect.isValid = true →
    rectIntSafe s.hoveredFrameRect ∧ 253 ≤ s.hoveredFrameRect.width ∧
      363 ≤ s.hoveredFrameRect.height) ∧
  (s.hoveredFrameRect.isValid = true → s.count > 1 →
    (s.hoveredFrameRect.x = 0 ∨ 50 ≤ s.hoveredFrameRect.x) ∧
    (s.hoveredFrameRect.y = 0 ∨ 50 ≤ s.hoveredFrameRect.y) ∧
    (s.hoveredFrameRect.right = s.rect.right ∨
      s.hoveredFrameRect.right ≤ s.rect.right - 50) ∧
    (s.hoveredFrameRect.bottom = s.rect.bottom ∨
      s.hoveredFrameRect.bottom ≤ s.rect.bottom - 50))

/-- The rectangle `r` with each side that coincides with the corresponding side
of the container (`r.x = 0`, `r.y = 0`, `r.right` the container's right,
`r.bottom` the container's bottom) moved inward by `SEGMENT_GIRTH`, every other
side unchanged. -/
def insetTouchedSides (container r : QRect) : QRect :=
  ⟨if r.x = 0 then r.x + SEGMENT_GIRTH else r.x,
   if r.y = 0 then r.y + SEGMENT_GIRTH else r.y,
   if r.right = container.right then r.right - SEGMENT_GIRTH else r.right,
   if r.bottom = container.bottom then r.bottom - SEGMENT_GIRTH else r.bottom⟩

/-- Point at parameter `s` of the segment from `a` to `b`. -/
def along (a b : QPoint) (s : ℚ) : ℚ × ℚ :=
  ((a.x : ℚ) + s * ((b.x : ℚ) - a.x), (a.y : ℚ) + s * ((b.y : ℚ) - a.y))

/-- The closed segments from `a` to `b` and from `c` to `d` have a point in
common. -/
def SegmentsMeet (a b c d : QPoint) : Prop :=
  ∃ s t : ℚ, 0 ≤ s ∧ s ≤ 1 ∧ 0 ≤ t ∧ t ≤ 1 ∧ along a b s = along c d t

/-- The consecutive edges from `a` to `b` and from `b` to `c` have a point in
common besides `b`. -/
def EdgesOverlap (a b c : QPoint) : Prop :=
  ∃ s t : ℚ, 0 ≤ s ∧ s < 1 ∧ 0 < t ∧ t ≤ 1 ∧ along a b s = along b c t

/-- The vertex list without the vertices that repeat their successor. -/
def dropRepeats : List QPoint → List QPoint
  | [] => []
  | a :: rest =>
    match dropRepeats rest with
    | [] => [a]
    | b :: r => if a = b then b :: r else a :: b :: r

/-- The distinct successive vertices of the closed outline of a polygon:
repeated vertices are dropped, and so is a last vertex that closes the outline
by repeating the first. -/
def outline (p : QPolygon) : List QPoint :=
  let v := dropRepeats p
  if 1 < v.length ∧ v.head? = v.getLast? then v.dropLast else v

/-- A simple closed polygon: its outline has at least three vertices, no two
consecutive edges of the outline overlap, and no two non-adjacent edges have a
point in common. The edge `i` runs from vertex `i` to the next vertex, the last
edge back to the first vertex. -/
def Simple (p : QPolygon) : Prop :=
  let v := outline p
  let n := v.length
  3 ≤ n ∧
  (∀ i, i < n →
    ¬ EdgesOverlap (v.getD i ⟨0, 0⟩) (v.getD ((i + 1) % n) ⟨0, 0⟩) (v.getD ((i + 2) % n) ⟨0, 0⟩)) ∧
  (∀ i j, i + 1 < j → j < n → ¬ (i = 0 ∧ j + 1 = n) →
    ¬ SegmentsMeet (v.getD i ⟨0, 0⟩) (v.getD ((i + 1) % n) ⟨0, 0⟩)
        (v.getD j ⟨0, 0⟩) (v.getD ((j + 1) % n) ⟨0, 0⟩))

/-! ## The registry as a map -/

theorem updateSegments_segments (s : SegmentedIndicators) :
    (updateSegments s).m_segments =
      (if s.hoveredFrameRect.isValid then
        innerEntries s.rect s.hoveredFrameRect
          (decide (s.count > 1) || !s.hoveredFrameRect.isValid)
        else []) ++
      (if (decide (s.count > 1) || !s.hoveredFrameRect.isValid) then outerEntries s.rect
        else []) := by
  unfold updateSegments
  cases hv : s.hoveredFrameRect.isValid <;> cases hc : decide (s.count > 1) <;> rfl

theorem updateSegments_ordered (s : SegmentedIndicators) :
    Ordered (updateSegments s).m_segments := by
  rw [updateSegments_segments]
  cases hv : s.hoveredFrameRect.isValid <;> cases hc : decide (s.count > 1) <;>
    simp [Ordered, innerEntries, outerEntries, DropLocation.toInt]

theorem updateSegments_no_sentinel (s : SegmentedIndicators) :
    (updateSegments s).m_segments.contains DropLocation_None = false := by
  rw [updateSegments_segments]
  cases hv : s.hoveredFrameRect.isValid <;> cases hc : decide (s.count > 1) <;>
    simp [SegmentMap.contains, innerEntries, outerEntries]

theorem value_of_mem {m : SegmentMap} (hm : Ordered m) {k : DropLocation} {v : QPolygon}
    (h : (k, v) ∈ m) : m.value k = v := by
  induction m with
  | nil => cases h
  | cons e rest ih =>
    obtain ⟨k', v'⟩ := e
    rw [Ordered, List.pairwise_cons] at hm
    rcases List.mem_cons.1 h with h | h
    · cases h
      simp [SegmentMap.value]
    · have hlt := hm.1 _ h
      have hne : k ≠ k' := by
        rintro rfl
        exact lt_irrefl _ hlt
      simp [SegmentMap.value, hne, ih hm.2 h]

theorem contains_iff_mem (m : SegmentMap) (k : DropLocation) :
    m.contains k = true ↔ ∃ v, (k, v) ∈ m := by
  simp only [SegmentMap.contains, List.any_eq_true, decide_eq_true_eq]
  constructor
  · rintro ⟨⟨k', v⟩, hmem, rfl⟩
    exact ⟨v, hmem⟩
  · rintro ⟨v, hmem⟩
    exact ⟨(k, v), hmem, rfl⟩

theorem value_not_contained (m : SegmentMap) (k : DropLocation)
    (h : m.contains k = false) : m.value k = [] := by
  induction m with
  | nil => rfl
  | cons e rest ih =>
    obtain ⟨k', v'⟩ := e
    simp only [SegmentMap.contains, List.any_cons, Bool.or_eq_false_iff,
      decide_eq_false_iff_not] at h
    have hne : k ≠ k' := fun hk => h.1 hk.symm
    simp only [SegmentMap.value, hne, if_false]
    exact ih h.2

theorem containsPoint_nil (p : QPoint) : containsPoint [] p = false := rfl

/-! ## The hit tester -/

theorem dropLocationForPosIn_none_of_no_match (m : SegmentMap) (p : QPoint)
    (h : ∀ e ∈ m, containsPoint e.2 p = false) :
    dropLocationForPosIn m p = DropLocation_None := by
  induction m with
  | nil => rfl
  | cons e rest ih =>
    obtain ⟨k, v⟩ := e
    have hv : containsPoint v p = false := h (k, v) (List.mem_cons_self _ _)
    simp only [dropLocationForPosIn, hv, Bool.false_eq_true, if_false]
    exact ih (fun e he => h e (List.mem_cons_of_mem _ he))

theorem dropLocationForPosIn_match (m : SegmentMap) (p : QPoint)
    (h : ∃ e ∈ m, containsPoint e.2 p = true) :
    ∃ v, (dropLocationForPosIn m p, v) ∈ m ∧ containsPoint v p = true := by
  induction m with
  | nil =>
    obtain ⟨e, he, _⟩ := h
    cases he
  | cons e rest ih =>
    obtain ⟨k, v⟩ := e
    by_cases hv : containsPoint v p = true
    · exact ⟨v, by simp [dropLocationForPosIn, hv], hv⟩
    · have hrest : ∃ e ∈ rest, containsPoint e.2 p = true := by
        obtain ⟨e, he, hc⟩ := h
        rcases List.mem_cons.1 he with rfl | he
        · exact absurd hc hv
        · exact ⟨e, he, hc⟩
      obtain ⟨w, hw, hc⟩ := ih hrest
      refine ⟨w, ?_, hc⟩
      simp only [dropLocationForPosIn, hv, if_false]
      exact List.mem_cons_of_mem _ hw

theorem dropLocationForPosIn_first (m : SegmentMap) (hm : Ordered m) (p : QPoint)
    (e : DropLocation × QPolygon) (he : e ∈ m)
    (hlt : e.1.toInt < (dropLocationForPosIn m p).toInt) : containsPoint e.2 p = false := by
  induction m with
  | nil => cases he
  | cons e' rest ih =>
    obtain ⟨k, v⟩ := e'
    rw [Ordered, List.pairwise_cons] at hm
    by_cases hv : containsPoint v p = true
    · simp only [dropLocationForPosIn, hv, if_true] at hlt
      rcases List.mem_cons.1 he with rfl | he
      · exact absurd hlt (lt_irrefl _)
      · exact absurd (lt_trans (hm.1 _ he) hlt) (lt_irrefl _)
    · simp only [dropLocationForPosIn, hv, if_false] at hlt
      rcases List.mem_cons.1 he with rfl | he
      · simpa using hv
      · exact ih hm.2 he hlt

/-- The hit tester on a rebuilt registry: either nothing contains the point and
the sentinel is returned, or the result is the first location, in ascending
order, whose stored polygon contains the point. -/
theorem hit_spec (s : SegmentedIndicators) (p : QPoint) :
    (dropLocationForPos (updateSegments s) p = DropLocation_None ∧
      ∀ L, containsPoint ((updateSegments s).m_segments.value L) p = false) ∨
    (dropLocationForPos (updateSegments s) p ≠ DropLocation_None ∧
      containsPoint ((updateSegments s).m_segments.value
        (dropLocationForPos (updateSegments s) p)) p = true ∧
      ∀ L, L.toInt < (dropLocationForPos (updateSegments s) p).toInt →
        containsPoint ((updateSegments s).m_segments.value L) p = false) := by
  have hord := updateSegments_ordered s
  have hkey := updateSegments_no_sentinel s
  have hval : ∀ L, containsPoint ((updateSegments s).m_segments.value L) p = true →
      ∃ e ∈ (updateSegments s).m_segments, containsPoint e.2 p = true := by
    intro L hL
    cases hc : (updateSegments s).m_segments.contains L
    · rw [value_not_contained _ _ hc] at hL
      cases hL
    · obtain ⟨v, hv⟩ := (contains_iff_mem _ _).1 hc
      rw [value_of_mem hord hv] at hL
      exact ⟨(L, v), hv, hL⟩
  by_cases hex : ∃ e ∈ (updateSegments s).m_segments, containsPoint e.2 p = true
  · right
    obtain ⟨v, hv, hc⟩ := dropLocationForPosIn_match _ p hex
    have hne : dropLocationForPos (updateSegments s) p ≠ DropLocation_None := by
      intro hnone
      have hmem : (DropLocation_None, v) ∈ (updateSegments s).m_segments := by
        have := hv
        rw [show dropLocationForPosIn (updateSegments s).m_segments p = DropLocation_None
          from hnone] at this
        exact this
      have := (contains_iff_mem _ _).2 ⟨v, hmem⟩
      rw [hkey] at this
      cases this
    refine ⟨hne, ?_, ?_⟩
    · rw [dropLocationForPos, value_of_mem hord hv]
      exact hc
    · intro L hlt
      cases hcL : (updateSegments s).m_segments.contains L
      · rw [value_not_contained _ _ hcL]
        rfl
      · obtain ⟨w, hw⟩ := (contains_iff_mem _ _).1 hcL
        rw [value_of_mem hord hw]
        exact dropLocationForPosIn_first _ hord p (L, w) hw hlt
  · left
    have hno : ∀ e ∈ (updateSegments s).m_segments, containsPoint e.2 p = false := by
      intro e he
      by_contra hc
      exact hex ⟨e, he, by simpa using hc⟩
    refine ⟨dropLocationForPosIn_none_of_no_match _ p hno, ?_⟩
    intro L
    by_contra hc
    exact hex (hval L (by simpa using hc))

theorem indexOf_lt_cases (a b : DropLocation)
    (h : DropLocation.enumeration.indexOf a < DropLocation.enumeration.indexOf b) :
    a ≠ DropLocation_None ∧ (b = DropLocation_None ∨ a.toInt < b.toInt) := by
  cases a <;> cases b <;> revert h <;> decide

/-- C1: for a registry (a map with ascending keys and no entry under the
sentinel, as every registry the overlay builds) and every point `p`,
`dropLocationForPos p` is `DropLocation_None` exactly when no stored polygon
contains `p` under the even-odd rule; and a result `L` other than the sentinel
is a key of the registry whose polygon contains `p`. -/
theorem dropLocationForPos_none_iff_no_polygon_contains (s : SegmentedIndicators) (p : QPoint)
    (hmap : Ordered s.m_segments)
    (hkey : s.m_segments.contains DropLocation_None = false) :
    (dropLocationForPos s p = DropLocation_None ↔
        ∀ e ∈ s.m_segments, containsPoint e.2 p = false) ∧
    (∀ L, dropLocationForPos s p = L → L ≠ DropLocation_None →
        s.m_segments.contains L = true ∧ containsPoint (s.m_segments.value L) p = true) := by
  have key : (∃ e ∈ s.m_segments, containsPoint e.2 p = true) →
      ∃ v, (dropLocationForPos s p, v) ∈ s.m_segments ∧ containsPoint v p = true :=
    dropLocationForPosIn_match s.m_segments p
  constructor
  · constructor
    · intro hnone e he
      by_contra hc
      have hc' : containsPoint e.2 p = true := by simpa using hc
      obtain ⟨v, hv, _⟩ := key ⟨e, he, hc'⟩
      rw [hnone] at hv
      have := (contains_iff_mem s.m_segments DropLocation_None).2 ⟨v, hv⟩
      rw [hkey] at this
      cases this
    · exact dropLocationForPosIn_none_of_no_match s.m_segments p
  · rintro L rfl hL
    have hex : ∃ e ∈ s.m_segments, containsPoint e.2 p = true := by
      by_contra hno
      apply hL
      apply dropLocationForPosIn_none_of_no_match
      intro e he
      by_contra hc
      exact hno ⟨e, he, by simpa using hc⟩
    obtain ⟨v, hv, hc⟩ := key hex
    refine ⟨(contains_iff_mem _ _).2 ⟨v, hv⟩, ?_⟩
    rw [value_of_mem hmap hv]
    exact hc

/-- Witness for C1 on the registry built for an 800 x 600 container with no
hovered frame. -/
theorem dropLocationForPos_none_iff_no_polygon_contains_witness :
    Ordered (updateSegments (initial 800 600 ⟨0, 0, -1, -1⟩ 1)).m_segments ∧
    (updateSegments (initial 800 600 ⟨0, 0, -1, -1⟩ 1)).m_segments.contains
      DropLocation_None = false ∧
    ((dropLocationForPos (updateSegments (initial 800 600 ⟨0, 0, -1, -1⟩ 1)) ⟨10, 10⟩
        = DropLocation_None ↔
      ∀ e ∈ (updateSegments (initial 800 600 ⟨0, 0, -1, -1⟩ 1)).m_segments,
        containsPoint e.2 ⟨10, 10⟩ = false) ∧
     (∀ L, dropLocationForPos (updateSegments (initial 800 600 ⟨0, 0, -1, -1⟩ 1)) ⟨10, 10⟩ = L →
        L ≠ DropLocation_None →
        (updateSegments (initial 800 600 ⟨0, 0, -1, -1⟩ 1)).m_segments.contains L = true ∧
        containsPoint ((updateSegments (initial 800 600 ⟨0, 0, -1, -1⟩ 1)).m_segments.value L)
          ⟨10, 10⟩ = true)) :=
  ⟨updateSegments_ordered _, updateSegments_no_sentinel _,
    dropLocationForPos_none_iff_no_polygon_contains _ _ (updateSegments_ordered _)
      (updateSegments_no_sentinel _)⟩

/-- C2: on a registry built by `updateSegments`, `dropLocationForPos p` is the
first match in the enumeration order Left, Top, Right, Bottom, Center,
OuterLeft, OuterTop, OuterRight, OuterBottom: when some stored polygon contains
`p`, the result is a location of the enumeration whose stored polygon contains
`p`; when none does, the result is the sentinel; no location that comes before
the result in that order (every location, when the result is the sentinel) has
a stored polygon containing `p`; hence a point inside an inner polygon and an
outer polygon yields an inner location. -/
theorem dropLocationForPos_first_in_enumeration_order (s : SegmentedIndicators) (p : QPoint) :
    ((∃ L, containsPoint ((updateSegments s).m_segments.value L) p = true) →
      dropLocationForPos (updateSegments s) p ∈ DropLocation.enumeration ∧
      containsPoint ((updateSegments s).m_segments.value
        (dropLocationForPos (updateSegments s) p)) p = true) ∧
    ((∀ L, containsPoint ((updateSegments s).m_segments.value L) p = false) →
      dropLocationForPos (updateSegments s) p = DropLocation_None) ∧
    (∀ L, DropLocation.enumeration.indexOf L <
          DropLocation.enumeration.indexOf (dropLocationForPos (updateSegments s) p) →
        containsPoint ((updateSegments s).m_segments.value L) p = false) ∧
    (∀ Li ∈ innerLocations, ∀ Lo ∈ outerLocations,
        containsPoint ((updateSegments s).m_segments.value Li) p = true →
        containsPoint ((updateSegments s).m_segments.value Lo) p = true →
        dropLocationForPos (updateSegments s) p ∈ innerLocations) := by
  have hfirst : ∀ L, DropLocation.enumeration.indexOf L <
        DropLocation.enumeration.indexOf (dropLocationForPos (updateSegments s) p) →
      containsPoint ((updateSegments s).m_segments.value L) p = false := by
    intro L hlt
    obtain ⟨_, hcase⟩ := indexOf_lt_cases _ _ hlt
    rcases hit_spec s p with ⟨_, hall⟩ | ⟨hne, _, hfirst⟩
    · exact hall L
    · rcases hcase with hnone | hlt'
      · exact absurd hnone hne
      · exact hfirst L hlt'
  have hmatch : (∃ L, containsPoint ((updateSegments s).m_segments.value L) p = true) →
      dropLocationForPos (updateSegments s) p ∈ DropLocation.enumeration ∧
      containsPoint ((updateSegments s).m_segments.value
        (dropLocationForPos (updateSegments s) p)) p = true := by
    rintro ⟨L, hL⟩
    rcases hit_spec s p with ⟨_, hall⟩ | ⟨hne, hc, _⟩
    · rw [hall L] at hL
      cases hL
    · refine ⟨?_, hc⟩
      revert hne
      generalize dropLocationForPos (updateSegments s) p = R
      cases R <;> decide
  have hnone : (∀ L, containsPoint ((updateSegments s).m_segments.value L) p = false) →
      dropLocationForPos (updateSegments s) p = DropLocation_None := by
    intro hall
    rcases hit_spec s p with ⟨h, _⟩ | ⟨_, hc, _⟩
    · exact h
    · rw [hall] at hc
      cases hc
  refine ⟨hmatch, hnone, hfirst, ?_⟩
  intro Li hLi Lo _ hci _
  have hge : ¬ DropLocation.enumeration.indexOf Li <
      DropLocation.enumeration.indexOf (dropLocationForPos (updateSegments s) p) := by
    intro hlt
    rw [hfirst Li hlt] at hci
    cases hci
  revert hge hLi
  generalize dropLocationForPos (updateSegments s) p = R
  cases Li <;> cases R <;> decide

/-- C3: after `updateSegments` the inner keys are present exactly when the
hovered frame rect is valid, the outer keys exactly when the panel count exceeds
one or the hovered frame rect is invalid, and no other key is present; with one
panel and an invalid hovered frame rect the keys are the four outer ones. -/
theorem updateSegments_keys (s : SegmentedIndicators) :
    (∀ L ∈ innerLocations,
        (updateSegments s).m_segments.contains L = s.hoveredFrameRect.isValid) ∧
    (∀ L ∈ outerLocations,
        (updateSegments s).m_segments.contains L =
          (decide (s.count > 1) || !s.hoveredFrameRect.isValid)) ∧
    (∀ L, L ∉ innerLocations → L ∉ outerLocations →
        (updateSegments s).m_segments.contains L = false) ∧
    (s.count = 1 → s.hoveredFrameRect.isValid = false →
        (updateSegments s).m_segments.keys = outerLocations) := by
  rw [updateSegments_segments]
  refine ⟨?_, ?_, ?_, ?_⟩
  · intro L hL
    cases hv : s.hoveredFrameRect.isValid <;> cases hc : decide (s.count > 1) <;>
      simp only [innerLocations, List.mem_cons, List.mem_singleton, List.not_mem_nil,
        or_false] at hL <;>
      rcases hL with rfl | rfl | rfl | rfl | rfl <;>
      simp [SegmentMap.contains, innerEntries, outerEntries]
  · intro L hL
    cases hv : s.hoveredFrameRect.isValid <;> cases hc : decide (s.count > 1) <;>
      simp only [outerLocations, List.mem_cons, List.mem_singleton, List.not_mem_nil,
        or_false] at hL <;>
      rcases hL with rfl | rfl | rfl | rfl <;>
      simp [SegmentMap.contains, innerEntries, outerEntries]
  · intro L hi ho
    cases hv : s.hoveredFrameRect.isValid <;> cases hc : decide (s.count > 1) <;>
      cases L <;> simp [SegmentMap.contains, innerEntries, outerEntries, innerLocations,
        outerLocations] at hi ho ⊢
  · intro hc hv
    simp [hc, hv, SegmentMap.keys, outerEntries, outerLocations]

/-! ## The geometry builder in closed form -/

theorem tdiv_pen : Int.tdiv SEGMENT_PEN_WIDTH 2 = 2 := by decide

theorem add_def (a b : QPoint) : a + b = ⟨a.x + b.x, a.y + b.y⟩ := rfl

theorem tdiv_cases (a b : ℤ) (hb : 0 < b) :
    (0 ≤ a ∧ Int.tdiv a b = a / b) ∨ (a < 0 ∧ Int.tdiv a b = -((-a) / b)) := by
  rcases le_or_lt 0 a with h | h
  · exact Or.inl ⟨h, Int.tdiv_eq_ediv h hb.le⟩
  · refine Or.inr ⟨h, ?_⟩
    have h1 : Int.tdiv (-a) b = (-a) / b := Int.tdiv_eq_ediv (by omega) hb.le
    rw [← h1, Int.neg_tdiv, neg_neg]

theorem boundsStep_eq (minx maxx miny maxy : ℤ) (p : QPoint) (hx : minx ≤ maxx) (hy : miny ≤ maxy) :
    boundsStep (minx, maxx, miny, maxy) p = (min minx p.x, max maxx p.x, min miny p.y, max maxy p.y) := by
  simp only [boundsStep, min_def, max_def]
  split_ifs <;> simp only [Prod.mk.injEq, true_and, and_true] <;> omega

theorem boundingRect_box (a b c d : ℤ) :
    boundingRect [⟨a, c⟩, ⟨b, c⟩, ⟨b, d⟩, ⟨a, d⟩] = ⟨min a b, min c d, max a b, max c d⟩ := by
  have hm : ∀ u v w : ℤ, min (min u v) w ≤ max (max u v) w := fun u v w =>
    le_trans (min_le_right _ _) (le_max_right _ _)
  simp only [boundingRect, List.foldl]
  rw [boundsStep_eq a a c c ⟨b, c⟩ le_rfl le_rfl]
  rw [boundsStep_eq (min a b) (max a b) (min c c) (max c c) ⟨b, d⟩
    (le_trans (min_le_right _ _) (le_max_right _ _)) (le_trans (min_le_right _ _) (le_max_right _ _))]
  rw [boundsStep_eq _ _ _ _ ⟨a, d⟩ (hm _ _ _) (hm _ _ _)]
  simp only [QRect.ofCorners, QRect.mk.injEq, min_def, max_def]
  split_ifs <;> simp only [true_and, and_true] <;> omega

theorem segmentsForRect_eq (container r : QRect) (useOffset : Bool) :
    segmentsForRect container r useOffset =
      ([leftPolygon (effLeft r useOffset) (effTop r useOffset) (effBottom container r useOffset),
        topPolygon (effLeft r useOffset) (effTop r useOffset) (effRight container r useOffset),
        rightPolygon (effTop r useOffset) (effRight container r useOffset)
          (effBottom container r useOffset),
        bottomPolygon (effLeft r useOffset) (effRight container r useOffset)
          (effBottom container r useOffset)],
       centerPolygon (effLeft r useOffset + 52) (effRight container r useOffset - 50)
         (effTop r useOffset + 52) (effBottom container r useOffset - 50)) := by
  have e1 : ∀ z : ℤ, z + 2 + 50 = z + 52 := fun z => by ring
  have e2 : ∀ z : ℤ, z + -50 = z - 50 := fun z => by ring
  simp only [segmentsForRect, tdiv_pen, SEGMENT_GIRTH, add_def, e1, e2, boundingRect_box]
  rfl

set_option maxRecDepth 100000 in
theorem indicatorHeight_exact (iw : ℤ) (h1 : -99 ≤ iw) (h2 : iw ≤ 300) :
    truncToInt (fpMul (iw : ℚ) (fpRound (60 / 100))) = Int.tdiv (3 * iw) 5 := by
  interval_cases iw <;> decide!

set_option maxRecDepth 100000 in
theorem tabWidth_exact (iw : ℤ) (h1 : -99 ≤ iw) (h2 : iw ≤ 300) :
    truncToInt (fpMul (iw : ℚ) (fpRound (267 / 1000))) = Int.tdiv (267 * iw) 1000 := by
  interval_cases iw <;> decide!

set_option maxRecDepth 100000 in
theorem tabHeight_exact (ih : ℤ) (h1 : -59 ≤ ih) (h2 : ih ≤ 160) :
    truncToInt (fpMul (ih : ℚ) (fpRound (187 / 1000))) = Int.tdiv (187 * ih) 1000 := by
  interval_cases ih <;> decide!

theorem indicatorWidthOf_bounds (a b : ℤ) :
    -99 ≤ indicatorWidthOf a b ∧ indicatorWidthOf a b ≤ 300 := by
  unfold indicatorWidthOf
  omega

theorem indicatorHeightOf_eq (iw : ℤ) (h1 : -99 ≤ iw) (h2 : iw ≤ 300) :
    indicatorHeightOf iw = min 160 (Int.tdiv (3 * iw) 5) := by
  rw [indicatorHeightOf, indicatorHeight_exact iw h1 h2]

theorem indicatorHeightOf_bounds (iw : ℤ) (h1 : -99 ≤ iw) (h2 : iw ≤ 300) :
    -59 ≤ indicatorHeightOf iw ∧ indicatorHeightOf iw ≤ 160 := by
  rw [indicatorHeightOf_eq iw h1 h2]
  rcases tdiv_cases (3 * iw) 5 (by norm_num) with ⟨_, h⟩ | ⟨_, h⟩ <;> rw [h] <;> omega

/-- The center polygon with the floating-point products replaced by the integer
quotients they evaluate to. -/
theorem centerPolygon_eq (a b c d : ℤ) :
    centerPolygon a b c d =
      (let iw := indicatorWidthOf a b
       let ih := min 160 (Int.tdiv (3 * iw) 5)
       let tw := Int.tdiv (267 * iw) 1000
       let th := Int.tdiv (187 * ih) 1000
       let cx := Int.tdiv (a + b) 2
       let cy := Int.tdiv (c + d) 2
       [⟨cx - Int.tdiv iw 2, cy - Int.tdiv ih 2⟩,
        ⟨cx - Int.tdiv iw 2 + tw, cy - Int.tdiv ih 2⟩,
        ⟨cx - Int.tdiv iw 2 + tw, cy - Int.tdiv ih 2 + th⟩,
        ⟨cx + Int.tdiv iw 2, cy - Int.tdiv ih 2 + th⟩,
        ⟨cx + Int.tdiv iw 2, cy + Int.tdiv ih 2⟩,
        ⟨cx - Int.tdiv iw 2, cy + Int.tdiv ih 2⟩]) := by
  obtain ⟨h1, h2⟩ := indicatorWidthOf_bounds a b
  obtain ⟨h3, h4⟩ := indicatorHeightOf_bounds _ h1 h2
  simp only [centerPolygon, min_add_max]
  rw [tabHeight_exact _ h3 h4, tabWidth_exact _ h1 h2, indicatorHeightOf_eq _ h1 h2]

/-! ## Shapes of the registry -/

theorem registry_of_invalid (s : SegmentedIndicators) (h : s.hoveredFrameRect.isValid = false) :
    (updateSegments s).m_segments = outerEntries s.rect := by
  rw [updateSegments_segments]
  simp [h]

theorem registry_of_valid_multi (s : SegmentedIndicators) (h : s.hoveredFrameRect.isValid = true)
    (hc : s.count > 1) :
    (updateSegments s).m_segments =
      innerEntries s.rect s.hoveredFrameRect true ++ outerEntries s.rect := by
  rw [updateSegments_segments]
  simp [h, hc]

theorem registry_of_valid_single (s : SegmentedIndicators)
    (h : s.hoveredFrameRect.isValid = true) (hc : ¬ s.count > 1) :
    (updateSegments s).m_segments = innerEntries s.rect s.hoveredFrameRect false := by
  rw [updateSegments_segments]
  simp [h, hc]

theorem value_append_right (m₁ m₂ : SegmentMap) (k : DropLocation)
    (h : m₁.contains k = false) : SegmentMap.value (m₁ ++ m₂) k = SegmentMap.value m₂ k := by
  induction m₁ with
  | nil => rfl
  | cons e rest ih =>
    obtain ⟨k', v'⟩ := e
    simp only [SegmentMap.contains, List.any_cons, Bool.or_eq_false_iff,
      decide_eq_false_iff_not] at h
    have hne : k ≠ k' := fun hk => h.1 hk.symm
    simp only [List.cons_append, SegmentMap.value, hne, if_false]
    exact ih h.2

theorem outer_values (s : SegmentedIndicators)
    (h : (decide (s.count > 1) || !s.hoveredFrameRect.isValid) = true) (L : DropLocation)
    (hL : L ∈ outerLocations) :
    (updateSegments s).m_segments.value L = SegmentMap.value (outerEntries s.rect) L := by
  rw [updateSegments_segments, h, if_pos rfl]
  apply value_append_right
  simp only [outerLocations, List.mem_cons, List.mem_singleton, List.not_mem_nil,
    or_false] at hL
  cases hv : s.hoveredFrameRect.isValid <;>
    rcases hL with rfl | rfl | rfl | rfl <;> simp [SegmentMap.contains, innerEntries]

theorem eff_false (container r : QRect) :
    effLeft r false = r.x ∧ effTop r false = r.y ∧ effRight container r false = r.right ∧
      effBottom container r false = r.bottom := by
  simp [effLeft, effTop, effRight, effBottom]

theorem eff_cases (container r : QRect) (useOffset : Bool) :
    (effLeft r useOffset = r.x ∨ (r.x = 0 ∧ effLeft r useOffset = 50)) ∧
    (effTop r useOffset = r.y ∨ (r.y = 0 ∧ effTop r useOffset = 50)) ∧
    (effRight container r useOffset = r.right ∨
      (container.right = r.right ∧ effRight container r useOffset = r.right - 50)) ∧
    (effBottom container r useOffset = r.bottom ∨
      (container.bottom = r.bottom ∧ effBottom container r useOffset = r.bottom - 50)) := by
  unfold effLeft effTop effRight effBottom
  refine ⟨?_, ?_, ?_, ?_⟩ <;> split_ifs with h <;> simp_all

theorem eff_true (container r : QRect) :
    (r.x = 0 → effLeft r true = 50) ∧ (r.y = 0 → effTop r true = 50) ∧
    (r.right = container.right → effRight container r true = r.right - 50) ∧
    (r.bottom = container.bottom → effBottom container r true = r.bottom - 50) := by
  unfold effLeft effTop effRight effBottom
  refine ⟨?_, ?_, ?_, ?_⟩ <;> intro h <;> simp [h]

/-! ## The arithmetic on 32 bit integers -/

/-- A value that fits a 32 bit `int` is not changed by the reduction. -/
theorem wrapInt_of_fits (n : ℤ) (h : -2147483648 ≤ n ∧ n ≤ 2147483647) : wrapInt n = n := by
  unfold wrapInt
  omega

/-- Effective sides of a rectangle with coordinates within `10^9`. -/
theorem eff_safe (container r : QRect) (useOffset : Bool) (h : rectIntSafe r) :
    (-1000000000 ≤ effLeft r useOffset ∧ effLeft r useOffset ≤ 1000000000) ∧
    (-1000000000 ≤ effTop r useOffset ∧ effTop r useOffset ≤ 1000000000) ∧
    (-1000000050 ≤ effRight container r useOffset ∧
      effRight container r useOffset ≤ 1000000000) ∧
    (-1000000050 ≤ effBottom container r useOffset ∧
      effBottom container r useOffset ≤ 1000000000) := by
  obtain ⟨⟨a1, a2⟩, ⟨b1, b2⟩, ⟨c1, c2⟩, ⟨d1, d2⟩⟩ := h
  obtain ⟨hL, hT, hR, hB⟩ := eff_cases container r useOffset
  simp only [QRect.x, QRect.y, QRect.right, QRect.bottom] at hL hT hR hB
  refine ⟨?_, ?_, ?_, ?_⟩ <;> omega

/-- The center polygon computed with 32 bit operations from inner corners within
range. -/
theorem center_wraps (a b c d : ℤ) (ha : -1000000100 ≤ a ∧ a ≤ 1000000100)
    (hb : -1000000100 ≤ b ∧ b ≤ 1000000100) (hc : -1000000100 ≤ c ∧ c ≤ 1000000100)
    (hd : -1000000100 ≤ d ∧ d ≤ 1000000100) :
    let iw := indicatorWidthOf a b
    let ih := min 160 (Int.tdiv (3 * iw) 5)
    let tw := Int.tdiv (267 * iw) 1000
    let th := Int.tdiv (187 * ih) 1000
    let cx := Int.tdiv (a + b) 2
    let cy := Int.tdiv (c + d) 2
    wrapInt (max a b - min a b + 1) = max a b - min a b + 1 ∧
    wrapInt (max a b - min a b + 1 - 100) = max a b - min a b + 1 - 100 ∧
    wrapInt (cx - Int.tdiv iw 2) = cx - Int.tdiv iw 2 ∧
    wrapInt (cx + Int.tdiv iw 2) = cx + Int.tdiv iw 2 ∧
    wrapInt (cy + Int.tdiv ih 2) = cy + Int.tdiv ih 2 ∧
    wrapInt (cy - Int.tdiv ih 2) = cy - Int.tdiv ih 2 ∧
    wrapInt (cx - Int.tdiv iw 2 + tw) = cx - Int.tdiv iw 2 + tw ∧
    wrapInt (cy - Int.tdiv ih 2 + th) = cy - Int.tdiv ih 2 + th := by
  intro iw ih tw th cx cy
  have hiw : -99 ≤ iw ∧ iw ≤ 300 := indicatorWidthOf_bounds a b
  have hih : -59 ≤ ih ∧ ih ≤ 160 := by
    have h5 := tdiv_cases (3 * iw) 5 (by norm_num)
    have hihd : ih = min 160 (Int.tdiv (3 * iw) 5) := rfl
    generalize Int.tdiv (3 * iw) 5 = q5 at *
    clear_value iw ih
    omega
  have hw2 : -150 ≤ Int.tdiv iw 2 ∧ Int.tdiv iw 2 ≤ 150 := by
    have h := tdiv_cases iw 2 (by norm_num)
    generalize Int.tdiv iw 2 = q at *
    clear_value iw
    omega
  have hh2 : -80 ≤ Int.tdiv ih 2 ∧ Int.tdiv ih 2 ≤ 80 := by
    have h := tdiv_cases ih 2 (by norm_num)
    generalize Int.tdiv ih 2 = q at *
    clear_value ih
    omega
  have htw : -100 ≤ tw ∧ tw ≤ 100 := by
    have h := tdiv_cases (267 * iw) 1000 (by norm_num)
    have htwd : tw = Int.tdiv (267 * iw) 1000 := rfl
    rw [← htwd] at h
    clear_value iw tw
    omega
  have hth : -100 ≤ th ∧ th ≤ 100 := by
    have h := tdiv_cases (187 * ih) 1000 (by norm_num)
    have hthd : th = Int.tdiv (187 * ih) 1000 := rfl
    rw [← hthd] at h
    clear_value ih th
    omega
  have hmid : ∀ u v : ℤ, -1000000100 ≤ u ∧ u ≤ 1000000100 → -1000000100 ≤ v ∧ v ≤ 1000000100 →
      (-1000000100 ≤ Int.tdiv (u + v) 2 ∧ Int.tdiv (u + v) 2 ≤ 1000000100) ∧
      (-2147483648 ≤ max u v - min u v + 1 - 100 ∧ max u v - min u v + 1 ≤ 2147483647) := by
    intro u v hu hv
    have h := tdiv_cases (u + v) 2 (by norm_num)
    generalize Int.tdiv (u + v) 2 = q at *
    rcases le_total u v with huv | huv
    · rw [min_eq_left huv, max_eq_right huv]
      omega
    · rw [min_eq_right huv, max_eq_left huv]
      omega
  have hcx : -1000000100 ≤ cx ∧ cx ≤ 1000000100 := (hmid a b ha hb).1
  have hcy : -1000000100 ≤ cy ∧ cy ≤ 1000000100 := (hmid c d hc hd).1
  have hwd := (hmid a b ha hb).2
  generalize Int.tdiv iw 2 = w2 at *
  generalize Int.tdiv ih 2 = h2 at *
  generalize max a b - min a b = dd at *
  clear_value iw ih tw th cx cy
  clear hmid
  refine ⟨?_, ?_, ?_, ?_, ?_, ?_, ?_, ?_⟩ <;> apply wrapInt_of_fits <;> omega

set_option maxHeartbeats 1000000 in
/-- For a rectangle with coordinates within `10^9` no operation of
`segmentsForRect` overflows: the compiled code computes what the arithmetic on
unbounded integers gives. -/
theorem segmentsForRect32_eq (container r : QRect) (useOffset : Bool) (h : rectIntSafe r) :
    segmentsForRect32 container r useOffset = segmentsForRect container r useOffset := by
  obtain ⟨sL, sT, sR, sB⟩ := eff_safe container r useOffset h
  have wR : (if container.right = r.right ∧ useOffset = true then wrapInt (r.right - 50)
      else r.right) = effRight container r useOffset := by
    unfold effRight
    split_ifs
    · exact wrapInt_of_fits _ (by have := h.2.2.1; unfold IntSafe at this; simp only [QRect.right]; omega)
    · rfl
  have wB : (if container.bottom = r.bottom ∧ useOffset = true then wrapInt (r.bottom - 50)
      else r.bottom) = effBottom container r useOffset := by
    unfold effBottom
    split_ifs
    · exact wrapInt_of_fits _ (by have := h.2.2.2; unfold IntSafe at this; simp only [QRect.bottom]; omega)
    · rfl
  have wL : (if r.x = 0 ∧ useOffset = true then (50 : ℤ) else r.x) = effLeft r useOffset := rfl
  have wT : (if r.y = 0 ∧ useOffset = true then (50 : ℤ) else r.y) = effTop r useOffset := rfl
  have f1 := wrapInt_of_fits (effLeft r useOffset + 2) (by omega)
  have f2 := wrapInt_of_fits (effTop r useOffset + 2) (by omega)
  have f3 := wrapInt_of_fits (effLeft r useOffset + 52) (by omega)
  have f4 := wrapInt_of_fits (effTop r useOffset + 52) (by omega)
  have f5 := wrapInt_of_fits (effRight container r useOffset - 50) (by omega)
  have f6 := wrapInt_of_fits (effBottom container r useOffset - 50) (by omega)
  have f7 := wrapInt_of_fits (effLeft r useOffset + 50) (by omega)
  have e1 : ∀ z : ℤ, z + 2 + 50 = z + 52 := fun z => by ring
  have e2 : ∀ z : ℤ, z + -50 = z - 50 := fun z => by ring
  obtain ⟨g1, g2, g3, g4, g5, g6, g7, g8⟩ := center_wraps (effLeft r useOffset + 52)
    (effRight container r useOffset - 50) (effTop r useOffset + 52)
    (effBottom container r useOffset - 50) (by omega) (by omega) (by omega) (by omega)
  have hiw := indicatorWidthOf_bounds (effLeft r useOffset + 52) (effRight container r useOffset - 50)
  have hiwd : min 300 (max (effLeft r useOffset + 52) (effRight container r useOffset - 50) -
        min (effLeft r useOffset + 52) (effRight container r useOffset - 50) + 1 - 100) =
      indicatorWidthOf (effLeft r useOffset + 52) (effRight container r useOffset - 50) := rfl
  have hih := indicatorHeight_exact _ hiw.1 hiw.2
  have htw := tabWidth_exact _ hiw.1 hiw.2
  have hth := tabHeight_exact (min 160 (Int.tdiv (3 * indicatorWidthOf (effLeft r useOffset + 52)
    (effRight container r useOffset - 50)) 5))
    (by have := tdiv_cases (3 * indicatorWidthOf (effLeft r useOffset + 52)
          (effRight container r useOffset - 50)) 5 (by norm_num); omega)
    (min_le_left _ _)
  rw [segmentsForRect_eq, centerPolygon_eq]
  simp only [segmentsForRect32, tdiv_pen, SEGMENT_GIRTH, wR, wB, wL, wT, f1, f2, e1, e2, f3, f4,
    f5, f6, f7, boundingRect_box, QRect.width, QRect.center, min_add_max, g1, g2, hiwd, hih, htw,
    hth, g3, g4, g5, g6, g7, g8, leftPolygon, topPolygon, rightPolygon, bottomPolygon]

/-- Coordinates within `10^9` are pixel coordinates. -/
theorem rectInRange_of_safe (r : QRect) (h : rectIntSafe r) : rectInRange r := by
  unfold rectIntSafe IntSafe at h
  unfold rectInRange Coord
  omega

/-! ## The scenarios of the specification -/

/-- C5, as stated, fails: for the container (0,0,800,600), the hovered frame rect
(100,100,200,150) and two panels, the stored Center polygon does not contain
(200,175) and the hit test there does not return Center. -/
theorem center_polygon_misses_200_175 :
    ¬ (containsPoint
          ((updateSegments (initial 800 600 (QRect.ofXYWH 100 100 200 150) 2)).m_segments.value
            DropLocation_Center) ⟨200, 175⟩ = true ∧
       dropLocationForPos (updateSegments (initial 800 600 (QRect.ofXYWH 100 100 200 150) 2))
          ⟨200, 175⟩ = DropLocation_Center) := by
  decide!

/-- C5, amended: for the container (0,0,800,600), the hovered frame rect
(100,100,200,150) and two panels (whatever the hovered point and the previous
registry), `indicatorWidth` is `-2`, the stored Center polygon is degenerate,
all six vertices having ordinate 175, it contains no point at all, and the hit
test at (200,175) returns `DropLocation_None`. -/
theorem center_polygon_degenerate_200x150 (pt : QPoint) (m : SegmentMap) :
    indicatorWidthOf (100 + 2 + 50) (299 - 50) = -2 ∧
    (updateSegments ⟨800, 600, QRect.ofXYWH 100 100 200 150, 2, pt, m⟩).m_segments.value
        DropLocation_Center
      = [⟨201, 175⟩, ⟨201, 175⟩, ⟨201, 175⟩, ⟨199, 175⟩, ⟨199, 175⟩, ⟨201, 175⟩] ∧
    (∀ p, containsPoint
        ((updateSegments ⟨800, 600, QRect.ofXYWH 100 100 200 150, 2, pt, m⟩).m_segments.value
          DropLocation_Center) p = false) ∧
    dropLocationForPos (updateSegments ⟨800, 600, QRect.ofXYWH 100 100 200 150, 2, pt, m⟩)
        ⟨200, 175⟩ = DropLocation_None := by
  have hreg : (updateSegments ⟨800, 600, QRect.ofXYWH 100 100 200 150, 2, pt, m⟩).m_segments
      = (updateSegments (initial 800 600 (QRect.ofXYWH 100 100 200 150) 2)).m_segments := rfl
  have hval : (updateSegments (initial 800 600 (QRect.ofXYWH 100 100 200 150) 2)).m_segments.value
        DropLocation_Center
      = [⟨201, 175⟩, ⟨201, 175⟩, ⟨201, 175⟩, ⟨199, 175⟩, ⟨199, 175⟩, ⟨201, 175⟩] := by decide!
  have hhit : dropLocationForPosIn
      (updateSegments (initial 800 600 (QRect.ofXYWH 100 100 200 150) 2)).m_segments
        ⟨200, 175⟩ = DropLocation_None := by decide!
  rw [dropLocationForPos, hreg, hval]
  refine ⟨by decide, rfl, ?_, hhit⟩
  intro p
  simp [containsPoint, windingLoop, qt_polygon_isect_line]

/-- C6: for the container (0,0,800,600) and an invalid hovered frame rect
(whatever the panel count, one in particular) the hit test at (10,10) returns
OuterLeft or OuterTop; it is OuterTop, the point lying on the diagonal from
(2,2) to (52,52) that the two wedges share. -/
theorem outer_hit_at_10_10 (s : SegmentedIndicators) (hw : s.width = 800)
    (hh : s.height = 600) (hv : s.hoveredFrameRect.isValid = false) :
    (dropLocationForPos (updateSegments s) ⟨10, 10⟩ = DropLocation_OutterLeft ∨
      dropLocationForPos (updateSegments s) ⟨10, 10⟩ = DropLocation_OutterTop) ∧
    dropLocationForPos (updateSegments s) ⟨10, 10⟩ = DropLocation_OutterTop ∧
    ((⟨2, 2⟩ : QPoint) ∈ (updateSegments s).m_segments.value DropLocation_OutterLeft ∧
      (⟨52, 52⟩ : QPoint) ∈ (updateSegments s).m_segments.value DropLocation_OutterLeft ∧
      (⟨2, 2⟩ : QPoint) ∈ (updateSegments s).m_segments.value DropLocation_OutterTop ∧
      (⟨52, 52⟩ : QPoint) ∈ (updateSegments s).m_segments.value DropLocation_OutterTop) := by
  have hreg := registry_of_invalid s hv
  have hrect : s.rect = QRect.ofXYWH 0 0 800 600 := by rw [rect, hw, hh]
  have key : dropLocationForPosIn (outerEntries (QRect.ofXYWH 0 0 800 600)) ⟨10, 10⟩
      = DropLocation_OutterTop := by decide!
  have hit : dropLocationForPos (updateSegments s) ⟨10, 10⟩ = DropLocation_OutterTop := by
    rw [dropLocationForPos, hreg, hrect, key]
  refine ⟨Or.inr hit, hit, ?_⟩
  rw [hreg, hrect]
  decide

/-- Witness for C6: one panel and the default-constructed, invalid rectangle. -/
theorem outer_hit_at_10_10_witness :
    (initial 800 600 ⟨0, 0, -1, -1⟩ 1).width = 800 ∧
    (initial 800 600 ⟨0, 0, -1, -1⟩ 1).height = 600 ∧
    (initial 800 600 ⟨0, 0, -1, -1⟩ 1).hoveredFrameRect.isValid = false ∧
    (initial 800 600 ⟨0, 0, -1, -1⟩ 1).count = 1 ∧
    dropLocationForPos (updateSegments (initial 800 600 ⟨0, 0, -1, -1⟩ 1)) ⟨10, 10⟩
      = DropLocation_OutterTop :=
  ⟨rfl, rfl, rfl, rfl,
    (outer_hit_at_10_10 (initial 800 600 ⟨0, 0, -1, -1⟩ 1) rfl rfl rfl).2.1⟩

/-! ## The outer ring -/

/-- C10: whenever the outer ring is present, the four outer polygons are the edge
polygons of `segmentsForRect(rect(), useOffset = false)`; their vertices are
given by the container size alone, with the outer corners (2,2), (right,2),
(2,bottom), (right,bottom) for right = width - 1 and bottom = height - 1, so
that they are never inset and two overlays of the same size store the same
outer polygons whatever their hovered frame rects and panel counts. -/
theorem outer_ring_is_container_ring (s : SegmentedIndicators)
    (h : (decide (s.count > 1) || !s.hoveredFrameRect.isValid) = true) :
    ((updateSegments s).m_segments.value DropLocation_OutterLeft =
        (segmentsForRect s.rect s.rect false).1.getD 0 [] ∧
      (updateSegments s).m_segments.value DropLocation_OutterTop =
        (segmentsForRect s.rect s.rect false).1.getD 1 [] ∧
      (updateSegments s).m_segments.value DropLocation_OutterRight =
        (segmentsForRect s.rect s.rect false).1.getD 2 [] ∧
      (updateSegments s).m_segments.value DropLocation_OutterBottom =
        (segmentsForRect s.rect s.rect false).1.getD 3 []) ∧
    ((updateSegments s).m_segments.value DropLocation_OutterLeft =
        [⟨2, 2⟩, ⟨2, s.height - 1⟩, ⟨50, s.height - 1 - 50⟩, ⟨52, 52⟩, ⟨2, 2⟩] ∧
      (updateSegments s).m_segments.value DropLocation_OutterTop =
        [⟨2, 2⟩, ⟨s.width - 1, 2⟩, ⟨s.width - 1 - 50, 52⟩, ⟨52, 52⟩] ∧
      (updateSegments s).m_segments.value DropLocation_OutterRight =
        [⟨s.width - 1, 2⟩, ⟨s.width - 1, s.height - 1⟩, ⟨s.width - 1 - 50, s.height - 1 - 50⟩,
          ⟨s.width - 1 - 50, 52⟩] ∧
      (updateSegments s).m_segments.value DropLocation_OutterBottom =
        [⟨2, s.height - 1⟩, ⟨s.width - 1, s.height - 1⟩, ⟨s.width - 1 - 50, s.height - 1 - 50⟩,
          ⟨52, s.height - 1 - 50⟩]) ∧
    (∀ s' : SegmentedIndicators, s'.width = s.width → s'.height = s.height →
      (decide (s'.count > 1) || !s'.hoveredFrameRect.isValid) = true →
      ∀ L ∈ outerLocations,
        (updateSegments s').m_segments.value L = (updateSegments s).m_segments.value L) := by
  have hr : s.rect.x = 0 ∧ s.rect.y = 0 ∧ s.rect.right = s.width - 1 ∧
      s.rect.bottom = s.height - 1 := by
    simp [rect, QRect.ofXYWH, QRect.x, QRect.y, QRect.right, QRect.bottom]
  obtain ⟨hx, hy, hrt, hb⟩ := hr
  obtain ⟨e1, e2, e3, e4⟩ := eff_false s.rect s.rect
  refine ⟨?_, ?_, ?_⟩
  · rw [outer_values s h _ (by simp [outerLocations]),
      outer_values s h _ (by simp [outerLocations]),
      outer_values s h _ (by simp [outerLocations]),
      outer_values s h _ (by simp [outerLocations])]
    exact ⟨rfl, rfl, rfl, rfl⟩
  · rw [outer_values s h _ (by simp [outerLocations]),
      outer_values s h _ (by simp [outerLocations]),
      outer_values s h _ (by simp [outerLocations]),
      outer_values s h _ (by simp [outerLocations])]
    simp [outerEntries, SegmentMap.value, segmentsForRect_eq, e1, e2, e3, e4, hx, hy, hrt, hb,
      leftPolygon, topPolygon, rightPolygon, bottomPolygon]
  · intro s' hw hh h' L hL
    rw [outer_values s h L hL, outer_values s' h' L hL]
    have : s'.rect = s.rect := by rw [rect, rect, hw, hh]
    rw [this]

/-- Witness for C10: two panels around a valid hovered frame. -/
theorem outer_ring_is_container_ring_witness :
    (decide ((initial 800 600 (QRect.ofXYWH 0 0 400 600) 2).count > 1) ||
      !(initial 800 600 (QRect.ofXYWH 0 0 400 600) 2).hoveredFrameRect.isValid) = true ∧
    (updateSegments (initial 800 600 (QRect.ofXYWH 0 0 400 600) 2)).m_segments.value
        DropLocation_OutterRight
      = [⟨799, 2⟩, ⟨799, 599⟩, ⟨749, 549⟩, ⟨749, 52⟩] :=
  ⟨rfl, (outer_ring_is_container_ring (initial 800 600 (QRect.ofXYWH 0 0 400 600) 2) rfl).2.1.2.2.1⟩

/-! ## Extent of the polygons -/

/-- Abscissas of the center polygon stay inside a rectangle that is at least
101 wide. -/
theorem center_x_within (lo hi L R : ℤ) (hw : 100 ≤ hi - lo) (hL : L = lo ∨ (lo = 0 ∧ L = 50))
    (hR : R = hi ∨ R = hi - 50) :
    let iw := indicatorWidthOf (L + 52) (R - 50)
    let cx := Int.tdiv (L + 52 + (R - 50)) 2
    (lo - 2 ≤ cx - Int.tdiv iw 2 ∧ cx - Int.tdiv iw 2 ≤ hi + 2) ∧
    (lo - 2 ≤ cx - Int.tdiv iw 2 + Int.tdiv (267 * iw) 1000 ∧
      cx - Int.tdiv iw 2 + Int.tdiv (267 * iw) 1000 ≤ hi + 2) ∧
    (lo - 2 ≤ cx + Int.tdiv iw 2 ∧ cx + Int.tdiv iw 2 ≤ hi + 2) := by
  intro iw cx
  have hiw : iw = min 300 (max (L + 52) (R - 50) - min (L + 52) (R - 50) + 1 - 100) := rfl
  have h2 := tdiv_cases (267 * iw) 1000 (by norm_num)
  have h4 := tdiv_cases iw 2 (by norm_num)
  have h6 := tdiv_cases (L + 52 + (R - 50)) 2 (by norm_num)
  have hcx : cx = Int.tdiv (L + 52 + (R - 50)) 2 := rfl
  rw [← hcx] at h6
  generalize Int.tdiv (267 * iw) 1000 = q2 at *
  generalize Int.tdiv iw 2 = q4 at *
  clear_value iw cx
  omega

/-- Ordinates of the center polygon stay inside a rectangle that is at least
208 high. -/
theorem center_y_within (lo hi T B iw : ℤ) (hh : 207 ≤ hi - lo) (hT : T = lo ∨ (lo = 0 ∧ T = 50))
    (hB : B = hi ∨ B = hi - 50) (hiw : -99 ≤ iw ∧ iw ≤ 300) :
    let ih := min 160 (Int.tdiv (3 * iw) 5)
    let cy := Int.tdiv (T + 52 + (B - 50)) 2
    (lo - 2 ≤ cy - Int.tdiv ih 2 ∧ cy - Int.tdiv ih 2 ≤ hi + 2) ∧
    (lo - 2 ≤ cy - Int.tdiv ih 2 + Int.tdiv (187 * ih) 1000 ∧
      cy - Int.tdiv ih 2 + Int.tdiv (187 * ih) 1000 ≤ hi + 2) ∧
    (lo - 2 ≤ cy + Int.tdiv ih 2 ∧ cy + Int.tdiv ih 2 ≤ hi + 2) := by
  intro ih cy
  have hih : ih = min 160 (Int.tdiv (3 * iw) 5) := rfl
  have h1 := tdiv_cases (3 * iw) 5 (by norm_num)
  have h3 := tdiv_cases (187 * ih) 1000 (by norm_num)
  have h5 := tdiv_cases ih 2 (by norm_num)
  have h7 := tdiv_cases (T + 52 + (B - 50)) 2 (by norm_num)
  have hcy : cy = Int.tdiv (T + 52 + (B - 50)) 2 := rfl
  rw [← hcy] at h7
  generalize Int.tdiv (3 * iw) 5 = q1 at *
  generalize Int.tdiv (187 * ih) 1000 = q3 at *
  generalize Int.tdiv ih 2 = q5 at *
  clear_value ih cy
  omega

/-- C7, as stated, fails: for the 10 x 10 rectangle at (100,100) the inner
vertices of the wedges lie 50 pixels inside the outer corners, outside the
rectangle extended by two pixels. -/
theorem edge_vertex_outside_small_rect :
    ¬ (∀ poly ∈
          (segmentsForRect (QRect.ofXYWH 0 0 800 600) (QRect.ofXYWH 100 100 10 10) false).1 ++
          [(segmentsForRect (QRect.ofXYWH 0 0 800 600) (QRect.ofXYWH 100 100 10 10) false).2],
        poly ≠ [] ∧ ∀ v ∈ poly, withinExtended (QRect.ofXYWH 100 100 10 10) v) := by
  decide!

/-- On unbounded integers: for every rectangle at least 101 wide and 208 high
the polygons of `segmentsForRect` are non-empty with every vertex inside the
rectangle extended outward by two pixels on each side. -/
theorem segments_within_rect_exact (container r : QRect) (useOffset : Bool)
    (hw : 101 ≤ r.width) (hh : 208 ≤ r.height) :
    (segmentsForRect container r useOffset).1.length = 4 ∧
    ∀ poly ∈ (segmentsForRect container r useOffset).1 ++
        [(segmentsForRect container r useOffset).2],
      poly ≠ [] ∧ ∀ v ∈ poly, withinExtended r v := by
  rw [segmentsForRect_eq]
  refine ⟨rfl, ?_⟩
  obtain ⟨hL, hT, hR, hB⟩ := eff_cases container r useOffset
  have hcx := center_x_within r.x r.right (effLeft r useOffset) (effRight container r useOffset)
    (by simp only [QRect.width, QRect.x, QRect.right] at *; omega) hL
    (by rcases hR with h | h; exacts [Or.inl h, Or.inr h.2])
  have hcy := center_y_within r.y r.bottom (effTop r useOffset)
    (effBottom container r useOffset)
    (indicatorWidthOf (effLeft r useOffset + 52) (effRight container r useOffset - 50))
    (by simp only [QRect.height, QRect.y, QRect.bottom] at *; omega) hT
    (by rcases hB with h | h; exacts [Or.inl h, Or.inr h.2]) (indicatorWidthOf_bounds _ _)
  generalize effLeft r useOffset = L at *
  generalize effTop r useOffset = T at *
  generalize effRight container r useOffset = R at *
  generalize effBottom container r useOffset = B at *
  simp only [QRect.width, QRect.height, QRect.x, QRect.y, QRect.right, QRect.bottom] at *
  intro poly hpoly
  simp only [List.cons_append, List.nil_append, List.mem_cons, List.mem_singleton,
    List.not_mem_nil, or_false] at hpoly
  rcases hpoly with rfl | rfl | rfl | rfl | rfl
  · refine ⟨by simp [leftPolygon], ?_⟩
    intro v hv
    simp only [leftPolygon, List.mem_cons, List.mem_singleton, List.not_mem_nil, or_false] at hv
    rcases hv with rfl | rfl | rfl | rfl | rfl <;>
      simp only [withinExtended, QRect.x, QRect.y, QRect.right, QRect.bottom] <;> omega
  · refine ⟨by simp [topPolygon], ?_⟩
    intro v hv
    simp only [topPolygon, List.mem_cons, List.mem_singleton, List.not_mem_nil, or_false] at hv
    rcases hv with rfl | rfl | rfl | rfl <;>
      simp only [withinExtended, QRect.x, QRect.y, QRect.right, QRect.bottom] <;> omega
  · refine ⟨by simp [rightPolygon], ?_⟩
    intro v hv
    simp only [rightPolygon, List.mem_cons, List.mem_singleton, List.not_mem_nil, or_false] at hv
    rcases hv with rfl | rfl | rfl | rfl <;>
      simp only [withinExtended, QRect.x, QRect.y, QRect.right, QRect.bottom] <;> omega
  · refine ⟨by simp [bottomPolygon], ?_⟩
    intro v hv
    simp only [bottomPolygon, List.mem_cons, List.mem_singleton, List.not_mem_nil, or_false] at hv
    rcases hv with rfl | rfl | rfl | rfl <;>
      simp only [withinExtended, QRect.x, QRect.y, QRect.right, QRect.bottom] <;> omega
  · rw [centerPolygon_eq]
    refine ⟨by simp, ?_⟩
    intro v hv
    obtain ⟨⟨x1, x2⟩, ⟨x3, x4⟩, x5, x6⟩ := hcx
    obtain ⟨⟨y1, y2⟩, ⟨y3, y4⟩, y5, y6⟩ := hcy
    simp only [List.mem_cons, List.mem_singleton, List.not_mem_nil, or_false] at hv
    rcases hv with rfl | rfl | rfl | rfl | rfl | rfl <;>
      simp only [withinExtended, QRect.x, QRect.y, QRect.right, QRect.bottom] <;>
      refine ⟨?_, ?_, ?_, ?_⟩ <;> assumption

/-- C7, amended: for every rectangle with coordinates within `10^9`, so that no
`int` operation overflows and the compiled code computes what `segmentsForRect`
gives, that is at least 101 wide and 208 high, and either value of `useOffset`,
`segmentsForRect` returns four edge polygons, and each of them and the center
polygon is non-empty with every vertex inside the rectangle extended outward by
two pixels on each side. -/
theorem segments_within_rect (container r : QRect) (useOffset : Bool)
    (hsafe : rectIntSafe r) (hw : 101 ≤ r.width) (hh : 208 ≤ r.height) :
    segmentsForRect32 container r useOffset = segmentsForRect container r useOffset ∧
    (segmentsForRect container r useOffset).1.length = 4 ∧
    ∀ poly ∈ (segmentsForRect container r useOffset).1 ++
        [(segmentsForRect container r useOffset).2],
      poly ≠ [] ∧ ∀ v ∈ poly, withinExtended r v :=
  ⟨segmentsForRect32_eq container r useOffset hsafe,
    segments_within_rect_exact container r useOffset hw hh⟩

/-- Witness for C7 (amended): a 400 x 300 rectangle in the top-left corner of
the container. -/
theorem segments_within_rect_witness :
    rectIntSafe (QRect.ofXYWH 0 0 400 300) ∧
    (101 : ℤ) ≤ (QRect.ofXYWH 0 0 400 300).width ∧
    (208 : ℤ) ≤ (QRect.ofXYWH 0 0 400 300).height ∧
    ((segmentsForRect (QRect.ofXYWH 0 0 800 600) (QRect.ofXYWH 0 0 400 300) true).1.length = 4 ∧
    ∀ poly ∈ (segmentsForRect (QRect.ofXYWH 0 0 800 600) (QRect.ofXYWH 0 0 400 300) true).1 ++
        [(segmentsForRect (QRect.ofXYWH 0 0 800 600) (QRect.ofXYWH 0 0 400 300) true).2],
      poly ≠ [] ∧ ∀ v ∈ poly, withinExtended (QRect.ofXYWH 0 0 400 300) v) :=
  ⟨by decide, by decide, by decide,
    (segments_within_rect _ _ _ (by decide) (by decide) (by decide)).2⟩

/-! ## Inset of the inner ring -/

/-- C9, as stated, fails: a hovered frame rect 60 wide that touches the left
side of the container puts vertices of its edge polygons less than 50 pixels
from that side. -/
theorem inner_vertex_near_touched_side :
    ¬ (∀ L ∈ edgeLocations,
        ∀ v ∈ (updateSegments (initial 800 600 (QRect.ofXYWH 0 100 60 200) 2)).m_segments.value L,
          clearOfTouchedSides (initial 800 600 (QRect.ofXYWH 0 100 60 200) 2).rect
            (QRect.ofXYWH 0 100 60 200) v) := by
  decide!

/-- C9, amended: with more than one panel and a valid hovered frame rect that is
at least 153 wide and 153 high, both rings are populated, and for each side of
the container that the hovered frame rect touches every vertex of the Left,
Top, Right and Bottom polygons is at least 50 pixels away from that side. -/
theorem inner_ring_inset_from_touched_sides (s : SegmentedIndicators) (hc : s.count > 1)
    (hv : s.hoveredFrameRect.isValid = true)
    (hw : 153 ≤ s.hoveredFrameRect.width) (hh : 153 ≤ s.hoveredFrameRect.height) :
    (∀ L ∈ innerLocations ++ outerLocations, (updateSegments s).m_segments.contains L = true) ∧
    (∀ L ∈ edgeLocations, ∀ v ∈ (updateSegments s).m_segments.value L,
      clearOfTouchedSides s.rect s.hoveredFrameRect v) := by
  rw [registry_of_valid_multi s hv hc]
  constructor
  · intro L hL
    simp only [innerLocations, outerLocations, List.cons_append, List.nil_append, List.mem_cons,
      List.mem_singleton, List.not_mem_nil, or_false] at hL
    rcases hL with rfl | rfl | rfl | rfl | rfl | rfl | rfl | rfl | rfl <;>
      simp [SegmentMap.contains, innerEntries, outerEntries]
  · obtain ⟨hL, hT, hR, hB⟩ := eff_cases s.rect s.hoveredFrameRect true
    obtain ⟨tL, tT, tR, tB⟩ := eff_true s.rect s.hoveredFrameRect
    intro L hmem v
    simp only [edgeLocations, List.mem_cons, List.mem_singleton, List.not_mem_nil,
      or_false] at hmem
    simp only [innerEntries, outerEntries, segmentsForRect_eq, List.getD_cons_zero,
      List.getD_cons_succ, List.cons_append]
    generalize effLeft s.hoveredFrameRect true = eL at *
    generalize effTop s.hoveredFrameRect true = eT at *
    generalize effRight s.rect s.hoveredFrameRect true = eR at *
    generalize effBottom s.rect s.hoveredFrameRect true = eB at *
    generalize s.rect = c at *
    generalize s.hoveredFrameRect = r at *
    simp only [QRect.width, QRect.height, QRect.x, QRect.y, QRect.right, QRect.bottom] at *
    rcases hmem with rfl | rfl | rfl | rfl <;>
      simp only [SegmentMap.value, if_true, reduceCtorEq, if_false, leftPolygon, topPolygon,
        rightPolygon, bottomPolygon, List.mem_cons, List.mem_singleton, List.not_mem_nil,
        or_false] <;>
      intro hv' <;>
      (try rcases hv' with rfl | rfl | rfl | rfl | rfl) <;>
      simp only [clearOfTouchedSides, SEGMENT_GIRTH, QRect.x, QRect.y, QRect.right,
        QRect.bottom] <;>
      refine ⟨?_, ?_, ?_, ?_⟩ <;> intro h0 <;> omega


/-- Witness for C9 (amended): a hovered frame in the top-left corner. -/
theorem inner_ring_inset_from_touched_sides_witness :
    (initial 800 600 (QRect.ofXYWH 0 0 400 300) 2).count > 1 ∧
    (initial 800 600 (QRect.ofXYWH 0 0 400 300) 2).hoveredFrameRect.isValid = true ∧
    (153 : ℤ) ≤ (initial 800 600 (QRect.ofXYWH 0 0 400 300) 2).hoveredFrameRect.width ∧
    (153 : ℤ) ≤ (initial 800 600 (QRect.ofXYWH 0 0 400 300) 2).hoveredFrameRect.height ∧
    ((∀ L ∈ innerLocations ++ outerLocations,
        (updateSegments (initial 800 600 (QRect.ofXYWH 0 0 400 300) 2)).m_segments.contains L
          = true) ∧
     (∀ L ∈ edgeLocations,
        ∀ v ∈ (updateSegments (initial 800 600 (QRect.ofXYWH 0 0 400 300) 2)).m_segments.value L,
          clearOfTouchedSides (initial 800 600 (QRect.ofXYWH 0 0 400 300) 2).rect
            (initial 800 600 (QRect.ofXYWH 0 0 400 300) 2).hoveredFrameRect v)) :=
  ⟨by decide, by decide, by decide, by decide,
    inner_ring_inset_from_touched_sides _ (by decide) (by decide) (by decide) (by decide)⟩

/-! ## Rounding to binary64 -/

theorem ilog2Aux_spec (fuel n : ℕ) (h1 : 1 ≤ n) (h2 : n ≤ fuel) :
    2 ^ ilog2Aux fuel n ≤ n ∧ n < 2 ^ (ilog2Aux fuel n + 1) := by
  induction fuel generalizing n with
  | zero => omega
  | succ fuel ih =>
    unfold ilog2Aux
    split_ifs with h
    · have : n = 1 := by omega
      subst this
      simp
    · obtain ⟨ih1, ih2⟩ := ih (n / 2) (by omega) (by omega)
      rw [pow_succ] at ih2 ⊢
      rw [pow_succ (n := ilog2Aux fuel (n / 2) + 1), pow_succ]
      omega

theorem ilog2_spec (n : ℕ) (h1 : 1 ≤ n) : 2 ^ ilog2 n ≤ n ∧ n < 2 ^ (ilog2 n + 1) :=
  ilog2Aux_spec n n h1 le_rfl

theorem abs_eq_natAbs_div_den (q : ℚ) : |q| = (q.num.natAbs : ℚ) / (q.den : ℚ) := by
  have h : (|q.num| : ℤ) = (q.num.natAbs : ℤ) := Int.abs_eq_natAbs q.num
  have hd : (0 : ℚ) < q.den := by exact_mod_cast q.pos
  conv_lhs => rw [← Rat.num_div_den q]
  rw [abs_div, abs_of_pos hd]
  congr 1
  rw [← Int.cast_abs, h]
  exact Int.cast_natCast _

/-- The binary exponent brackets the magnitude. -/
theorem binExp_spec (q : ℚ) (hq : q ≠ 0) :
    (2 : ℚ) ^ binExp q ≤ |q| ∧ |q| < (2 : ℚ) ^ (binExp q + 1) := by
  have hN : 1 ≤ q.num.natAbs := by
    have : q.num ≠ 0 := Rat.num_ne_zero.2 hq
    omega
  have hD : 1 ≤ q.den := q.pos
  obtain ⟨n1, n2⟩ := ilog2_spec _ hN
  obtain ⟨d1, d2⟩ := ilog2_spec _ hD
  have n1' : (2 : ℚ) ^ (ilog2 q.num.natAbs) ≤ (q.num.natAbs : ℚ) := by exact_mod_cast n1
  have n2' : (q.num.natAbs : ℚ) < (2 : ℚ) ^ (ilog2 q.num.natAbs + 1) := by exact_mod_cast n2
  have d1' : (2 : ℚ) ^ (ilog2 q.den) ≤ (q.den : ℚ) := by exact_mod_cast d1
  have d2' : (q.den : ℚ) < (2 : ℚ) ^ (ilog2 q.den + 1) := by exact_mod_cast d2
  have hdpos : (0 : ℚ) < q.den := by exact_mod_cast q.pos
  have habs := abs_eq_natAbs_div_den q
  have two : (0 : ℚ) < 2 := by norm_num
  have e1 : (2 : ℚ) ^ ((ilog2 q.num.natAbs : ℤ) - (ilog2 q.den : ℤ) - 1)
      = (2 : ℚ) ^ (ilog2 q.num.natAbs) / (2 : ℚ) ^ (ilog2 q.den + 1) := by
    rw [show ((ilog2 q.num.natAbs : ℤ) - (ilog2 q.den : ℤ) - 1)
        = (ilog2 q.num.natAbs : ℤ) - ((ilog2 q.den + 1 : ℕ) : ℤ) by push_cast; ring]
    rw [zpow_sub₀ two.ne', zpow_natCast, zpow_natCast]
  have e2 : (2 : ℚ) ^ ((ilog2 q.num.natAbs : ℤ) - (ilog2 q.den : ℤ) + 1)
      = (2 : ℚ) ^ (ilog2 q.num.natAbs + 1) / (2 : ℚ) ^ (ilog2 q.den) := by
    rw [show ((ilog2 q.num.natAbs : ℤ) - (ilog2 q.den : ℤ) + 1)
        = ((ilog2 q.num.natAbs + 1 : ℕ) : ℤ) - (ilog2 q.den : ℤ) by push_cast; ring]
    rw [zpow_sub₀ two.ne', zpow_natCast, zpow_natCast]
  have lower : (2 : ℚ) ^ ((ilog2 q.num.natAbs : ℤ) - (ilog2 q.den : ℤ) - 1) ≤ |q| := by
    rw [e1, habs]
    exact div_le_div₀ (by positivity) n1' hdpos d2'.le
  have upper : |q| < (2 : ℚ) ^ ((ilog2 q.num.natAbs : ℤ) - (ilog2 q.den : ℤ) + 1) := by
    rw [e2, habs]
    exact div_lt_div₀ n2' d1' (by positivity) (by positivity)
  unfold binExp
  simp only
  split_ifs with h
  · refine ⟨lower, ?_⟩
    rw [sub_add_cancel]
    exact h
  · exact ⟨not_lt.1 h, upper⟩

theorem roundHalfEven_le_of_le (z : ℚ) (m : ℤ) (h : z ≤ m) : roundHalfEven z ≤ m := by
  have hf : ⌊z⌋ ≤ m := Int.floor_le_floor h |>.trans (by simp)
  have hfl : (⌊z⌋ : ℚ) ≤ z := Int.floor_le z
  unfold roundHalfEven
  simp only
  have step : 0 < z - ⌊z⌋ → ⌊z⌋ + 1 ≤ m := by
    intro hpos
    have : (⌊z⌋ : ℚ) < m := by linarith
    have : ⌊z⌋ < m := by exact_mod_cast this
    omega
  split_ifs with h1 h2 h3
  · exact hf
  · exact step (by linarith)
  · exact hf
  · exact step (by linarith)

theorem le_roundHalfEven_of_le (z : ℚ) (m : ℤ) (h : (m : ℚ) ≤ z) : m ≤ roundHalfEven z := by
  have hf : m ≤ ⌊z⌋ := Int.le_floor.2 h
  unfold roundHalfEven
  simp only
  split_ifs <;> omega

theorem roundHalfEven_error (z : ℚ) : |(roundHalfEven z : ℚ) - z| ≤ 1 / 2 := by
  have hfl : (⌊z⌋ : ℚ) ≤ z := Int.floor_le z
  have hlt : z < ⌊z⌋ + 1 := Int.lt_floor_add_one z
  unfold roundHalfEven
  simp only
  rw [abs_le]
  split_ifs with h1 h2 h3 <;> push_cast <;> constructor <;> linarith

theorem fpRound_zero : fpRound 0 = 0 := by simp [fpRound]

/-- Rounding never crosses an integer, as long as the unit in the last place
is at most one. -/
theorem fpRound_le_int (q : ℚ) (n : ℤ) (hq : |q| < 2 ^ 53) (h : q ≤ n) : fpRound q ≤ n := by
  unfold fpRound
  split_ifs with h0
  · rw [h0] at h
    exact h
  · simp only
    obtain ⟨hb, _⟩ := binExp_spec q h0
    have two : (0 : ℚ) < 2 := by norm_num
    have he : binExp q - 52 ≤ 0 := by
      have : (2 : ℚ) ^ binExp q < (2 : ℚ) ^ (53 : ℤ) := lt_of_le_of_lt hb (by exact_mod_cast hq)
      have := (zpow_lt_zpow_iff_right₀ (by norm_num : (1 : ℚ) < 2)).1 this
      omega
    obtain ⟨k, hk⟩ : ∃ k : ℕ, binExp q - 52 = -(k : ℤ) := ⟨(-(binExp q - 52)).toNat, by omega⟩
    rw [hk]
    have hpos : (0 : ℚ) < (2 : ℚ) ^ (-(k : ℤ)) := zpow_pos two _
    have hz : q / (2 : ℚ) ^ (-(k : ℤ)) ≤ ((n * 2 ^ k : ℤ) : ℚ) := by
      rw [div_le_iff₀ hpos]
      push_cast
      rw [mul_assoc, zpow_neg, zpow_natCast, mul_inv_cancel₀ (by positivity), mul_one]
      exact h
    have := roundHalfEven_le_of_le _ _ hz
    have hc : (roundHalfEven (q / (2 : ℚ) ^ (-(k : ℤ))) : ℚ) ≤ ((n * 2 ^ k : ℤ) : ℚ) := by
      exact_mod_cast this
    calc (roundHalfEven (q / (2 : ℚ) ^ (-(k : ℤ))) : ℚ) * (2 : ℚ) ^ (-(k : ℤ))
        ≤ ((n * 2 ^ k : ℤ) : ℚ) * (2 : ℚ) ^ (-(k : ℤ)) := mul_le_mul_of_nonneg_right hc hpos.le
      _ = n := by
        push_cast
        rw [mul_assoc, zpow_neg, zpow_natCast, mul_inv_cancel₀ (by positivity), mul_one]

theorem int_le_fpRound (q : ℚ) (n : ℤ) (hq : |q| < 2 ^ 53) (h : (n : ℚ) ≤ q) : (n : ℚ) ≤ fpRound q := by
  unfold fpRound
  split_ifs with h0
  · rw [h0] at h
    exact h
  · simp only
    obtain ⟨hb, _⟩ := binExp_spec q h0
    have two : (0 : ℚ) < 2 := by norm_num
    have he : binExp q - 52 ≤ 0 := by
      have : (2 : ℚ) ^ binExp q < (2 : ℚ) ^ (53 : ℤ) := lt_of_le_of_lt hb (by exact_mod_cast hq)
      have := (zpow_lt_zpow_iff_right₀ (by norm_num : (1 : ℚ) < 2)).1 this
      omega
    obtain ⟨k, hk⟩ : ∃ k : ℕ, binExp q - 52 = -(k : ℤ) := ⟨(-(binExp q - 52)).toNat, by omega⟩
    rw [hk]
    have hpos : (0 : ℚ) < (2 : ℚ) ^ (-(k : ℤ)) := zpow_pos two _
    have hz : ((n * 2 ^ k : ℤ) : ℚ) ≤ q / (2 : ℚ) ^ (-(k : ℤ)) := by
      rw [le_div_iff₀ hpos]
      push_cast
      rw [mul_assoc, zpow_neg, zpow_natCast, mul_inv_cancel₀ (by positivity), mul_one]
      exact h
    have := le_roundHalfEven_of_le _ _ hz
    have hc : ((n * 2 ^ k : ℤ) : ℚ) ≤ (roundHalfEven (q / (2 : ℚ) ^ (-(k : ℤ))) : ℚ) := by
      exact_mod_cast this
    have hn : (n : ℚ) = ((n * 2 ^ k : ℤ) : ℚ) * (2 : ℚ) ^ (-(k : ℤ)) := by
      push_cast
      rw [mul_assoc, zpow_neg, zpow_natCast, mul_inv_cancel₀ (by positivity), mul_one]
    calc (n : ℚ) = ((n * 2 ^ k : ℤ) : ℚ) * (2 : ℚ) ^ (-(k : ℤ)) := hn
      _ ≤ (roundHalfEven (q / (2 : ℚ) ^ (-(k : ℤ))) : ℚ) * (2 : ℚ) ^ (-(k : ℤ)) :=
        mul_le_mul_of_nonneg_right hc hpos.le

/-- Integers below `2 ^ 53` in magnitude are doubles. -/
theorem fpRound_int (n : ℤ) (h : |n| < 2 ^ 53) : fpRound (n : ℚ) = n := by
  have hq : |(n : ℚ)| < 2 ^ 53 := by exact_mod_cast h
  exact le_antisymm (fpRound_le_int _ n hq le_rfl) (int_le_fpRound _ n hq le_rfl)

/-- Relative accuracy of rounding: half a unit in the last place. -/
theorem fpRound_error (q : ℚ) : |fpRound q - q| ≤ |q| / 2 ^ 53 := by
  unfold fpRound
  split_ifs with h0
  · simp [h0]
  · simp only
    obtain ⟨hb, _⟩ := binExp_spec q h0
    have two : (0 : ℚ) < 2 := by norm_num
    have hpos : (0 : ℚ) < (2 : ℚ) ^ (binExp q - 52) := zpow_pos two _
    have herr := roundHalfEven_error (q / (2 : ℚ) ^ (binExp q - 52))
    have e : (roundHalfEven (q / (2 : ℚ) ^ (binExp q - 52)) : ℚ) * (2 : ℚ) ^ (binExp q - 52) - q
        = ((roundHalfEven (q / (2 : ℚ) ^ (binExp q - 52)) : ℚ) - q / (2 : ℚ) ^ (binExp q - 52))
          * (2 : ℚ) ^ (binExp q - 52) := by
      field_simp
    rw [e, abs_mul, abs_of_pos hpos]
    have e2 : (2 : ℚ) ^ (binExp q - 52) = (2 : ℚ) ^ binExp q / 2 ^ 52 := by
      rw [zpow_sub₀ two.ne']
      norm_num
    calc |(roundHalfEven (q / (2 : ℚ) ^ (binExp q - 52)) : ℚ) - q / (2 : ℚ) ^ (binExp q - 52)|
          * (2 : ℚ) ^ (binExp q - 52)
        ≤ 1 / 2 * (2 : ℚ) ^ (binExp q - 52) := mul_le_mul_of_nonneg_right herr hpos.le
      _ = (2 : ℚ) ^ binExp q / 2 ^ 53 := by rw [e2]; ring
      _ ≤ |q| / 2 ^ 53 := div_le_div_of_nonneg_right hb (by positivity)


/-! ## Point containment -/

theorem isect_eq_add (p1 p2 pos : QPoint) (w : ℤ) :
    qt_polygon_isect_line p1 p2 pos w = w + isectDelta p1 p2 pos := by
  unfold isectDelta qt_polygon_isect_line
  split_ifs <;> (try simp only []) <;> (try split_ifs) <;> simp

theorem isectDelta_cases (p1 p2 pos : QPoint) :
    (crossing p1 p2 pos = false ∧ isectDelta p1 p2 pos = 0) ∨
    (crossing p1 p2 pos = true ∧ (isectDelta p1 p2 pos = 1 ∨ isectDelta p1 p2 pos = -1)) := by
  have h : isectDelta p1 p2 pos = 0 ∨ isectDelta p1 p2 pos = 1 ∨ isectDelta p1 p2 pos = -1 := by
    unfold isectDelta qt_polygon_isect_line
    split_ifs <;> (try simp only []) <;> (try split_ifs) <;> simp
  unfold crossing
  rcases h with h | h | h <;> simp [h]

theorem crossing_iff (p1 p2 pos : QPoint) :
    crossing p1 p2 pos = true ↔
      (p1.y < p2.y ∧ p1.y ≤ pos.y ∧ pos.y < p2.y ∧
        edgeX p1.x p1.y p2.x p2.y pos.y ≤ (pos.x : ℚ)) ∨
      (p2.y < p1.y ∧ p2.y ≤ pos.y ∧ pos.y < p1.y ∧
        edgeX p2.x p2.y p1.x p1.y pos.y ≤ (pos.x : ℚ)) := by
  unfold crossing isectDelta qt_polygon_isect_line edgeX
  rcases lt_trichotomy p1.y p2.y with h | h | h
  · have h' : ¬ p2.y < p1.y := not_lt.2 h.le
    have h'' : p1.y ≠ p2.y := h.ne
    simp only [h'', h', h, if_false, true_and, false_and, or_false]
    split_ifs with h1 h2 <;> simp_all
  · simp [h]
  · have h' : ¬ p1.y < p2.y := not_lt.2 h.le
    have h'' : p1.y ≠ p2.y := h.ne'
    simp only [h'', h', h, if_false, if_true, true_and, false_and, false_or]
    split_ifs with h1 h2 <;> simp_all

theorem tmod_two_ne_zero_iff (w : ℤ) : Int.tmod w 2 ≠ 0 ↔ w % 2 = 1 := by
  rcases Int.emod_two_eq_zero_or_one w with h | h
  · have : (2 : ℤ) ∣ w := Int.dvd_of_emod_eq_zero h
    have h2 : Int.tmod w 2 = 0 := Int.tmod_eq_zero_of_dvd this
    simp [h, h2]
  · have h2 : Int.tmod w 2 ≠ 0 := by
      intro h0
      have : (2 : ℤ) ∣ w := Int.dvd_of_tmod_eq_zero h0
      omega
    simp [h, h2]

/-- Containment in a closed five-point outline (last point equal to the first). -/
theorem containsPoint_closed4 (a b c d pos : QPoint) :
    containsPoint [a, b, c, d, a] pos =
      xor (xor (crossing a b pos) (crossing b c pos))
        (xor (crossing c d pos) (crossing d a pos)) := by
  simp only [containsPoint, windingLoop, ne_eq, not_true_eq_false, if_false]
  simp only [tmod_two_ne_zero_iff, isect_eq_add d a, isect_eq_add c d, isect_eq_add b c, isect_eq_add a b]
  rcases isectDelta_cases a b pos with ⟨c1, e1⟩ | ⟨c1, e1 | e1⟩ <;>
  rcases isectDelta_cases b c pos with ⟨c2, e2⟩ | ⟨c2, e2 | e2⟩ <;>
  rcases isectDelta_cases c d pos with ⟨c3, e3⟩ | ⟨c3, e3 | e3⟩ <;>
  rcases isectDelta_cases d a pos with ⟨c4, e4⟩ | ⟨c4, e4 | e4⟩ <;>
  simp only [c1, c2, c3, c4, e1, e2, e3, e4] <;> rfl

/-- Containment in a four-point outline that is closed implicitly. -/
theorem containsPoint_open4 (a b c d pos : QPoint) (h : d ≠ a) :
    containsPoint [a, b, c, d] pos =
      xor (xor (crossing a b pos) (crossing b c pos))
        (xor (crossing c d pos) (crossing d a pos)) := by
  simp only [containsPoint, windingLoop, ne_eq, h, not_false_eq_true, if_true]
  simp only [tmod_two_ne_zero_iff, isect_eq_add d a, isect_eq_add c d, isect_eq_add b c, isect_eq_add a b]
  rcases isectDelta_cases a b pos with ⟨c1, e1⟩ | ⟨c1, e1 | e1⟩ <;>
  rcases isectDelta_cases b c pos with ⟨c2, e2⟩ | ⟨c2, e2 | e2⟩ <;>
  rcases isectDelta_cases c d pos with ⟨c3, e3⟩ | ⟨c3, e3 | e3⟩ <;>
  rcases isectDelta_cases d a pos with ⟨c4, e4⟩ | ⟨c4, e4 | e4⟩ <;>
  simp only [c1, c2, c3, c4, e1, e2, e3, e4] <;> rfl

theorem crossing_comm (p1 p2 pos : QPoint) : crossing p1 p2 pos = crossing p2 p1 pos := by
  rw [Bool.eq_iff_iff, crossing_iff, crossing_iff, or_comm]

theorem crossing_up (x1 y1 x2 y2 : ℤ) (pos : QPoint) (h : y1 < y2) :
    crossing ⟨x1, y1⟩ ⟨x2, y2⟩ pos = true ↔
      y1 ≤ pos.y ∧ pos.y < y2 ∧ edgeX x1 y1 x2 y2 pos.y ≤ (pos.x : ℚ) := by
  rw [crossing_iff]
  simp only [h, true_and, not_lt.2 h.le, false_and, or_false]

theorem crossing_horizontal (x1 x2 y : ℤ) (pos : QPoint) :
    crossing ⟨x1, y⟩ ⟨x2, y⟩ pos = false := by
  rw [← Bool.not_eq_true, crossing_iff]
  simp

theorem crossing_out_of_range (p1 p2 pos : QPoint)
    (h : pos.y < min p1.y p2.y ∨ max p1.y p2.y ≤ pos.y) : crossing p1 p2 pos = false := by
  rw [← Bool.not_eq_true, crossing_iff]
  simp only [lt_min_iff, max_le_iff] at h
  rintro (⟨h1, h2, h3, _⟩ | ⟨h1, h2, h3, _⟩) <;> omega

theorem small_abs (n : ℤ) (h : -9007199254740991 ≤ n ∧ n ≤ 9007199254740991) :
    |n| < 2 ^ 53 := by
  rw [abs_lt]
  norm_num
  omega

theorem edgeX_vertical (x y1 y2 y : ℤ) (hx : Small x) : edgeX x y1 x y2 y = x := by
  unfold edgeX fpAdd fpMul fpDiv
  rw [sub_self, zero_div, fpRound_zero, zero_mul, fpRound_zero, add_zero]
  exact fpRound_int x (small_abs x (by unfold Small at hx; omega))

theorem edgeX_diag_pos (x1 y1 x2 y2 y : ℤ) (hd : x2 - x1 = y2 - y1) (hy : y1 < y2)
    (hx1 : Small x1) (hy1 : Small y1) (hyy : Small y) :
    edgeX x1 y1 x2 y2 y = ((x1 + (y - y1) : ℤ) : ℚ) := by
  unfold Small at *
  unfold edgeX fpAdd fpMul fpDiv
  have h1 : ((x2 : ℚ) - x1) / ((y2 : ℚ) - y1) = 1 := by
    have : ((x2 : ℚ) - x1) = (y2 : ℚ) - y1 := by exact_mod_cast hd
    rw [this]
    apply div_self
    have : (y1 : ℚ) < y2 := by exact_mod_cast hy
    linarith
  have one : fpRound 1 = 1 := by
    have := fpRound_int 1 (by norm_num)
    simpa using this
  rw [h1, one, one_mul]
  have h2 : ((y : ℚ) - y1) = ((y - y1 : ℤ) : ℚ) := by push_cast; ring
  rw [h2, fpRound_int _ (small_abs _ (by omega))]
  have h3 : (x1 : ℚ) + ((y - y1 : ℤ) : ℚ) = ((x1 + (y - y1) : ℤ) : ℚ) := by push_cast; ring
  rw [h3, fpRound_int _ (small_abs _ (by omega))]

theorem edgeX_diag_neg (x1 y1 x2 y2 y : ℤ) (hd : x2 - x1 = -(y2 - y1)) (hy : y1 < y2)
    (hx1 : Small x1) (hy1 : Small y1) (hyy : Small y) :
    edgeX x1 y1 x2 y2 y = ((x1 - (y - y1) : ℤ) : ℚ) := by
  unfold Small at *
  unfold edgeX fpAdd fpMul fpDiv
  have h1 : ((x2 : ℚ) - x1) / ((y2 : ℚ) - y1) = -1 := by
    have : ((x2 : ℚ) - x1) = -((y2 : ℚ) - y1) := by exact_mod_cast hd
    rw [this, neg_div]
    congr 1
    apply div_self
    have : (y1 : ℚ) < y2 := by exact_mod_cast hy
    linarith
  have one : fpRound (-1) = -1 := by
    have := fpRound_int (-1) (by norm_num)
    simpa using this
  rw [h1, one]
  have h2 : (-1 : ℚ) * ((y : ℚ) - y1) = ((-(y - y1) : ℤ) : ℚ) := by push_cast; ring
  rw [h2, fpRound_int _ (small_abs _ (by omega))]
  have h3 : (x1 : ℚ) + ((-(y - y1) : ℤ) : ℚ) = ((x1 - (y - y1) : ℤ) : ℚ) := by push_cast; ring
  rw [h3, fpRound_int _ (small_abs _ (by omega))]

/-- Hit region of the top wedge. -/
theorem top_contains_iff (L T R : ℤ) (p : QPoint) (hw : 100 ≤ R - L)
    (hL : Coord L) (hT : Coord T) (hR : Coord R) (hp : Coord p.y) :
    containsPoint (topPolygon L T R) p = true ↔
      T + 2 ≤ p.y ∧ p.y < T + 52 ∧ L + (p.y - T) ≤ p.x ∧ p.x < R - (p.y - T - 2) := by
  have hne : (⟨L + 52, T + 52⟩ : QPoint) ≠ ⟨L + 2, T + 2⟩ := by
    intro h
    have := congrArg QPoint.x h
    simp at this
  have hL : Small (L + 2) := by unfold Small Coord at *; omega
  have hT : Small (T + 2) := by unfold Small Coord at *; omega
  have hR : Small R := by unfold Small Coord at *; omega
  have hp : Small p.y := by unfold Small Coord at *; omega
  rw [topPolygon, containsPoint_open4 _ _ _ _ _ hne, crossing_horizontal,
    crossing_horizontal, crossing_comm ⟨L + 52, T + 52⟩]
  have c1 := crossing_up R (T + 2) (R - 50) (T + 52) p (by omega)
  have c2 := crossing_up (L + 2) (T + 2) (L + 52) (T + 52) p (by omega)
  rw [edgeX_diag_neg _ _ _ _ _ (by ring) (by omega) hR hT hp, Int.cast_le] at c1
  rw [edgeX_diag_pos _ _ _ _ _ (by ring) (by omega) hL hT hp, Int.cast_le] at c2
  cases h1 : crossing ⟨R, T + 2⟩ ⟨R - 50, T + 52⟩ p <;>
    cases h2 : crossing ⟨L + 2, T + 2⟩ ⟨L + 52, T + 52⟩ p <;>
    rw [h1] at c1 <;> rw [h2] at c2 <;>
    simp only [Bool.false_eq_true, false_iff, true_iff, Bool.xor_false, Bool.false_xor,
      Bool.xor_true, Bool.not_true, Bool.not_false] at c1 c2 ⊢ <;>
    omega

/-- Hit region of the bottom wedge. -/
theorem bottom_contains_iff (L R B : ℤ) (p : QPoint) (hw : 102 ≤ R - L)
    (hL : Coord L) (hB : Coord B) (hR : Coord R) (hp : Coord p.y) :
    containsPoint (bottomPolygon L R B) p = true ↔
      B - 50 ≤ p.y ∧ p.y < B ∧ L + 2 + (B - p.y) ≤ p.x ∧ p.x < R - (B - p.y) := by
  have hne : (⟨L + 52, B - 50⟩ : QPoint) ≠ ⟨L + 2, B⟩ := by
    intro h
    have := congrArg QPoint.x h
    simp at this
  have hL : Small (L + 52) := by unfold Small Coord at *; omega
  have hB : Small (B - 50) := by unfold Small Coord at *; omega
  have hR : Small (R - 50) := by unfold Small Coord at *; omega
  have hp : Small p.y := by unfold Small Coord at *; omega
  rw [bottomPolygon, containsPoint_open4 _ _ _ _ _ hne, crossing_horizontal,
    crossing_horizontal, crossing_comm ⟨R, B⟩]
  have c1 := crossing_up (R - 50) (B - 50) R B p (by omega)
  have c2 := crossing_up (L + 52) (B - 50) (L + 2) B p (by omega)
  rw [edgeX_diag_pos _ _ _ _ _ (by ring) (by omega) hR hB hp, Int.cast_le] at c1
  rw [edgeX_diag_neg _ _ _ _ _ (by ring) (by omega) hL hB hp, Int.cast_le] at c2
  cases h1 : crossing ⟨R - 50, B - 50⟩ ⟨R, B⟩ p <;>
    cases h2 : crossing ⟨L + 52, B - 50⟩ ⟨L + 2, B⟩ p <;>
    rw [h1] at c1 <;> rw [h2] at c2 <;>
    simp only [Bool.false_eq_true, false_iff, true_iff, Bool.xor_false, Bool.false_xor,
      Bool.xor_true, Bool.not_true, Bool.not_false] at c1 c2 ⊢ <;>
    omega

theorem crossing_vertical (x ya yb : ℤ) (pos : QPoint) (hx : Small x) :
    crossing ⟨x, ya⟩ ⟨x, yb⟩ pos = true ↔
      min ya yb ≤ pos.y ∧ pos.y < max ya yb ∧ x ≤ pos.x := by
  rcases lt_trichotomy ya yb with h | h | h
  · rw [crossing_up _ _ _ _ _ h, edgeX_vertical _ _ _ _ hx, Int.cast_le, min_eq_left h.le,
      max_eq_right h.le]
  · subst h
    rw [crossing_horizontal]
    simp only [Bool.false_eq_true, min_self, max_self, false_iff, not_and, not_le]
    intro h1 h2
    omega
  · rw [crossing_comm, crossing_up _ _ _ _ _ h, edgeX_vertical _ _ _ _ hx, Int.cast_le,
      min_eq_right h.le, max_eq_left h.le]

/-- Hit region of the right wedge. -/
theorem right_contains_iff (T R B : ℤ) (p : QPoint) (hh : 102 ≤ B - T)
    (hT : Coord T) (hB : Coord B) (hR : Coord R) (hp : Coord p.y) :
    containsPoint (rightPolygon T R B) p = true ↔
      T + 2 ≤ p.y ∧ p.y < B ∧ p.x < R ∧ R - 50 ≤ p.x ∧ R - (p.y - T - 2) ≤ p.x ∧
        R - (B - p.y) ≤ p.x := by
  have hne : (⟨R - 50, T + 52⟩ : QPoint) ≠ ⟨R, T + 2⟩ := by
    intro h
    have := congrArg QPoint.x h
    simp at this
  have hT : Small (T + 2) := by unfold Small Coord at *; omega
  have hB : Small (B - 50) := by unfold Small Coord at *; omega
  have hR' : Small (R - 50) := by unfold Small Coord at *; omega
  have hR : Small R := by unfold Small Coord at *; omega
  have hp : Small p.y := by unfold Small Coord at *; omega
  rw [rightPolygon, containsPoint_open4 _ _ _ _ _ hne, crossing_comm ⟨R, B⟩,
    crossing_comm ⟨R - 50, T + 52⟩ ⟨R, T + 2⟩]
  have c1 := crossing_vertical R (T + 2) B p hR
  have c2 := crossing_up (R - 50) (B - 50) R B p (by omega)
  have c3 := crossing_vertical (R - 50) (B - 50) (T + 52) p hR'
  have c4 := crossing_up R (T + 2) (R - 50) (T + 52) p (by omega)
  rw [edgeX_diag_pos _ _ _ _ _ (by ring) (by omega) hR' hB hp, Int.cast_le] at c2
  rw [edgeX_diag_neg _ _ _ _ _ (by ring) (by omega) hR hT hp, Int.cast_le] at c4
  rw [min_eq_left (by omega), max_eq_right (by omega)] at c1
  rw [min_eq_right (by omega), max_eq_left (by omega)] at c3
  cases h1 : crossing ⟨R, T + 2⟩ ⟨R, B⟩ p <;>
    cases h2 : crossing ⟨R - 50, B - 50⟩ ⟨R, B⟩ p <;>
    cases h3 : crossing ⟨R - 50, B - 50⟩ ⟨R - 50, T + 52⟩ p <;>
    cases h4 : crossing ⟨R, T + 2⟩ ⟨R - 50, T + 52⟩ p <;>
    rw [h1] at c1 <;> rw [h2] at c2 <;> rw [h3] at c3 <;> rw [h4] at c4 <;>
    simp only [Bool.false_eq_true, false_iff, true_iff, Bool.xor_false, Bool.false_xor,
      Bool.xor_true, Bool.not_true, Bool.not_false] at c1 c2 c3 c4 ⊢ <;>
    omega

set_option maxRecDepth 100000 in
theorem lower_left_table (j : ℤ) (h0 : 0 ≤ j) (h1 : j < 50) :
    (-48 : ℚ) ≤ fpMul (fpDiv (-48) 50) (j : ℚ) ∧ fpMul (fpDiv (-48) 50) (j : ℚ) ≤ 2 - (j : ℚ) := by
  interval_cases j <;> decide!

/-- The lower slanted edge of the left wedge stays between the outer side and
the diagonal of the bottom wedge. -/
theorem lower_left_edge_bounds (L B y : ℤ) (h0 : B - 50 ≤ y) (h1 : y < B) (hL : Small L) :
    ((L + 2 : ℤ) : ℚ) ≤ edgeX (L + 50) (B - 50) (L + 2) B y ∧
      edgeX (L + 50) (B - 50) (L + 2) B y ≤ ((L + 2 + (B - y) : ℤ) : ℚ) := by
  unfold Small at hL
  obtain ⟨t1, t2⟩ := lower_left_table (y - (B - 50)) (by omega) (by omega)
  have e1 : ((L + 2 : ℤ) : ℚ) - ((L + 50 : ℤ) : ℚ) = -48 := by push_cast; ring
  have e2 : ((B : ℤ) : ℚ) - ((B - 50 : ℤ) : ℚ) = 50 := by push_cast; ring
  have e3 : ((y : ℤ) : ℚ) - ((B - 50 : ℤ) : ℚ) = ((y - (B - 50) : ℤ) : ℚ) := by push_cast; ring
  unfold edgeX
  rw [e1, e2, e3]
  generalize fpMul (fpDiv (-48) 50) ((y - (B - 50) : ℤ) : ℚ) = t at t1 t2
  have hy : ((y - (B - 50) : ℤ) : ℚ) = (y : ℚ) - B + 50 := by push_cast; ring
  rw [hy] at t2
  have hLq : (-1099511627776 : ℚ) ≤ (L : ℚ) ∧ (L : ℚ) ≤ 1099511627776 :=
    ⟨by exact_mod_cast hL.1, by exact_mod_cast hL.2⟩
  have hyq : (B : ℚ) - 50 ≤ y ∧ (y : ℚ) < B := by
    constructor
    · exact_mod_cast h0
    · exact_mod_cast h1
  have habs : |((L + 50 : ℤ) : ℚ) + t| < 2 ^ 53 := by
    rw [abs_lt]
    push_cast
    constructor <;> norm_num <;> linarith
  unfold fpAdd
  constructor
  · apply int_le_fpRound _ _ habs
    push_cast
    linarith
  · apply fpRound_le_int _ _ habs
    push_cast
    linarith

/-- The inner, nearly vertical edge of the left wedge stays within three pixels
of the inner corner. -/
theorem inner_left_edge_bounds (L T B y : ℤ) (h0 : T + 52 ≤ y) (h1 : y < B - 50)
    (hL : Small L) :
    ((L + 49 : ℤ) : ℚ) ≤ edgeX (L + 52) (T + 52) (L + 50) (B - 50) y ∧
      edgeX (L + 52) (T + 52) (L + 50) (B - 50) y ≤ ((L + 52 : ℤ) : ℚ) := by
  unfold Small at hL
  have e1 : ((L + 50 : ℤ) : ℚ) - ((L + 52 : ℤ) : ℚ) = -2 := by push_cast; ring
  have e2 : ((B - 50 : ℤ) : ℚ) - ((T + 52 : ℤ) : ℚ) = ((B - T - 102 : ℤ) : ℚ) := by
    push_cast; ring
  have e3 : ((y : ℤ) : ℚ) - ((T + 52 : ℤ) : ℚ) = ((y - T - 52 : ℤ) : ℚ) := by push_cast; ring
  unfold edgeX
  rw [e1, e2, e3]
  have hD : (1 : ℚ) ≤ ((B - T - 102 : ℤ) : ℚ) := by exact_mod_cast (by omega : 1 ≤ B - T - 102)
  have hk0 : (0 : ℚ) ≤ ((y - T - 52 : ℤ) : ℚ) := by exact_mod_cast (by omega : 0 ≤ y - T - 52)
  have hkD : ((y - T - 52 : ℤ) : ℚ) ≤ ((B - T - 102 : ℤ) : ℚ) := by
    exact_mod_cast (by omega : y - T - 52 ≤ B - T - 102)
  generalize ((B - T - 102 : ℤ) : ℚ) = D at hD hkD
  generalize ((y - T - 52 : ℤ) : ℚ) = k at hk0 hkD
  have hDpos : (0 : ℚ) < D := by linarith
  -- the slope
  have hq : -2 / D ≤ 0 := div_nonpos_of_nonpos_of_nonneg (by norm_num) hDpos.le
  have hqabs : |-2 / D| = 2 / D := by
    rw [abs_of_nonpos hq]
    ring
  have hq2 : (2 : ℚ) / D ≤ 2 := by
    rw [div_le_iff₀ hDpos]
    linarith
  have hs0 : fpDiv (-2) D ≤ 0 := by
    have := fpRound_le_int (-2 / D) 0 (by rw [hqabs]; norm_num; linarith) (by simpa using hq)
    simpa [fpDiv] using this
  have hserr : |fpDiv (-2) D - -2 / D| ≤ 2 / D / 2 ^ 53 := by
    have := fpRound_error (-2 / D)
    rw [hqabs] at this
    exact this
  have hslow : -(2 / D) * (1 + 1 / 2 ^ 53) ≤ fpDiv (-2) D := by
    have := (abs_le.1 hserr).1
    have e : -(2 / D) * (1 + 1 / 2 ^ 53) = -2 / D - 2 / D / 2 ^ 53 := by ring
    rw [e]
    linarith
  -- the product
  have hp0 : fpDiv (-2) D * k ≤ 0 := mul_nonpos_of_nonpos_of_nonneg hs0 hk0
  have hkD' : 2 / D * k ≤ 2 := by
    rw [div_mul_eq_mul_div, div_le_iff₀ hDpos]
    linarith
  have hplow : -3 ≤ fpDiv (-2) D * k := by
    have h1 : -(2 / D) * (1 + 1 / 2 ^ 53) * k ≤ fpDiv (-2) D * k :=
      mul_le_mul_of_nonneg_right hslow hk0
    have h2 : -(2 / D) * (1 + 1 / 2 ^ 53) * k = -(2 / D * k) * (1 + 1 / 2 ^ 53) := by ring
    rw [h2] at h1
    have h3 : (2 / D * k) * (1 + 1 / 2 ^ 53) ≤ 2 * (1 + 1 / 2 ^ 53) :=
      mul_le_mul_of_nonneg_right hkD' (by norm_num)
    have h4 : (2 : ℚ) * (1 + 1 / 2 ^ 53) ≤ 3 := by norm_num
    linarith
  have hpabs : |fpDiv (-2) D * k| < 2 ^ 53 := by
    rw [abs_lt]
    constructor <;> norm_num <;> linarith
  have ht0 : fpMul (fpDiv (-2) D) k ≤ 0 := by
    have := fpRound_le_int _ 0 hpabs (by simpa using hp0)
    simpa [fpMul] using this
  have htlow : -3 ≤ fpMul (fpDiv (-2) D) k := by
    have := int_le_fpRound _ (-3) hpabs (by simpa using hplow)
    simpa [fpMul] using this
  generalize fpMul (fpDiv (-2) D) k = t at ht0 htlow
  have hLq : (-1099511627776 : ℚ) ≤ (L : ℚ) ∧ (L : ℚ) ≤ 1099511627776 :=
    ⟨by exact_mod_cast hL.1, by exact_mod_cast hL.2⟩
  have habs : |((L + 52 : ℤ) : ℚ) + t| < 2 ^ 53 := by
    rw [abs_lt]
    push_cast
    constructor <;> norm_num <;> linarith
  unfold fpAdd
  constructor
  · apply int_le_fpRound _ _ habs
    push_cast
    linarith
  · apply fpRound_le_int _ _ habs
    push_cast
    linarith

/-- Hit region of the left wedge: a point inside lies in the band of the wedge,
strictly left of the diagonals of the top and bottom wedges. -/
theorem left_contains_imp (L T B : ℤ) (p : QPoint) (hh : 102 ≤ B - T)
    (hL : Coord L) (hT : Coord T) (hp : Coord p.y)
    (h : containsPoint (leftPolygon L T B) p = true) :
    L + 2 ≤ p.x ∧ p.x ≤ L + 51 ∧ T + 2 ≤ p.y ∧ p.y < B ∧ p.x - L < p.y - T ∧
      p.x - (L + 2) < B - p.y := by
  have hL2 : Small (L + 2) := by unfold Small Coord at *; omega
  have hT2 : Small (T + 2) := by unfold Small Coord at *; omega
  have hL0 : Small L := by unfold Small Coord at *; omega
  have hp : Small p.y := by unfold Small Coord at *; omega
  rw [leftPolygon, containsPoint_closed4, crossing_comm ⟨L + 2, B⟩,
    crossing_comm ⟨L + 50, B - 50⟩ ⟨L + 52, T + 52⟩,
    crossing_comm ⟨L + 52, T + 52⟩ ⟨L + 2, T + 2⟩] at h
  have c1 := crossing_vertical (L + 2) (T + 2) B p hL2
  have c2 := crossing_up (L + 50) (B - 50) (L + 2) B p (by omega)
  have c3 := crossing_iff ⟨L + 52, T + 52⟩ ⟨L + 50, B - 50⟩ p
  have c4 := crossing_up (L + 2) (T + 2) (L + 52) (T + 52) p (by omega)
  rw [edgeX_diag_pos _ _ _ _ _ (by ring) (by omega) hL2 hT2 hp, Int.cast_le] at c4
  rw [min_eq_left (by omega), max_eq_right (by omega)] at c1
  -- integer consequences of the two inexact comparisons
  have c2' : (crossing ⟨L + 50, B - 50⟩ ⟨L + 2, B⟩ p = true →
        B - 50 ≤ p.y ∧ p.y < B ∧ L + 2 ≤ p.x) ∧
      (crossing ⟨L + 50, B - 50⟩ ⟨L + 2, B⟩ p = false →
        B - 50 ≤ p.y → p.y < B → p.x < L + 2 + (B - p.y)) := by
    constructor
    · intro hc
      obtain ⟨h1, h2, h3⟩ := c2.1 hc
      obtain ⟨b1, _⟩ := lower_left_edge_bounds L B p.y h1 h2 hL0
      have : ((L + 2 : ℤ) : ℚ) ≤ (p.x : ℚ) := le_trans b1 h3
      exact ⟨h1, h2, by exact_mod_cast this⟩
    · intro hc h1 h2
      obtain ⟨_, b2⟩ := lower_left_edge_bounds L B p.y h1 h2 hL0
      by_contra hcon
      have hge : ((L + 2 + (B - p.y) : ℤ) : ℚ) ≤ (p.x : ℚ) := by
        exact_mod_cast (not_lt.1 hcon)
      have := c2.2 ⟨h1, h2, le_trans b2 hge⟩
      rw [hc] at this
      cases this
  have c3' : (crossing ⟨L + 52, T + 52⟩ ⟨L + 50, B - 50⟩ p = true →
        T + 52 ≤ p.y ∧ p.y < B - 50 ∧ L + 49 ≤ p.x) ∧
      (crossing ⟨L + 52, T + 52⟩ ⟨L + 50, B - 50⟩ p = false →
        T + 52 ≤ p.y → p.y < B - 50 → p.x < L + 52) := by
    constructor
    · intro hc
      rcases c3.1 hc with ⟨h0, h1, h2, h3⟩ | ⟨h0, h1, h2, h3⟩
      · simp only at h0 h1 h2 h3
        obtain ⟨b1, _⟩ := inner_left_edge_bounds L T B p.y h1 h2 hL0
        have : ((L + 49 : ℤ) : ℚ) ≤ (p.x : ℚ) := le_trans b1 h3
        exact ⟨h1, h2, by exact_mod_cast this⟩
      · simp only at h0
        omega
    · intro hc h1 h2
      obtain ⟨_, b2⟩ := inner_left_edge_bounds L T B p.y h1 h2 hL0
      by_contra hcon
      have hge : ((L + 52 : ℤ) : ℚ) ≤ (p.x : ℚ) := by
        exact_mod_cast (not_lt.1 hcon)
      have := c3.2 (Or.inl ⟨by simp only; omega, h1, h2, le_trans b2 hge⟩)
      rw [hc] at this
      cases this
  clear c2 c3
  cases h1 : crossing ⟨L + 2, T + 2⟩ ⟨L + 2, B⟩ p <;>
    cases h2 : crossing ⟨L + 50, B - 50⟩ ⟨L + 2, B⟩ p <;>
    cases h3 : crossing ⟨L + 52, T + 52⟩ ⟨L + 50, B - 50⟩ p <;>
    cases h4 : crossing ⟨L + 2, T + 2⟩ ⟨L + 52, T + 52⟩ p <;>
    rw [h1] at c1 <;> rw [h2] at c2' <;> rw [h3] at c3' <;> rw [h4] at c4 <;>
    rw [h1, h2, h3, h4] at h <;>
    simp only [Bool.false_eq_true, false_iff, true_iff, Bool.xor_false, Bool.false_xor,
      Bool.xor_true, Bool.not_true, Bool.not_false, true_implies, false_implies,
      and_true, true_and, reduceCtorEq] at c1 c2' c3' c4 h <;>
    omega

theorem parity_step (p1 p2 pos : QPoint) (w : ℤ) :
    decide (qt_polygon_isect_line p1 p2 pos w % 2 = 1) =
      xor (decide (w % 2 = 1)) (crossing p1 p2 pos) := by
  rw [isect_eq_add]
  rcases isectDelta_cases p1 p2 pos with ⟨c, e⟩ | ⟨c, e | e⟩ <;> rw [c, e] <;>
    rcases Int.emod_two_eq_zero_or_one w with h | h <;>
    simp [h, Int.add_emod, Int.sub_emod]

theorem crossing_self (a pos : QPoint) : crossing a a pos = false := by
  rw [← Bool.not_eq_true, crossing_iff]
  simp

/-- Containment in a six-point outline. -/
theorem containsPoint_six (a b c d e f pos : QPoint) :
    containsPoint [a, b, c, d, e, f] pos =
      xor (xor (xor (xor (xor (crossing a b pos) (crossing b c pos)) (crossing c d pos))
        (crossing d e pos)) (crossing e f pos)) (crossing f a pos) := by
  by_cases h : f = a
  · subst h
    simp [containsPoint, windingLoop, tmod_two_ne_zero_iff, parity_step, crossing_self]
  · simp [containsPoint, windingLoop, tmod_two_ne_zero_iff, parity_step, h]

/-- Hit region of an outline made of the corners of a tabbed box: a point
inside lies between the extreme abscissas and between the extreme ordinates. -/
theorem tabbed_box_contains_imp (xl xt xr yt ym yb : ℤ) (p : QPoint)
    (hxl : Coord xl) (hxt : Coord xt) (hxr : Coord xr)
    (h : containsPoint [⟨xl, yt⟩, ⟨xt, yt⟩, ⟨xt, ym⟩, ⟨xr, ym⟩, ⟨xr, yb⟩, ⟨xl, yb⟩] p = true) :
    min xl (min xt xr) ≤ p.x ∧ p.x < max xl (max xt xr) ∧
      min yt (min ym yb) ≤ p.y ∧ p.y < max yt (max ym yb) := by
  have s1 : Small xl := by unfold Small Coord at *; omega
  have s2 : Small xt := by unfold Small Coord at *; omega
  have s3 : Small xr := by unfold Small Coord at *; omega
  rw [containsPoint_six, crossing_horizontal, crossing_horizontal, crossing_horizontal] at h
  have c1 := crossing_vertical xt yt ym p s2
  have c2 := crossing_vertical xr ym yb p s3
  have c3 := crossing_vertical xl yb yt p s1
  cases h1 : crossing ⟨xt, yt⟩ ⟨xt, ym⟩ p <;>
    cases h2 : crossing ⟨xr, ym⟩ ⟨xr, yb⟩ p <;>
    cases h3 : crossing ⟨xl, yb⟩ ⟨xl, yt⟩ p <;>
    rw [h1] at c1 <;> rw [h2] at c2 <;> rw [h3] at c3 <;>
    rw [h1, h2, h3] at h <;>
    simp only [Bool.false_eq_true, false_iff, true_iff, Bool.xor_false, Bool.false_xor,
      Bool.xor_true, Bool.not_true, Bool.not_false, reduceCtorEq] at c1 c2 c3 h <;>
    omega


/-! ## Hit regions -/

/-- Abscissas of the center polygon lie between the inner corners when these
are at least 50 pixels apart. -/
theorem center_x_inner (a b : ℤ) (h : 50 ≤ b - a) :
    let iw := indicatorWidthOf a b
    let cx := Int.tdiv (a + b) 2
    (a ≤ cx - Int.tdiv iw 2 ∧ cx - Int.tdiv iw 2 ≤ b) ∧
    (a ≤ cx - Int.tdiv iw 2 + Int.tdiv (267 * iw) 1000 ∧
      cx - Int.tdiv iw 2 + Int.tdiv (267 * iw) 1000 ≤ b) ∧
    (a ≤ cx + Int.tdiv iw 2 ∧ cx + Int.tdiv iw 2 ≤ b) := by
  intro iw cx
  have hiw : iw = min 300 (max a b - min a b + 1 - 100) := rfl
  have hcx : cx = Int.tdiv (a + b) 2 := rfl
  rw [max_eq_right (show a ≤ b by omega), min_eq_left (show a ≤ b by omega)] at hiw
  have h2 := tdiv_cases (267 * iw) 1000 (by norm_num)
  have h4 := tdiv_cases iw 2 (by norm_num)
  have h6 := tdiv_cases (a + b) 2 (by norm_num)
  rw [← hcx] at h6
  generalize Int.tdiv (267 * iw) 1000 = q2 at *
  generalize Int.tdiv iw 2 = q4 at *
  clear_value iw cx
  omega

/-- Ordinates of the center polygon lie between the inner corners when these
are at least 160 pixels apart. -/
theorem center_y_inner (c d iw : ℤ) (h : 160 ≤ d - c) (hiw : -99 ≤ iw ∧ iw ≤ 300) :
    let ih := min 160 (Int.tdiv (3 * iw) 5)
    let cy := Int.tdiv (c + d) 2
    (c ≤ cy - Int.tdiv ih 2 ∧ cy - Int.tdiv ih 2 ≤ d) ∧
    (c ≤ cy - Int.tdiv ih 2 + Int.tdiv (187 * ih) 1000 ∧
      cy - Int.tdiv ih 2 + Int.tdiv (187 * ih) 1000 ≤ d) ∧
    (c ≤ cy + Int.tdiv ih 2 ∧ cy + Int.tdiv ih 2 ≤ d) := by
  intro ih cy
  have hih : ih = min 160 (Int.tdiv (3 * iw) 5) := rfl
  have hcy : cy = Int.tdiv (c + d) 2 := rfl
  have h1 := tdiv_cases (3 * iw) 5 (by norm_num)
  have h3 := tdiv_cases (187 * ih) 1000 (by norm_num)
  have h5 := tdiv_cases ih 2 (by norm_num)
  have h7 := tdiv_cases (c + d) 2 (by norm_num)
  rw [← hcy] at h7
  generalize Int.tdiv (3 * iw) 5 = q1 at *
  generalize Int.tdiv (187 * ih) 1000 = q3 at *
  generalize Int.tdiv ih 2 = q5 at *
  clear_value ih cy
  omega

/-- Hit region of the center polygon: inside the box spanned by the inner
corners of the wedges. -/
theorem center_contains_imp (a b c d : ℤ) (p : QPoint) (hx : 50 ≤ b - a) (hy : 160 ≤ d - c)
    (ha : -4294967296 ≤ a) (hb : b ≤ 4294967296)
    (h : containsPoint (centerPolygon a b c d) p = true) :
    a ≤ p.x ∧ p.x < b ∧ c ≤ p.y ∧ p.y < d := by
  rw [centerPolygon_eq] at h
  obtain ⟨⟨x1, x2⟩, ⟨x3, x4⟩, x5, x6⟩ := center_x_inner a b hx
  obtain ⟨⟨y1, y2⟩, ⟨y3, y4⟩, y5, y6⟩ := center_y_inner c d (indicatorWidthOf a b) hy
    (indicatorWidthOf_bounds a b)
  have := tabbed_box_contains_imp _ _ _ _ _ _ p (by unfold Coord; omega) (by unfold Coord; omega)
    (by unfold Coord; omega) h
  simp only [le_min_iff, min_le_iff, lt_max_iff, max_lt_iff] at this
  omega

theorem registry_value (s : SegmentedIndicators) (L : DropLocation) :
    (updateSegments s).m_segments.value L = storedPolygon s L := by
  have hr : s.rect.x = 0 ∧ s.rect.y = 0 ∧ s.rect.right = s.width - 1 ∧
      s.rect.bottom = s.height - 1 := by
    simp [rect, QRect.ofXYWH, QRect.x, QRect.y, QRect.right, QRect.bottom]
  obtain ⟨hx, hy, hrt, hb⟩ := hr
  obtain ⟨e1, e2, e3, e4⟩ := eff_false s.rect s.rect
  rw [updateSegments_segments]
  cases hv : s.hoveredFrameRect.isValid <;> cases hc : decide (s.count > 1) <;> cases L <;>
    simp [storedPolygon, needsOuter, hv, hc, SegmentMap.value, innerEntries, outerEntries,
      segmentsForRect_eq, e1, e2, e3, e4, hx, hy, hrt, hb]

/-- Hit regions of the five polygons of one ring. -/
theorem ring_zone (L T R B : ℤ) (p : QPoint) (hw : 102 ≤ R - L) (hh : 102 ≤ B - T)
    (hL : Coord L) (hT : Coord T) (hR : Coord R) (hB : Coord B) (hp : Coord p.y) :
    (containsPoint (leftPolygon L T B) p = true → zoneOf L T R B DropLocation_Left p) ∧
    (containsPoint (topPolygon L T R) p = true → zoneOf L T R B DropLocation_Top p) ∧
    (containsPoint (rightPolygon T R B) p = true → zoneOf L T R B DropLocation_Right p) ∧
    (containsPoint (bottomPolygon L R B) p = true → zoneOf L T R B DropLocation_Bottom p) ∧
    (152 ≤ R - L → 262 ≤ B - T →
      containsPoint (centerPolygon (L + 52) (R - 50) (T + 52) (B - 50)) p = true →
        zoneOf L T R B DropLocation_Center p) := by
  refine ⟨?_, ?_, ?_, ?_, ?_⟩
  · exact left_contains_imp L T B p hh hL hT hp
  · exact (top_contains_iff L T R p (by omega) hL hT hR hp).1
  · exact (right_contains_iff T R B p hh hT hB hR hp).1
  · exact (bottom_contains_iff L R B p hw hL hB hR hp).1
  · intro h1 h2 h
    unfold Coord at hL hR
    exact center_contains_imp _ _ _ _ p (by omega) (by omega) (by omega) (by omega) h

/-- Effective sides of a rectangle of at least 253 x 363 pixels. -/
theorem eff_sizes (container r : QRect) (useOffset : Bool) (hr : rectInRange r)
    (hw : 253 ≤ r.width) (hh : 363 ≤ r.height) :
    (152 ≤ effRight container r useOffset - effLeft r useOffset ∧
      262 ≤ effBottom container r useOffset - effTop r useOffset) ∧
    (Coord (effLeft r useOffset) ∧ Coord (effTop r useOffset) ∧
      Coord (effRight container r useOffset) ∧ Coord (effBottom container r useOffset)) := by
  obtain ⟨c1, c2, c3, c4⟩ := hr
  unfold Coord at *
  simp only [QRect.width, QRect.height] at hw hh
  refine ⟨⟨?_, ?_⟩, ⟨?_, ?_⟩, ⟨?_, ?_⟩, ⟨?_, ?_⟩, ?_, ?_⟩ <;>
    simp only [effLeft, effTop, effRight, effBottom, QRect.x, QRect.y, QRect.right,
      QRect.bottom] <;>
    split_ifs <;> omega

/-- Effective sides of a rectangle whose sides lie on the sides of the container
or at least 50 pixels inside it, when the sides on the container are inset. -/
theorem eff_inside (container r : QRect)
    (hx : r.x = 0 ∨ 50 ≤ r.x) (hy : r.y = 0 ∨ 50 ≤ r.y)
    (hrt : r.right = container.right ∨ r.right ≤ container.right - 50)
    (hb : r.bottom = container.bottom ∨ r.bottom ≤ container.bottom - 50) :
    50 ≤ effLeft r true ∧ 50 ≤ effTop r true ∧
      effRight container r true ≤ container.right - 50 ∧
      effBottom container r true ≤ container.bottom - 50 := by
  simp only [QRect.x, QRect.y, QRect.right, QRect.bottom] at *
  refine ⟨?_, ?_, ?_, ?_⟩ <;>
    simp only [effLeft, effTop, effRight, effBottom, QRect.x, QRect.y, QRect.right,
      QRect.bottom, and_true] <;>
    split_ifs <;> omega

/-- Effective sides of a hovered frame rect that satisfies `overlapFree`. -/
theorem overlapFree_effective (s : SegmentedIndicators) (h : overlapFree s)
    (hv : s.hoveredFrameRect.isValid = true) :
    (152 ≤ effRight s.rect s.hoveredFrameRect (needsOuter s)
        - effLeft s.hoveredFrameRect (needsOuter s) ∧
      262 ≤ effBottom s.rect s.hoveredFrameRect (needsOuter s)
        - effTop s.hoveredFrameRect (needsOuter s)) ∧
    (Coord (effLeft s.hoveredFrameRect (needsOuter s)) ∧
      Coord (effTop s.hoveredFrameRect (needsOuter s)) ∧
      Coord (effRight s.rect s.hoveredFrameRect (needsOuter s)) ∧
      Coord (effBottom s.rect s.hoveredFrameRect (needsOuter s))) ∧
    (needsOuter s = true →
      50 ≤ effLeft s.hoveredFrameRect (needsOuter s) ∧
      50 ≤ effTop s.hoveredFrameRect (needsOuter s) ∧
      effRight s.rect s.hoveredFrameRect (needsOuter s) ≤ s.width - 1 - 50 ∧
      effBottom s.rect s.hoveredFrameRect (needsOuter s) ≤ s.height - 1 - 50) := by
  obtain ⟨_, h2, h3⟩ := h
  obtain ⟨hr, hw, hh⟩ := h2 hv
  obtain ⟨e1, e2⟩ := eff_sizes s.rect s.hoveredFrameRect (needsOuter s)
    (rectInRange_of_safe _ hr) hw hh
  refine ⟨e1, e2, ?_⟩
  intro ho
  have hcount : s.count > 1 := by simpa [needsOuter, hv] using ho
  obtain ⟨s1, s2, s3, s4⟩ := h3 hv hcount
  have hrb : s.rect.right = s.width - 1 ∧ s.rect.bottom = s.height - 1 := by
    simp [rect, QRect.ofXYWH, QRect.right, QRect.bottom]
  have := eff_inside s.rect s.hoveredFrameRect s1 s2 s3 s4
  rw [ho, ← hrb.1, ← hrb.2]
  exact this

/-- Hit regions of one ring are disjoint. -/
theorem zone_disjoint_same (L T R B : ℤ) (p : QPoint) (hw : 102 ≤ R - L) (hh : 102 ≤ B - T)
    (L₁ L₂ : DropLocation) (h₁ : zoneOf L T R B L₁ p) (h₂ : zoneOf L T R B L₂ p) : L₁ = L₂ := by
  cases L₁ <;> cases L₂ <;> simp only [zoneOf] at h₁ h₂ <;> first | rfl | (exfalso; omega)

/-- Hit regions of an inner ring that keeps 50 pixels from the sides of the outer
ring, or is inset where it touches them, do not meet the wedges of the outer
ring. -/
theorem zone_disjoint_nested (L T R B oR oB : ℤ) (p : QPoint) (hw : 102 ≤ R - L)
    (hh : 102 ≤ B - T) (hL : 50 ≤ L) (hT : 50 ≤ T) (hR : R ≤ oR - 50) (hB : B ≤ oB - 50)
    (L₁ L₂ : DropLocation) (hedge : L₂ ∈ edgeLocations)
    (h₁ : zoneOf L T R B L₁ p) (h₂ : zoneOf 0 0 oR oB L₂ p) : False := by
  simp only [edgeLocations, List.mem_cons, List.mem_singleton, List.not_mem_nil,
    or_false] at hedge
  rcases hedge with rfl | rfl | rfl | rfl <;> cases L₁ <;> simp only [zoneOf] at h₁ h₂ <;> omega

/-- A polygon of the registry contains only points of its hit region. -/
theorem contains_imp_regZone (s : SegmentedIndicators) (h : overlapFree s) (p : QPoint)
    (hp : pointInRange p) (L : DropLocation)
    (hc : containsPoint ((updateSegments s).m_segments.value L) p = true) : regZone s L p := by
  rw [registry_value] at hc
  have inner : s.hoveredFrameRect.isValid = true →
      ∀ L', L' ∈ innerLocations → containsPoint (storedPolygon s L') p = true →
        regZone s L' p := by
    intro hv L' hL' hc'
    obtain ⟨⟨hw, hh⟩, ⟨cL, cT, cR, cB⟩, _⟩ := overlapFree_effective s h hv
    obtain ⟨z1, z2, z3, z4, z5⟩ := ring_zone _ _ _ _ p (by omega) (by omega) cL cT cR cB hp.2
    simp only [innerLocations, List.mem_cons, List.mem_singleton, List.not_mem_nil,
      or_false] at hL'
    rcases hL' with rfl | rfl | rfl | rfl | rfl <;>
      simp only [storedPolygon, hv, if_true] at hc' <;>
      refine ⟨hv, ?_⟩
    · exact z1 hc'
    · exact z2 hc'
    · exact z3 hc'
    · exact z4 hc'
    · exact z5 hw hh hc'
  have outer : needsOuter s = true →
      ∀ L', L' ∈ outerLocations → containsPoint (storedPolygon s L') p = true →
        regZone s L' p := by
    intro ho L' hL' hc'
    obtain ⟨w1, w2, h1, h2⟩ := h.1 ho
    obtain ⟨z1, z2, z3, z4, _⟩ := ring_zone 0 0 (s.width - 1) (s.height - 1) p (by omega)
      (by omega) (by unfold Coord; omega) (by unfold Coord; omega) (by unfold Coord; omega)
      (by unfold Coord; omega) hp.2
    simp only [outerLocations, List.mem_cons, List.mem_singleton, List.not_mem_nil,
      or_false] at hL'
    rcases hL' with rfl | rfl | rfl | rfl <;>
      simp only [storedPolygon, ho, if_true] at hc' <;>
      refine ⟨ho, ?_⟩
    · exact z1 hc'
    · exact z2 hc'
    · exact z3 hc'
    · exact z4 hc'
  have hvalid : ∀ L', L' ∈ innerLocations → containsPoint (storedPolygon s L') p = true →
      s.hoveredFrameRect.isValid = true := by
    intro L' hL' hc'
    by_contra hv
    simp only [innerLocations, List.mem_cons, List.mem_singleton, List.not_mem_nil,
      or_false] at hL'
    rcases hL' with rfl | rfl | rfl | rfl | rfl <;>
      simp [storedPolygon, hv, containsPoint] at hc'
  have hneeds : ∀ L', L' ∈ outerLocations → containsPoint (storedPolygon s L') p = true →
      needsOuter s = true := by
    intro L' hL' hc'
    by_contra ho
    simp only [outerLocations, List.mem_cons, List.mem_singleton, List.not_mem_nil,
      or_false] at hL'
    rcases hL' with rfl | rfl | rfl | rfl <;>
      simp [storedPolygon, ho, containsPoint] at hc'
  have mi : ∀ L', L' ∈ innerLocations → containsPoint (storedPolygon s L') p = true →
      regZone s L' p := fun L' hL' hc' => inner (hvalid L' hL' hc') L' hL' hc'
  have mo : ∀ L', L' ∈ outerLocations → containsPoint (storedPolygon s L') p = true →
      regZone s L' p := fun L' hL' hc' => outer (hneeds L' hL' hc') L' hL' hc'
  cases L with
  | DropLocation_None => simp [storedPolygon, containsPoint] at hc
  | DropLocation_Left => exact mi _ (by simp [innerLocations]) hc
  | DropLocation_Top => exact mi _ (by simp [innerLocations]) hc
  | DropLocation_Right => exact mi _ (by simp [innerLocations]) hc
  | DropLocation_Bottom => exact mi _ (by simp [innerLocations]) hc
  | DropLocation_Center => exact mi _ (by simp [innerLocations]) hc
  | DropLocation_OutterLeft => exact mo _ (by simp [outerLocations]) hc
  | DropLocation_OutterTop => exact mo _ (by simp [outerLocations]) hc
  | DropLocation_OutterRight => exact mo _ (by simp [outerLocations]) hc
  | DropLocation_OutterBottom => exact mo _ (by simp [outerLocations]) hc

/-- Hit regions of different locations are disjoint. -/
theorem regZone_disjoint (s : SegmentedIndicators) (h : overlapFree s) (p : QPoint)
    (L₁ L₂ : DropLocation) (h₁ : regZone s L₁ p) (h₂ : regZone s L₂ p) : L₁ = L₂ := by
  have inner_inner : ∀ A B, A ∈ innerLocations → B ∈ innerLocations → regZone s A p →
      regZone s B p → A = B := by
    intro A B hA hB zA zB
    simp only [innerLocations, List.mem_cons, List.mem_singleton, List.not_mem_nil,
      or_false] at hA hB
    have hv : s.hoveredFrameRect.isValid = true := by
      rcases hA with rfl | rfl | rfl | rfl | rfl <;> exact zA.1
    obtain ⟨⟨hw, hh⟩, _, _⟩ := overlapFree_effective s h hv
    have zA' : zoneOf (effLeft s.hoveredFrameRect (needsOuter s)) (effTop s.hoveredFrameRect (needsOuter s))
        (effRight s.rect s.hoveredFrameRect (needsOuter s))
        (effBottom s.rect s.hoveredFrameRect (needsOuter s)) A p := by
      rcases hA with rfl | rfl | rfl | rfl | rfl <;> exact zA.2
    have zB' : zoneOf (effLeft s.hoveredFrameRect (needsOuter s)) (effTop s.hoveredFrameRect (needsOuter s))
        (effRight s.rect s.hoveredFrameRect (needsOuter s))
        (effBottom s.rect s.hoveredFrameRect (needsOuter s)) B p := by
      rcases hB with rfl | rfl | rfl | rfl | rfl <;> exact zB.2
    exact zone_disjoint_same _ _ _ _ p (by omega) (by omega) A B zA' zB'
  have outer_facts : needsOuter s = true → 102 ≤ s.width - 1 - 0 ∧ 102 ≤ s.height - 1 - 0 := by
    intro ho
    obtain ⟨w1, _, h1, _⟩ := h.1 ho
    omega
  have inner_outer : ∀ A E, A ∈ innerLocations → E ∈ edgeLocations → regZone s A p →
      needsOuter s = true → zoneOf 0 0 (s.width - 1) (s.height - 1) E p → False := by
    intro A E hA hE zA ho zE
    simp only [innerLocations, List.mem_cons, List.mem_singleton, List.not_mem_nil,
      or_false] at hA
    have hv : s.hoveredFrameRect.isValid = true := by
      rcases hA with rfl | rfl | rfl | rfl | rfl <;> exact zA.1
    obtain ⟨⟨hw, hh⟩, _, hin⟩ := overlapFree_effective s h hv
    obtain ⟨i1, i2, i3, i4⟩ := hin ho
    have zA' : zoneOf (effLeft s.hoveredFrameRect (needsOuter s)) (effTop s.hoveredFrameRect (needsOuter s))
        (effRight s.rect s.hoveredFrameRect (needsOuter s))
        (effBottom s.rect s.hoveredFrameRect (needsOuter s)) A p := by
      rcases hA with rfl | rfl | rfl | rfl | rfl <;> exact zA.2
    exact zone_disjoint_nested _ _ _ _ _ _ p (by omega) (by omega) i1 i2 i3 i4 A E hE zA' zE
  have outer_outer : ∀ E F, needsOuter s = true →
      zoneOf 0 0 (s.width - 1) (s.height - 1) E p →
      zoneOf 0 0 (s.width - 1) (s.height - 1) F p → E = F := by
    intro E F ho zE zF
    obtain ⟨w1, h1⟩ := outer_facts ho
    exact zone_disjoint_same _ _ _ _ p w1 h1 E F zE zF
  cases L₁ <;> cases L₂ <;>
    first
      | rfl
      | exact h₁.elim
      | exact h₂.elim
      | exact inner_inner _ _ (by decide) (by decide) h₁ h₂
      | exact (inner_outer _ _ (by decide) (by decide) h₁ h₂.1 h₂.2).elim
      | exact (inner_outer _ _ (by decide) (by decide) h₂ h₁.1 h₁.2).elim
      | exact absurd (outer_outer _ _ h₁.1 h₁.2 h₂.2) (by decide)

/-! ## Priority of the center and overlap of the rings -/

/-- C4, as stated, fails: for a hovered frame rect 400 wide and only 100 high the
Center polygon reaches into the top wedge; (201,102) lies in both and the hit
test returns Top. -/
theorem center_point_yields_top_on_low_frame :
    ¬ ((initial 800 600 (QRect.ofXYWH 100 100 400 100) 1).hoveredFrameRect.isValid = true →
      containsPoint
        ((updateSegments (initial 800 600 (QRect.ofXYWH 100 100 400 100) 1)).m_segments.value
          DropLocation_Center) ⟨201, 102⟩ = true →
      dropLocationForPos (updateSegments (initial 800 600 (QRect.ofXYWH 100 100 400 100) 1))
          ⟨201, 102⟩ = DropLocation_Center) ∧
    dropLocationForPos (updateSegments (initial 800 600 (QRect.ofXYWH 100 100 400 100) 1))
        ⟨201, 102⟩ = DropLocation_Top := by
  decide!

/-- The order of the edge locations is the order of their enumerators. -/
theorem edge_order (L R : DropLocation) (hL : L ∈ edgeLocations) (hR : R ∈ edgeLocations)
    (h : edgeLocations.indexOf L < edgeLocations.indexOf R) : L.toInt < R.toInt := by
  simp only [edgeLocations, List.mem_cons, List.mem_singleton, List.not_mem_nil, or_false] at hL hR
  rcases hL with rfl | rfl | rfl | rfl <;> rcases hR with rfl | rfl | rfl | rfl <;>
    revert h <;> decide

/-- C4, amended: on a registry built by `updateSegments` with a valid hovered
frame rect, for a point `p` inside the Center polygon the hit test returns
Center exactly when none of the Left, Top, Right and Bottom polygons contains
`p`, and otherwise the first of these, in that order, that contains `p`; when
the hovered frame rect has coordinates within `10^9`, so that no `int`
operation overflows, and is at least 253 wide and 363 high, no edge polygon
contains a point of the Center polygon, and the hit test returns Center. -/
theorem center_hit_iff_no_edge_hit (s : SegmentedIndicators) (p : QPoint)
    (hv : s.hoveredFrameRect.isValid = true)
    (hc : containsPoint ((updateSegments s).m_segments.value DropLocation_Center) p = true) :
    (dropLocationForPos (updateSegments s) p = DropLocation_Center ↔
      ∀ L ∈ edgeLocations, containsPoint ((updateSegments s).m_segments.value L) p = false) ∧
    (dropLocationForPos (updateSegments s) p = DropLocation_Center ∨
      (dropLocationForPos (updateSegments s) p ∈ edgeLocations ∧
        containsPoint ((updateSegments s).m_segments.value
          (dropLocationForPos (updateSegments s) p)) p = true ∧
        ∀ L ∈ edgeLocations,
          edgeLocations.indexOf L <
            edgeLocations.indexOf (dropLocationForPos (updateSegments s) p) →
          containsPoint ((updateSegments s).m_segments.value L) p = false)) ∧
    (rectIntSafe s.hoveredFrameRect → 253 ≤ s.hoveredFrameRect.width →
      363 ≤ s.hoveredFrameRect.height → pointInRange p →
      dropLocationForPos (updateSegments s) p = DropLocation_Center) := by
  have hspec := hit_spec s p
  have hcases : dropLocationForPos (updateSegments s) p = DropLocation_Center ∨
      (dropLocationForPos (updateSegments s) p ∈ edgeLocations ∧
        containsPoint ((updateSegments s).m_segments.value
          (dropLocationForPos (updateSegments s) p)) p = true ∧
        ∀ L ∈ edgeLocations,
          edgeLocations.indexOf L <
            edgeLocations.indexOf (dropLocationForPos (updateSegments s) p) →
          containsPoint ((updateSegments s).m_segments.value L) p = false) := by
    rcases hspec with ⟨_, hall⟩ | ⟨hne, hcont, hfirst⟩
    · rw [hall] at hc
      cases hc
    · have hle : ¬ DropLocation_Center.toInt <
          (dropLocationForPos (updateSegments s) p).toInt := by
        intro hlt
        rw [hfirst _ hlt] at hc
        cases hc
      have hmem : dropLocationForPos (updateSegments s) p = DropLocation_Center ∨
          dropLocationForPos (updateSegments s) p ∈ edgeLocations := by
        revert hne hle
        generalize dropLocationForPos (updateSegments s) p = R
        intro hne hle
        cases R <;> simp [edgeLocations, DropLocation.toInt] at hne hle ⊢
      rcases hmem with h | h
      · exact Or.inl h
      · exact Or.inr ⟨h, hcont, fun L hL hlt => hfirst L (edge_order L _ hL h hlt)⟩
  have hiff : dropLocationForPos (updateSegments s) p = DropLocation_Center ↔
      ∀ L ∈ edgeLocations, containsPoint ((updateSegments s).m_segments.value L) p = false := by
    constructor
    · intro hR L hL
      rcases hspec with ⟨_, hall⟩ | ⟨_, _, hfirst⟩
      · exact hall L
      · apply hfirst
        rw [hR]
        simp only [edgeLocations, List.mem_cons, List.mem_singleton, List.not_mem_nil,
          or_false] at hL
        rcases hL with rfl | rfl | rfl | rfl <;> decide
    · intro hno
      rcases hcases with h | ⟨hmem, hcont, _⟩
      · exact h
      · rw [hno _ hmem] at hcont
        cases hcont
  refine ⟨hiff, hcases, ?_⟩
  intro hsafe hw hh hp
  have hr := rectInRange_of_safe _ hsafe
  rw [hiff]
  intro L hL
  by_contra hcon
  have hcon' : containsPoint ((updateSegments s).m_segments.value L) p = true := by
    simpa using hcon
  obtain ⟨⟨sw, sh⟩, cL, cT, cR, cB⟩ :=
    eff_sizes s.rect s.hoveredFrameRect (needsOuter s) hr hw hh
  obtain ⟨z1, z2, z3, z4, z5⟩ := ring_zone _ _ _ _ p (by omega) (by omega) cL cT cR cB hp.2
  rw [registry_value] at hc hcon'
  simp only [storedPolygon, hv, if_true] at hc
  have zc := z5 sw sh hc
  simp only [edgeLocations, List.mem_cons, List.mem_singleton, List.not_mem_nil,
    or_false] at hL
  rcases hL with rfl | rfl | rfl | rfl <;> simp only [storedPolygon, hv, if_true] at hcon'
  · exact absurd (zone_disjoint_same _ _ _ _ p (by omega) (by omega) _ _ zc (z1 hcon'))
      (by decide)
  · exact absurd (zone_disjoint_same _ _ _ _ p (by omega) (by omega) _ _ zc (z2 hcon'))
      (by decide)
  · exact absurd (zone_disjoint_same _ _ _ _ p (by omega) (by omega) _ _ zc (z3 hcon'))
      (by decide)
  · exact absurd (zone_disjoint_same _ _ _ _ p (by omega) (by omega) _ _ zc (z4 hcon'))
      (by decide)

/-- Witness for C4 (amended): the center of a 400 x 400 frame. -/
theorem center_hit_iff_no_edge_hit_witness :
    (initial 800 600 (QRect.ofXYWH 100 100 400 400) 1).hoveredFrameRect.isValid = true ∧
    containsPoint ((updateSegments (initial 800 600 (QRect.ofXYWH 100 100 400 400) 1)).m_segments.value
      DropLocation_Center) ⟨300, 300⟩ = true ∧
    dropLocationForPos (updateSegments (initial 800 600 (QRect.ofXYWH 100 100 400 400) 1))
      ⟨300, 300⟩ = DropLocation_Center :=
  ⟨by decide, by decide!,
    (center_hit_iff_no_edge_hit (initial 800 600 (QRect.ofXYWH 100 100 400 400) 1) ⟨300, 300⟩
      (by decide) (by decide!)).2.2 (by decide) (by decide) (by decide) (by decide)⟩

/-- C8, as stated, fails: a hovered frame rect ten pixels from the left side of
the container is not inset, and its Left polygon overlaps the OuterLeft polygon;
both contain (20,250) and both are highlighted when that point is hovered. -/
theorem inner_left_overlaps_outer_left :
    ¬ (∀ L₁ L₂ : DropLocation,
        containsPoint ((updateSegments (initial 800 600 (QRect.ofXYWH 10 100 400 300) 2)).m_segments.value
          L₁) ⟨20, 250⟩ = true →
        containsPoint ((updateSegments (initial 800 600 (QRect.ofXYWH 10 100 400 300) 2)).m_segments.value
          L₂) ⟨20, 250⟩ = true → L₁ = L₂) := by
  intro h
  exact absurd (h DropLocation_Left DropLocation_OutterLeft (by decide!) (by decide!)) (by decide)

theorem updateSegments_hoveredPt (s : SegmentedIndicators) :
    (updateSegments s).m_hoveredPt = s.m_hoveredPt := rfl

theorem mem_drawSegments (s : SegmentedIndicators) (L : DropLocation)
    (h : (L, some true) ∈ drawSegments s) :
    containsPoint (s.m_segments.value L) s.m_hoveredPt = true := by
  simp only [drawSegments, List.mem_map] at h
  obtain ⟨L', _, heq⟩ := h
  simp only [Prod.mk.injEq] at heq
  obtain ⟨rfl, hd⟩ := heq
  unfold drawSegment at hd
  split_ifs at hd
  simpa using hd

/-- C8, amended: under `overlapFree` (a container of at least 103 x 103 pixels
when the outer ring is shown, a valid hovered frame rect with coordinates
within `10^9`, so that no `int` operation overflows, and of at least 253 x 363
pixels, and, when both rings are shown, each side of the hovered frame rect on
the corresponding side of the container or at least 50 pixels inside it) at
most one polygon of the rebuilt registry contains a given point; hence at most
one segment is highlighted for the hovered point, and no inner polygon overlaps
an outer one. -/
theorem registry_polygons_disjoint (s : SegmentedIndicators) (h : overlapFree s) :
    (∀ p, pointInRange p → ∀ L₁ L₂,
      containsPoint ((updateSegments s).m_segments.value L₁) p = true →
      containsPoint ((updateSegments s).m_segments.value L₂) p = true → L₁ = L₂) ∧
    (pointInRange s.m_hoveredPt → ∀ L₁ L₂,
      (L₁, some true) ∈ drawSegments (updateSegments s) →
      (L₂, some true) ∈ drawSegments (updateSegments s) → L₁ = L₂) ∧
    (∀ p, pointInRange p → ∀ Li ∈ innerLocations, ∀ Lo ∈ outerLocations,
      ¬ (containsPoint ((updateSegments s).m_segments.value Li) p = true ∧
        containsPoint ((updateSegments s).m_segments.value Lo) p = true)) := by
  have key : ∀ p, pointInRange p → ∀ L₁ L₂,
      containsPoint ((updateSegments s).m_segments.value L₁) p = true →
      containsPoint ((updateSegments s).m_segments.value L₂) p = true → L₁ = L₂ := by
    intro p hp L₁ L₂ h₁ h₂
    exact regZone_disjoint s h p L₁ L₂ (contains_imp_regZone s h p hp L₁ h₁)
      (contains_imp_regZone s h p hp L₂ h₂)
  refine ⟨key, ?_, ?_⟩
  · intro hp L₁ L₂ h₁ h₂
    have c₁ := mem_drawSegments _ _ h₁
    have c₂ := mem_drawSegments _ _ h₂
    rw [updateSegments_hoveredPt] at c₁ c₂
    exact key _ hp L₁ L₂ c₁ c₂
  · intro p hp Li hLi Lo hLo ⟨h₁, h₂⟩
    have := key p hp Li Lo h₁ h₂
    subst this
    revert hLi hLo
    cases Li <;> decide

/-- Witness for C8 (amended): two panels, the hovered one filling the left half
of the container. -/
theorem registry_polygons_disjoint_witness :
    overlapFree (initial 800 600 (QRect.ofXYWH 0 0 400 600) 2) ∧
    (∀ p, pointInRange p → ∀ L₁ L₂,
      containsPoint ((updateSegments (initial 800 600 (QRect.ofXYWH 0 0 400 600) 2)).m_segments.value
        L₁) p = true →
      containsPoint ((updateSegments (initial 800 600 (QRect.ofXYWH 0 0 400 600) 2)).m_segments.value
        L₂) p = true → L₁ = L₂) :=
  ⟨by
    unfold overlapFree
    decide,
   (registry_polygons_disjoint _ (by
    unfold overlapFree
    decide)).1⟩

/-! ## Size of the center indicator -/

theorem indicatorSize_eq (container r : QRect) (useOffset : Bool) :
    indicatorSize container r useOffset =
      (indicatorWidthOf (effLeft r useOffset + 52) (effRight container r useOffset - 50),
       min 160 (Int.tdiv (3 * indicatorWidthOf (effLeft r useOffset + 52)
         (effRight container r useOffset - 50)) 5)) := by
  have hb := indicatorWidthOf_bounds (effLeft r useOffset + 52) (effRight container r useOffset - 50)
  rw [← indicatorHeight_exact _ hb.1 hb.2]
  simp only [indicatorSize, add_def, tdiv_pen, SEGMENT_GIRTH, boundingRect_box, QRect.width,
    indicatorWidthOf, effLeft, effRight]
  ring_nf

/-- C11, as stated, fails: for the container (0,0,800,600) and the rectangle
(100,100,200,150), with either value of `useOffset`, `indicatorWidth` is `-2`
and `indicatorHeight` is `-1`, and in the center polygon the left abscissa 201
exceeds the right abscissa 199. -/
theorem indicator_size_negative_200x150 :
    ¬ (0 ≤ (indicatorSize (QRect.ofXYWH 0 0 800 600) (QRect.ofXYWH 100 100 200 150) true).1 ∧
       0 ≤ (indicatorSize (QRect.ofXYWH 0 0 800 600) (QRect.ofXYWH 100 100 200 150) true).2) ∧
    indicatorSize (QRect.ofXYWH 0 0 800 600) (QRect.ofXYWH 100 100 200 150) true = (-2, -1) ∧
    indicatorSize (QRect.ofXYWH 0 0 800 600) (QRect.ofXYWH 100 100 200 150) false = (-2, -1) ∧
    (segmentsForRect (QRect.ofXYWH 0 0 800 600) (QRect.ofXYWH 100 100 200 150) true).2 =
      [⟨201, 175⟩, ⟨201, 175⟩, ⟨201, 175⟩, ⟨199, 175⟩, ⟨199, 175⟩, ⟨201, 175⟩] := by
  decide!

/-- On unbounded integers: the sign of `indicatorWidth` and `indicatorHeight` in
terms of the effective right side minus the effective left side. -/
theorem indicator_size_exact (container r : QRect) (useOffset : Bool) :
    ((0 ≤ (indicatorSize container r useOffset).1 ∧ 0 ≤ (indicatorSize container r useOffset).2) ↔
      (effRight container r useOffset - effLeft r useOffset ≤ 3 ∨
        201 ≤ effRight container r useOffset - effLeft r useOffset)) ∧
    (0 ≤ (indicatorSize container r useOffset).1 →
      ∃ cl ct cr cb tw th : ℤ,
        (segmentsForRect container r useOffset).2 =
          [⟨cl, ct⟩, ⟨cl + tw, ct⟩, ⟨cl + tw, ct + th⟩, ⟨cr, ct + th⟩, ⟨cr, cb⟩, ⟨cl, cb⟩] ∧
        cl ≤ cr ∧ ct ≤ cb) ∧
    -99 ≤ (indicatorSize container r useOffset).1 ∧
    -59 ≤ (indicatorSize container r useOffset).2 := by
  rw [indicatorSize_eq, segmentsForRect_eq, centerPolygon_eq]
  simp only []
  generalize effLeft r useOffset = L
  generalize effRight container r useOffset = R
  generalize effTop r useOffset = T
  generalize effBottom container r useOffset = B
  have hiw : indicatorWidthOf (L + 52) (R - 50) =
      min 300 (max (L + 52) (R - 50) - min (L + 52) (R - 50) + 1 - 100) := rfl
  generalize indicatorWidthOf (L + 52) (R - 50) = iw at hiw ⊢
  have h5 := tdiv_cases (3 * iw) 5 (by norm_num)
  generalize Int.tdiv (3 * iw) 5 = q5 at h5 ⊢
  refine ⟨?_, ?_, ?_, ?_⟩
  · omega
  · intro h0
    refine ⟨_, _, _, _, _, _, rfl, ?_, ?_⟩
    · have h2 := tdiv_cases iw 2 (by norm_num)
      generalize Int.tdiv iw 2 = q2 at h2 ⊢
      omega
    · have h2 := tdiv_cases (min 160 q5) 2 (by norm_num)
      generalize Int.tdiv (min 160 q5) 2 = q2 at h2 ⊢
      omega
  · omega
  · omega

/-- C11, amended: for every rectangle with coordinates within `10^9`, so that no
`int` operation overflows and the compiled code computes what `segmentsForRect`
gives, and either value of `useOffset`, with `w` the effective right side minus
the effective left side (the sides after the offsets; `width - 1` when no side
is offset), `indicatorWidth` and `indicatorHeight` are both non-negative
exactly when `w ≤ 3` or `201 ≤ w`; whenever `indicatorWidth` is non-negative,
the center polygon has its left abscissa at most its right abscissa and its top
ordinate at most its bottom ordinate; in every case `indicatorWidth ≥ -99` and
`indicatorHeight ≥ -59`. -/
theorem indicator_size_nonneg_iff (container r : QRect) (useOffset : Bool)
    (hsafe : rectIntSafe r) :
    segmentsForRect32 container r useOffset = segmentsForRect container r useOffset ∧
    ((0 ≤ (indicatorSize container r useOffset).1 ∧ 0 ≤ (indicatorSize container r useOffset).2) ↔
      (effRight container r useOffset - effLeft r useOffset ≤ 3 ∨
        201 ≤ effRight container r useOffset - effLeft r useOffset)) ∧
    (0 ≤ (indicatorSize container r useOffset).1 →
      ∃ cl ct cr cb tw th : ℤ,
        (segmentsForRect container r useOffset).2 =
          [⟨cl, ct⟩, ⟨cl + tw, ct⟩, ⟨cl + tw, ct + th⟩, ⟨cr, ct + th⟩, ⟨cr, cb⟩, ⟨cl, cb⟩] ∧
        cl ≤ cr ∧ ct ≤ cb) ∧
    -99 ≤ (indicatorSize container r useOffset).1 ∧
    -59 ≤ (indicatorSize container r useOffset).2 :=
  ⟨segmentsForRect32_eq container r useOffset hsafe, indicator_size_exact container r useOffset⟩

/-- C11 at work: the rectangle (100,100,400,300) in the container (0,0,800,600),
for which `indicatorWidth` is 198 and `indicatorHeight` is 118. -/
theorem indicator_size_nonneg_iff_witness :
    rectIntSafe (QRect.ofXYWH 100 100 400 300) ∧
    indicatorSize (QRect.ofXYWH 0 0 800 600) (QRect.ofXYWH 100 100 400 300) false = (198, 118) ∧
    -99 ≤ (indicatorSize (QRect.ofXYWH 0 0 800 600) (QRect.ofXYWH 100 100 400 300) false).1 :=
  ⟨by decide, by decide!,
    (indicator_size_nonneg_iff (QRect.ofXYWH 0 0 800 600) (QRect.ofXYWH 100 100 400 300) false
      (by decide)).2.2.2.1⟩

/-- On unbounded integers: the center polygon has six vertices, any two of which
differ by at most 300 in abscissa and by at most 160 in ordinate. -/
theorem center_polygon_extent_exact (container r : QRect) (useOffset : Bool) :
    (segmentsForRect container r useOffset).2.length = 6 ∧
    ∀ p ∈ (segmentsForRect container r useOffset).2,
      ∀ q ∈ (segmentsForRect container r useOffset).2, p.x - q.x ≤ 300 ∧ p.y - q.y ≤ 160 := by
  rw [segmentsForRect_eq, centerPolygon_eq]
  simp only []
  generalize effLeft r useOffset + 52 = a
  generalize effRight container r useOffset - 50 = b
  generalize effTop r useOffset + 52 = c
  generalize effBottom container r useOffset - 50 = d
  have hiw := indicatorWidthOf_bounds a b
  generalize indicatorWidthOf a b = iw at hiw ⊢
  have h5 := tdiv_cases (3 * iw) 5 (by norm_num)
  generalize Int.tdiv (3 * iw) 5 = q5 at h5 ⊢
  have hih : -59 ≤ min 160 q5 ∧ min 160 q5 ≤ 160 := by omega
  generalize min 160 q5 = ih at hih ⊢
  have hw2 := tdiv_cases iw 2 (by norm_num)
  generalize Int.tdiv iw 2 = w2 at hw2 ⊢
  have hh2 := tdiv_cases ih 2 (by norm_num)
  generalize Int.tdiv ih 2 = h2 at hh2 ⊢
  have htw := tdiv_cases (267 * iw) 1000 (by norm_num)
  generalize Int.tdiv (267 * iw) 1000 = tw at htw ⊢
  have hth := tdiv_cases (187 * ih) 1000 (by norm_num)
  generalize Int.tdiv (187 * ih) 1000 = th at hth ⊢
  generalize Int.tdiv (a + b) 2 = cx
  generalize Int.tdiv (c + d) 2 = cy
  clear h5
  refine ⟨rfl, ?_⟩
  intro p hp q hq
  simp only [List.mem_cons, List.mem_singleton, List.not_mem_nil, or_false] at hp hq
  constructor
  · clear hh2 hth hih
    rcases hp with rfl | rfl | rfl | rfl | rfl | rfl <;>
      rcases hq with rfl | rfl | rfl | rfl | rfl | rfl <;> simp only [] <;> omega
  · clear hw2 htw hiw
    rcases hp with rfl | rfl | rfl | rfl | rfl | rfl <;>
      rcases hq with rfl | rfl | rfl | rfl | rfl | rfl <;> simp only [] <;> omega

/-- C17, as stated, fails: for the rectangle from (-2000000000,100) to
(2000000000,400) the width of the inner bounds exceeds the range of `int`; the
compiled code finds `maxWidth` -294967397 and `indicatorWidth` -294967497, and
the six vertices of its center polygon span 294967496 in abscissa and 176980498
in ordinate. -/
theorem center_polygon_extent_overflow :
    (segmentsForRect32 (QRect.ofXYWH 0 0 800 600) ⟨-2000000000, 100, 2000000000, 400⟩ false).2 =
      [⟨147483749, 88490500⟩, ⟨68727428, 88490500⟩, ⟨68727428, 55395147⟩,
       ⟨-147483747, 55395147⟩, ⟨-147483747, -88489998⟩, ⟨147483749, -88489998⟩] ∧
    ¬ (∀ p ∈ (segmentsForRect32 (QRect.ofXYWH 0 0 800 600)
          ⟨-2000000000, 100, 2000000000, 400⟩ false).2,
        ∀ q ∈ (segmentsForRect32 (QRect.ofXYWH 0 0 800 600)
          ⟨-2000000000, 100, 2000000000, 400⟩ false).2,
        p.x - q.x ≤ 300 ∧ p.y - q.y ≤ 160) := by
  have hval : (segmentsForRect32 (QRect.ofXYWH 0 0 800 600)
      ⟨-2000000000, 100, 2000000000, 400⟩ false).2 =
      [⟨147483749, 88490500⟩, ⟨68727428, 88490500⟩, ⟨68727428, 55395147⟩,
       ⟨-147483747, 55395147⟩, ⟨-147483747, -88489998⟩, ⟨147483749, -88489998⟩] := by
    decide!
  refine ⟨hval, ?_⟩
  rw [hval]
  intro h
  have h1 := (h ⟨147483749, 88490500⟩ (by simp) ⟨-147483747, 55395147⟩ (by simp)).1
  simp only [] at h1
  omega

/-- C17, amended: for every rectangle with coordinates within `10^9`, so that no
`int` operation overflows, and either value of `useOffset`, the compiled code
computes what `segmentsForRect` gives, its center polygon has exactly six
vertices, and any two of its vertices differ by at most 300 in abscissa and by
at most 160 in ordinate. -/
theorem center_polygon_extent (container r : QRect) (useOffset : Bool)
    (hsafe : rectIntSafe r) :
    segmentsForRect32 container r useOffset = segmentsForRect container r useOffset ∧
    (segmentsForRect32 container r useOffset).2.length = 6 ∧
    ∀ p ∈ (segmentsForRect32 container r useOffset).2,
      ∀ q ∈ (segmentsForRect32 container r useOffset).2, p.x - q.x ≤ 300 ∧ p.y - q.y ≤ 160 := by
  have e := segmentsForRect32_eq container r useOffset hsafe
  rw [e]
  exact ⟨rfl, center_polygon_extent_exact container r useOffset⟩

/-- C17 at work: the rectangle (100,100,400,300) in the container (0,0,800,600). -/
theorem center_polygon_extent_witness :
    rectIntSafe (QRect.ofXYWH 100 100 400 300) ∧
    (segmentsForRect32 (QRect.ofXYWH 0 0 800 600) (QRect.ofXYWH 100 100 400 300) true).2.length
      = 6 :=
  ⟨by decide, (center_polygon_extent (QRect.ofXYWH 0 0 800 600) (QRect.ofXYWH 100 100 400 300)
    true (by decide)).2.1⟩

/-! ## The rebuild as a function of its inputs -/

/-- C13: `updateSegments` depends only on the container rect, the hovered frame
rect and the panel count, and is idempotent: two states that agree on these
three inputs, whatever their registries and hovered points, get the same
registry (same keys, same vertex lists); running it a second time changes
nothing; and it leaves the three inputs as they were. -/
theorem updateSegments_idempotent (s t : SegmentedIndicators) (hrect : s.rect = t.rect)
    (hhov : s.hoveredFrameRect = t.hoveredFrameRect) (hcount : s.count = t.count) :
    (updateSegments s).m_segments = (updateSegments t).m_segments ∧
    (updateSegments (updateSegments s)).m_segments = (updateSegments s).m_segments ∧
    updateSegments (updateSegments s) = updateSegments s ∧
    (updateSegments s).rect = s.rect ∧
    (updateSegments s).hoveredFrameRect = s.hoveredFrameRect ∧
    (updateSegments s).count = s.count := by
  have h1 : (updateSegments s).m_segments = (updateSegments t).m_segments := by
    rw [updateSegments_segments, updateSegments_segments, hrect, hhov, hcount]
  have h2 : (updateSegments (updateSegments s)).m_segments = (updateSegments s).m_segments := by
    rw [updateSegments_segments (updateSegments s), updateSegments_segments s]
    rfl
  refine ⟨h1, h2, ?_, rfl, rfl, rfl⟩
  have e : ∀ u : SegmentedIndicators, updateSegments u =
      { u with m_segments := (updateSegments u).m_segments } := fun u => rfl
  rw [e (updateSegments s), h2]

/-- C13 at work: an overlay with an empty registry and an overlay with a stale
registry and another hovered point, both 800 x 600 with the hovered frame rect
(100,100,400,300) and two panels, get the same registry. -/
theorem updateSegments_idempotent_witness :
    (⟨800, 600, QRect.ofXYWH 100 100 400 300, 2, ⟨0, 0⟩, []⟩ : SegmentedIndicators).rect =
      (⟨800, 600, QRect.ofXYWH 100 100 400 300, 2, ⟨7, 9⟩,
        [(DropLocation_Center, [⟨1, 1⟩])]⟩ : SegmentedIndicators).rect ∧
    (updateSegments ⟨800, 600, QRect.ofXYWH 100 100 400 300, 2, ⟨0, 0⟩, []⟩).m_segments =
      (updateSegments ⟨800, 600, QRect.ofXYWH 100 100 400 300, 2, ⟨7, 9⟩,
        [(DropLocation_Center, [⟨1, 1⟩])]⟩).m_segments :=
  ⟨rfl, (updateSegments_idempotent ⟨800, 600, QRect.ofXYWH 100 100 400 300, 2, ⟨0, 0⟩, []⟩
    ⟨800, 600, QRect.ofXYWH 100 100 400 300, 2, ⟨7, 9⟩, [(DropLocation_Center, [⟨1, 1⟩])]⟩
    rfl rfl rfl).1⟩

/-! ## The constructor -/

/-- C14: for a configuration whose getter returns what its setter has stored,
the constructor calls the setter, with 0.7 (the double nearest to 7/10), exactly
when it finds the dragged-window opacity unset (NaN); the opacity is then 0.7;
a configuration whose opacity is set is left as it is; so the configuration
changes exactly when the opacity was unset. -/
theorem constructor_default_opacity {Config : Type} (draggedWindowOpacity : Config → Opacity)
    (setDraggedWindowOpacity : Config → Opacity → Config)
    (hset : ∀ c v, draggedWindowOpacity (setDraggedWindowOpacity c v) = v) (config : Config) :
    (construct draggedWindowOpacity setDraggedWindowOpacity config =
      if qIsNaN (draggedWindowOpacity config) then
        setDraggedWindowOpacity config (some (fpRound (7 / 10)))
      else config) ∧
    (qIsNaN (draggedWindowOpacity config) = true →
      draggedWindowOpacity (construct draggedWindowOpacity setDraggedWindowOpacity config) =
        some (fpRound (7 / 10))) ∧
    (qIsNaN (draggedWindowOpacity config) = false →
      construct draggedWindowOpacity setDraggedWindowOpacity config = config) ∧
    (construct draggedWindowOpacity setDraggedWindowOpacity config ≠ config ↔
      qIsNaN (draggedWindowOpacity config) = true) ∧
    fpRound (7 / 10) = 3152519739159347 / 4503599627370496 := by
  have hval : fpRound (7 / 10) = 3152519739159347 / 4503599627370496 := by decide!
  cases h : qIsNaN (draggedWindowOpacity config) with
  | true =>
    have e : construct draggedWindowOpacity setDraggedWindowOpacity config =
        setDraggedWindowOpacity config (some (fpRound (7 / 10))) := by
      simp [construct, h]
    refine ⟨by simp [e], fun _ => by rw [e, hset], fun h' => absurd h' (by decide), ?_, hval⟩
    refine ⟨fun _ => rfl, fun _ hc => ?_⟩
    have h2 := congrArg draggedWindowOpacity hc
    rw [e, hset] at h2
    rw [← h2] at h
    exact absurd h (by simp [qIsNaN])
  | false =>
    have e : construct draggedWindowOpacity setDraggedWindowOpacity config = config := by
      simp [construct, h]
    exact ⟨by simp [e], fun h' => absurd h' (by decide), fun _ => e,
      ⟨fun hne => absurd e hne, fun h' => absurd h' (by decide)⟩, hval⟩

/-- C14 at work, with the opacity itself as the configuration: an unset opacity
becomes 0.7, the opacity 1/2 stays. -/
theorem constructor_default_opacity_witness :
    construct (fun c : Opacity => c) (fun _ v => v) none = some (fpRound (7 / 10)) ∧
    construct (fun c : Opacity => c) (fun _ v => v) (some (1 / 2)) = some (1 / 2) :=
  ⟨((constructor_default_opacity (fun c : Opacity => c) (fun _ v => v) (fun _ _ => rfl)
      none).2.1 rfl),
   ((constructor_default_opacity (fun c : Opacity => c) (fun _ v => v) (fun _ _ => rfl)
      (some (1 / 2))).2.2.1 rfl)⟩

/-! ## Shape of the edge polygons -/

/-- C16: for every container rect and every rectangle `r`,
`segmentsForRect(r, useOffset = true)` returns the same four edge polygons and
the same center polygon as `segmentsForRect(r', useOffset = false)`, where `r'`
is `r` with each side that coincides with the corresponding container side
moved inward by 50 and every other side unchanged; when `r` touches no
container side, `r'` is `r` and the two values of `useOffset` give the same
result. -/
theorem useOffset_is_inset_of_touched_sides (container r : QRect) :
    segmentsForRect container r true =
      segmentsForRect container (insetTouchedSides container r) false ∧
    (r.x ≠ 0 → r.y ≠ 0 → r.right ≠ container.right → r.bottom ≠ container.bottom →
      insetTouchedSides container r = r ∧
      segmentsForRect container r true = segmentsForRect container r false) := by
  have key : ∀ r' : QRect, effLeft r true = r'.x → effTop r true = r'.y →
      effRight container r true = r'.right → effBottom container r true = r'.bottom →
      segmentsForRect container r true = segmentsForRect container r' false := by
    intro r' h1 h2 h3 h4
    rw [segmentsForRect_eq, segmentsForRect_eq, h1, h2, h3, h4]
    obtain ⟨e1, e2, e3, e4⟩ := eff_false container r'
    rw [e1, e2, e3, e4]
  constructor
  · apply key <;>
      simp only [effLeft, effTop, effRight, effBottom, insetTouchedSides, QRect.x, QRect.y,
        QRect.right, QRect.bottom, SEGMENT_GIRTH, and_true] <;>
      split_ifs <;> omega
  · intro h1 h2 h3 h4
    constructor
    · cases r
      simp only [QRect.x, QRect.y, QRect.right, QRect.bottom] at h1 h2 h3 h4
      simp only [insetTouchedSides, QRect.x, QRect.y, QRect.right, QRect.bottom, h1, h2, h3, h4,
        if_false]
    · apply key <;>
        simp only [effLeft, effTop, effRight, effBottom, QRect.x, QRect.y,
          QRect.right, QRect.bottom, and_true] <;>
        split_ifs <;>
        first
          | rfl
          | omega
          | (exfalso; simp_all [QRect.x, QRect.y, QRect.right, QRect.bottom])

/-! ## Disjoint wedges of one ring -/

/-- C18: for every rectangle at least 104 wide and 104 high (coordinates of the
rectangle and of the point within the range of pixel coordinates) and
`useOffset = false`, no point is contained, under the even-odd rule, in more
than one of the Left, Top, Right and Bottom polygons returned by
`segmentsForRect`; points on the diagonals that two wedges share included. -/
theorem edge_polygons_pairwise_disjoint (container r : QRect) (p : QPoint)
    (hw : 104 ≤ r.width) (hh : 104 ≤ r.height) (hr : rectInRange r) (hp : pointInRange p) :
    ∀ i j : ℕ, i < 4 → j < 4 →
      containsPoint ((segmentsForRect container r false).1.getD i []) p = true →
      containsPoint ((segmentsForRect container r false).1.getD j []) p = true → i = j := by
  rw [segmentsForRect_eq]
  obtain ⟨e1, e2, e3, e4⟩ := eff_false container r
  rw [e1, e2, e3, e4]
  obtain ⟨h1, h2, h3, h4⟩ := hr
  simp only [QRect.width, QRect.height] at hw hh
  have hw' : 102 ≤ r.right - r.x := by simp only [QRect.right, QRect.x]; omega
  have hh' : 102 ≤ r.bottom - r.y := by simp only [QRect.bottom, QRect.y]; omega
  obtain ⟨zL, zT, zR, zB, _⟩ := ring_zone r.x r.y r.right r.bottom p hw' hh' h1 h2 h3 h4 hp.2
  have key : ∀ i : ℕ, i < 4 →
      containsPoint (([leftPolygon r.x r.y r.bottom, topPolygon r.x r.y r.right,
        rightPolygon r.y r.right r.bottom, bottomPolygon r.x r.right r.bottom] : List QPolygon).getD
          i []) p = true →
      zoneOf r.x r.y r.right r.bottom (edgeLocations.getD i DropLocation_None) p := by
    intro i hi hc
    interval_cases i
    · exact zL hc
    · exact zT hc
    · exact zR hc
    · exact zB hc
  intro i j hi hj hci hcj
  have hz := zone_disjoint_same r.x r.y r.right r.bottom p hw' hh' _ _ (key i hi hci) (key j hj hcj)
  interval_cases i <;> interval_cases j <;> first | rfl | exact absurd hz (by decide)

/-- C18 at work: the 104 x 104 rectangle at (100,100) and the point (110,110) on
the diagonal that its Left and Top wedges share: the Top polygon contains it,
and no other of the four does. -/
theorem edge_polygons_pairwise_disjoint_witness :
    104 ≤ (QRect.ofXYWH 100 100 104 104).width ∧ 104 ≤ (QRect.ofXYWH 100 100 104 104).height ∧
    containsPoint ((segmentsForRect (QRect.ofXYWH 0 0 800 600) (QRect.ofXYWH 100 100 104 104)
      false).1.getD 1 []) ⟨110, 110⟩ = true ∧
    ∀ j : ℕ, j < 4 →
      containsPoint ((segmentsForRect (QRect.ofXYWH 0 0 800 600) (QRect.ofXYWH 100 100 104 104)
        false).1.getD j []) ⟨110, 110⟩ = true → j = 1 :=
  ⟨by decide, by decide, by decide!, fun j hj hc =>
    edge_polygons_pairwise_disjoint (QRect.ofXYWH 0 0 800 600) (QRect.ofXYWH 100 100 104 104)
      ⟨110, 110⟩ (by decide) (by decide) (by decide) (by decide) j 1 hj (by decide) hc
      (by decide!)⟩

/-! ## The center of the hovered frame -/

/-- A point in the body of a tabbed box, below the tab and left of the right
side, is inside its outline. -/
theorem tabbed_box_contains_of_body (xl xt xr yt ym yb : ℤ) (p : QPoint)
    (hxl : Coord xl) (hxt : Coord xt) (hxr : Coord xr)
    (hx : xl ≤ p.x ∧ p.x < xr) (hy : ym ≤ p.y ∧ p.y < yb) (hyt : yt ≤ ym) :
    containsPoint [⟨xl, yt⟩, ⟨xt, yt⟩, ⟨xt, ym⟩, ⟨xr, ym⟩, ⟨xr, yb⟩, ⟨xl, yb⟩] p = true := by
  have s1 : Small xl := by unfold Small Coord at *; omega
  have s2 : Small xt := by unfold Small Coord at *; omega
  have s3 : Small xr := by unfold Small Coord at *; omega
  rw [containsPoint_six, crossing_horizontal, crossing_horizontal, crossing_horizontal]
  have c1 := crossing_vertical xt yt ym p s2
  have c2 := crossing_vertical xr ym yb p s3
  have c3 := crossing_vertical xl yb yt p s1
  cases h1 : crossing ⟨xt, yt⟩ ⟨xt, ym⟩ p <;>
    cases h2 : crossing ⟨xr, ym⟩ ⟨xr, yb⟩ p <;>
    cases h3 : crossing ⟨xl, yb⟩ ⟨xl, yt⟩ p <;>
    rw [h1] at c1 <;> rw [h2] at c2 <;> rw [h3] at c3 <;>
    simp only [Bool.false_eq_true, false_iff, true_iff, Bool.xor_false, Bool.false_xor,
      Bool.xor_true, Bool.not_true, Bool.not_false, reduceCtorEq] at c1 c2 c3 ⊢ <;>
    omega

/-- Effective sides of a rectangle that touches no side of the container. -/
theorem eff_untouched (container r : QRect) (useOffset : Bool) (hx : r.x ≠ 0) (hy : r.y ≠ 0)
    (hrt : r.right ≠ container.right) (hb : r.bottom ≠ container.bottom) :
    effLeft r useOffset = r.x ∧ effTop r useOffset = r.y ∧
      effRight container r useOffset = r.right ∧ effBottom container r useOffset = r.bottom := by
  obtain ⟨h1, h2, h3, h4⟩ := eff_cases container r useOffset
  refine ⟨?_, ?_, ?_, ?_⟩
  · rcases h1 with h | ⟨h, _⟩
    · exact h
    · exact absurd h hx
  · rcases h2 with h | ⟨h, _⟩
    · exact h
    · exact absurd h hy
  · rcases h3 with h | ⟨h, _⟩
    · exact h
    · exact absurd h.symm hrt
  · rcases h4 with h | ⟨h, _⟩
    · exact h
    · exact absurd h.symm hb

/-- Abscissas of the center polygon around the center of a frame at least 210
pixels wide. -/
theorem center_x_around (L R : ℤ) (hL : 0 ≤ L) (hw : 209 ≤ R - L) :
    let iw := indicatorWidthOf (L + 52) (R - 50)
    let cx := Int.tdiv (L + 52 + (R - 50)) 2
    cx - Int.tdiv iw 2 ≤ Int.tdiv (L + R) 2 ∧ Int.tdiv (L + R) 2 < cx + Int.tdiv iw 2 ∧
      L + 52 ≤ cx - Int.tdiv iw 2 ∧ cx + Int.tdiv iw 2 ≤ R - 50 ∧
      L + 52 ≤ cx - Int.tdiv iw 2 + Int.tdiv (267 * iw) 1000 ∧
      cx - Int.tdiv iw 2 + Int.tdiv (267 * iw) 1000 ≤ R - 50 := by
  intro iw cx
  have hiw : iw = min 300 (max (L + 52) (R - 50) - min (L + 52) (R - 50) + 1 - 100) := rfl
  have hcx : cx = Int.tdiv (L + 52 + (R - 50)) 2 := rfl
  rw [max_eq_right (show L + 52 ≤ R - 50 by omega), min_eq_left (show L + 52 ≤ R - 50 by omega)]
    at hiw
  have h2 := tdiv_cases (267 * iw) 1000 (by norm_num)
  have h4 := tdiv_cases iw 2 (by norm_num)
  have h6 := tdiv_cases (L + 52 + (R - 50)) 2 (by norm_num)
  have h8 := tdiv_cases (L + R) 2 (by norm_num)
  rw [← hcx] at h6
  generalize Int.tdiv (267 * iw) 1000 = q2 at *
  generalize Int.tdiv iw 2 = q4 at *
  generalize Int.tdiv (L + R) 2 = q8 at *
  clear_value iw cx
  omega

/-- Ordinates of the center polygon around the center of a frame at least 110
pixels high, for an indicator at least 8 pixels wide. -/
theorem center_y_around (T B iw : ℤ) (hT : 0 ≤ T) (hh : 109 ≤ B - T) (hiw : 8 ≤ iw ∧ iw ≤ 300) :
    let ih := min 160 (Int.tdiv (3 * iw) 5)
    let cy := Int.tdiv (T + 52 + (B - 50)) 2
    cy - Int.tdiv ih 2 + Int.tdiv (187 * ih) 1000 ≤ Int.tdiv (T + B) 2 ∧
      Int.tdiv (T + B) 2 < cy + Int.tdiv ih 2 ∧
      cy - Int.tdiv ih 2 ≤ cy - Int.tdiv ih 2 + Int.tdiv (187 * ih) 1000 := by
  intro ih cy
  have hih : ih = min 160 (Int.tdiv (3 * iw) 5) := rfl
  have hcy : cy = Int.tdiv (T + 52 + (B - 50)) 2 := rfl
  have h1 := tdiv_cases (3 * iw) 5 (by norm_num)
  have h3 := tdiv_cases (187 * ih) 1000 (by norm_num)
  have h5 := tdiv_cases ih 2 (by norm_num)
  have h7 := tdiv_cases (T + 52 + (B - 50)) 2 (by norm_num)
  have h8 := tdiv_cases (T + B) 2 (by norm_num)
  rw [← hcy] at h7
  generalize Int.tdiv (3 * iw) 5 = q1 at *
  generalize Int.tdiv (187 * ih) 1000 = q3 at *
  generalize Int.tdiv ih 2 = q5 at *
  generalize Int.tdiv (T + B) 2 = q8 at *
  clear_value ih cy
  omega

/-- The Center polygon contains the center of the frame. -/
theorem center_polygon_contains_frame_center (L T R B : ℤ) (hL : 0 ≤ L) (hT : 0 ≤ T)
    (hR : R ≤ 4294967296) (hw : 209 ≤ R - L) (hh : 109 ≤ B - T) :
    containsPoint (centerPolygon (L + 52) (R - 50) (T + 52) (B - 50))
      ⟨Int.tdiv (L + R) 2, Int.tdiv (T + B) 2⟩ = true := by
  rw [centerPolygon_eq]
  obtain ⟨x1, x2, x3, x4, x5, x6⟩ := center_x_around L R hL hw
  have hiw : 8 ≤ indicatorWidthOf (L + 52) (R - 50) ∧ indicatorWidthOf (L + 52) (R - 50) ≤ 300 := by
    unfold indicatorWidthOf
    rw [max_eq_right (show L + 52 ≤ R - 50 by omega), min_eq_left (show L + 52 ≤ R - 50 by omega)]
    omega
  obtain ⟨y1, y2, y3⟩ := center_y_around T B _ hT hh hiw
  exact tabbed_box_contains_of_body _ _ _ _ _ _ _ (by unfold Coord; omega) (by unfold Coord; omega)
    (by unfold Coord; omega) ⟨x1, x2⟩ ⟨y1, y2⟩ y3

/-- C19: for every container rect (coordinates within the range of pixel
coordinates), every panel count and every hovered frame rect `r` with
non-negative `x` and `y` that lies inside the container, touches none of its
sides and is at least 210 wide and 110 high: `r` is valid, after
`updateSegments` the Center polygon is the only stored polygon that contains
the center point of `r`, and `dropLocationForPos` at that point returns
Center. -/
theorem frame_center_yields_center (s : SegmentedIndicators)
    (hx : 0 ≤ s.hoveredFrameRect.x) (hy : 0 ≤ s.hoveredFrameRect.y)
    (hin : s.hoveredFrameRect.right ≤ s.rect.right ∧ s.hoveredFrameRect.bottom ≤ s.rect.bottom)
    (hx0 : s.hoveredFrameRect.x ≠ 0) (hy0 : s.hoveredFrameRect.y ≠ 0)
    (hr0 : s.hoveredFrameRect.right ≠ s.rect.right)
    (hb0 : s.hoveredFrameRect.bottom ≠ s.rect.bottom)
    (hw : 210 ≤ s.hoveredFrameRect.width) (hh : 110 ≤ s.hoveredFrameRect.height)
    (hrange : rectInRange s.rect) :
    s.hoveredFrameRect.isValid = true ∧
    (∀ L, containsPoint ((updateSegments s).m_segments.value L) s.hoveredFrameRect.center = true ↔
      L = DropLocation_Center) ∧
    dropLocationForPos (updateSegments s) s.hoveredFrameRect.center = DropLocation_Center := by
  obtain ⟨e1, e2, e3, e4⟩ := eff_untouched s.rect s.hoveredFrameRect (needsOuter s) hx0 hy0 hr0 hb0
  have hrect : s.rect.x = 0 ∧ s.rect.y = 0 ∧ s.rect.right = s.width - 1 ∧
      s.rect.bottom = s.height - 1 := by
    simp [rect, QRect.ofXYWH, QRect.x, QRect.y, QRect.right, QRect.bottom]
  obtain ⟨_, _, hrr, hrb⟩ := hrect
  have hcr : Coord (s.width - 1) ∧ Coord (s.height - 1) := by
    obtain ⟨_, _, c3, c4⟩ := hrange
    unfold Coord at *
    simp only [rect, QRect.ofXYWH] at c3 c4
    constructor <;> constructor <;> omega
  rw [hrr, hrb] at hin
  generalize hr : s.hoveredFrameRect = r at *
  obtain ⟨x1, y1, x2, y2⟩ := r
  simp only [QRect.x, QRect.y, QRect.right, QRect.bottom, QRect.width, QRect.height] at *
  have hvalid : QRect.isValid ⟨x1, y1, x2, y2⟩ = true := by
    simp only [QRect.isValid, Bool.and_eq_true, decide_eq_true_eq]
    omega
  have hcx := tdiv_cases (x1 + x2) 2 (by norm_num)
  have hcy := tdiv_cases (y1 + y2) 2 (by norm_num)
  have hcenter : containsPoint ((updateSegments s).m_segments.value DropLocation_Center)
      (QRect.center ⟨x1, y1, x2, y2⟩) = true := by
    rw [registry_value]
    simp only [storedPolygon, hr, hvalid, if_true, e1, e2, e3, e4, QRect.center]
    exact center_polygon_contains_frame_center x1 y1 x2 y2 hx hy (by unfold Coord at hcr; omega)
      (by omega) (by omega)
  have cL : Coord x1 := by unfold Coord at *; omega
  have cT : Coord y1 := by unfold Coord at *; omega
  have cR : Coord x2 := by unfold Coord at *; omega
  have cB : Coord y2 := by unfold Coord at *; omega
  have cpy : Coord (Int.tdiv (y1 + y2) 2) := by unfold Coord at *; omega
  have c0 : Coord 0 := by unfold Coord; omega
  obtain ⟨zL, zT, zR, zB, _⟩ := ring_zone x1 y1 x2 y2 ⟨Int.tdiv (x1 + x2) 2, Int.tdiv (y1 + y2) 2⟩
    (by omega) (by omega) cL cT cR cB cpy
  obtain ⟨oL, oT, oR, oB, _⟩ := ring_zone 0 0 (s.width - 1) (s.height - 1)
    ⟨Int.tdiv (x1 + x2) 2, Int.tdiv (y1 + y2) 2⟩ (by omega) (by omega) c0 c0 hcr.1 hcr.2 cpy
  have honly : ∀ L, containsPoint ((updateSegments s).m_segments.value L)
      (QRect.center ⟨x1, y1, x2, y2⟩) = true → L = DropLocation_Center := by
    intro L hc
    rw [registry_value] at hc
    cases L with
    | DropLocation_None => exact absurd hc (by simp [storedPolygon, containsPoint_nil])
    | DropLocation_Center => rfl
    | DropLocation_Left =>
      simp only [storedPolygon, hr, hvalid, if_true, e1, e2, e3, e4, QRect.center] at hc
      have z := zL hc
      simp only [zoneOf] at z
      omega
    | DropLocation_Top =>
      simp only [storedPolygon, hr, hvalid, if_true, e1, e2, e3, e4, QRect.center] at hc
      have z := zT hc
      simp only [zoneOf] at z
      omega
    | DropLocation_Right =>
      simp only [storedPolygon, hr, hvalid, if_true, e1, e2, e3, e4, QRect.center] at hc
      have z := zR hc
      simp only [zoneOf] at z
      omega
    | DropLocation_Bottom =>
      simp only [storedPolygon, hr, hvalid, if_true, e1, e2, e3, e4, QRect.center] at hc
      have z := zB hc
      simp only [zoneOf] at z
      omega
    | DropLocation_OutterLeft =>
      simp only [storedPolygon, QRect.center] at hc
      split_ifs at hc
      · have z := oL hc
        simp only [zoneOf] at z
        omega
      · exact absurd hc (by simp [containsPoint_nil])
    | DropLocation_OutterTop =>
      simp only [storedPolygon, QRect.center] at hc
      split_ifs at hc
      · have z := oT hc
        simp only [zoneOf] at z
        omega
      · exact absurd hc (by simp [containsPoint_nil])
    | DropLocation_OutterRight =>
      simp only [storedPolygon, QRect.center] at hc
      split_ifs at hc
      · have z := oR hc
        simp only [zoneOf] at z
        omega
      · exact absurd hc (by simp [containsPoint_nil])
    | DropLocation_OutterBottom =>
      simp only [storedPolygon, QRect.center] at hc
      split_ifs at hc
      · have z := oB hc
        simp only [zoneOf] at z
        omega
      · exact absurd hc (by simp [containsPoint_nil])
  refine ⟨hvalid, fun L => ⟨honly L, fun h => h ▸ hcenter⟩, ?_⟩
  rcases hit_spec s (QRect.center ⟨x1, y1, x2, y2⟩) with ⟨_, hall⟩ | ⟨_, hc, _⟩
  · rw [hall DropLocation_Center] at hcenter
    exact absurd hcenter (by decide)
  · exact honly _ hc

/-- C19 at work: the container (0,0,800,600) with the hovered frame rect
(100,100,300,200) and two panels; the center of the frame is (249,199). -/
theorem frame_center_yields_center_witness :
    210 ≤ (initial 800 600 (QRect.ofXYWH 100 100 300 200) 2).hoveredFrameRect.width ∧
    (initial 800 600 (QRect.ofXYWH 100 100 300 200) 2).hoveredFrameRect.center = ⟨249, 199⟩ ∧
    dropLocationForPos (updateSegments (initial 800 600 (QRect.ofXYWH 100 100 300 200) 2))
      (initial 800 600 (QRect.ofXYWH 100 100 300 200) 2).hoveredFrameRect.center =
        DropLocation_Center :=
  ⟨by decide, by decide,
    (frame_center_yields_center (initial 800 600 (QRect.ofXYWH 100 100 300 200) 2) (by decide)
      (by decide) (by decide) (by decide) (by decide) (by decide) (by decide) (by decide)
      (by decide) (by decide)).2.2⟩

/-! ## Simple polygons -/

/-- Outline of four distinct successive vertices, listed open or closed. -/
theorem outline_quad (a b c d : QPoint) (h1 : a ≠ b) (h2 : b ≠ c) (h3 : c ≠ d) (h4 : d ≠ a) :
    outline [a, b, c, d] = [a, b, c, d] ∧ outline [a, b, c, d, a] = [a, b, c, d] := by
  simp [outline, dropRepeats, h1, h2, h3, h4, h4.symm]

/-- A quadrilateral whose consecutive edges do not overlap and whose opposite
edges do not meet is simple, listed open or closed. -/
theorem simple_quad (a b c d : QPoint) (h1 : a ≠ b) (h2 : b ≠ c) (h3 : c ≠ d) (h4 : d ≠ a)
    (o1 : ¬ EdgesOverlap a b c) (o2 : ¬ EdgesOverlap b c d) (o3 : ¬ EdgesOverlap c d a)
    (o4 : ¬ EdgesOverlap d a b) (m1 : ¬ SegmentsMeet a b c d) (m2 : ¬ SegmentsMeet b c d a) :
    Simple [a, b, c, d] ∧ Simple [a, b, c, d, a] := by
  obtain ⟨e1, e2⟩ := outline_quad a b c d h1 h2 h3 h4
  have key : Simple [a, b, c, d] := by
    unfold Simple
    rw [e1]
    refine ⟨by simp, ?_, ?_⟩
    · intro i hi
      simp only [List.length_cons, List.length_nil] at hi
      interval_cases i
      · simpa using o1
      · simpa using o2
      · simpa using o3
      · simpa using o4
    · intro i j hij hj hn
      simp only [List.length_cons, List.length_nil] at hj hn
      have hi : i < 4 := by omega
      interval_cases j <;> interval_cases i <;> first | omega | skip
      · simpa using m1
      · simpa using m2
  refine ⟨key, ?_⟩
  unfold Simple at key ⊢
  rw [e2]
  rw [e1] at key
  exact key

theorem topPolygon_simple (L T R : ℤ) (hw : 103 ≤ R - L) : Simple (topPolygon L T R) := by
  have hw' : (103 : ℚ) ≤ (R : ℚ) - L := by exact_mod_cast hw
  refine (simple_quad _ _ _ _ ?_ ?_ ?_ ?_ ?_ ?_ ?_ ?_ ?_ ?_).1
  iterate 4 (simp only [ne_eq, QPoint.mk.injEq]; omega)
  all_goals
    rintro ⟨s, t, hs0, hs1, ht0, ht1, heq⟩
    simp only [along, Prod.mk.injEq] at heq
    obtain ⟨hx, hy⟩ := heq
    push_cast at hx hy
    nlinarith

theorem bottomPolygon_simple (L R B : ℤ) (hw : 103 ≤ R - L) : Simple (bottomPolygon L R B) := by
  have hw' : (103 : ℚ) ≤ (R : ℚ) - L := by exact_mod_cast hw
  refine (simple_quad _ _ _ _ ?_ ?_ ?_ ?_ ?_ ?_ ?_ ?_ ?_ ?_).1
  iterate 4 (simp only [ne_eq, QPoint.mk.injEq]; omega)
  all_goals
    rintro ⟨s, t, hs0, hs1, ht0, ht1, heq⟩
    simp only [along, Prod.mk.injEq] at heq
    obtain ⟨hx, hy⟩ := heq
    push_cast at hx hy
    nlinarith

theorem rightPolygon_simple (T R B : ℤ) (hh : 103 ≤ B - T) : Simple (rightPolygon T R B) := by
  have hh' : (103 : ℚ) ≤ (B : ℚ) - T := by exact_mod_cast hh
  refine (simple_quad _ _ _ _ ?_ ?_ ?_ ?_ ?_ ?_ ?_ ?_ ?_ ?_).1
  iterate 4 (simp only [ne_eq, QPoint.mk.injEq]; omega)
  all_goals
    rintro ⟨s, t, hs0, hs1, ht0, ht1, heq⟩
    simp only [along, Prod.mk.injEq] at heq
    obtain ⟨hx, hy⟩ := heq
    push_cast at hx hy
    nlinarith

theorem leftPolygon_simple (L T B : ℤ) (hh : 103 ≤ B - T) : Simple (leftPolygon L T B) := by
  have hh' : (103 : ℚ) ≤ (B : ℚ) - T := by exact_mod_cast hh
  refine (simple_quad _ _ _ _ ?_ ?_ ?_ ?_ ?_ ?_ ?_ ?_ ?_ ?_).2
  iterate 4 (simp only [ne_eq, QPoint.mk.injEq]; omega)
  all_goals
    rintro ⟨s, t, hs0, hs1, ht0, ht1, heq⟩
    simp only [along, Prod.mk.injEq] at heq
    obtain ⟨hx, hy⟩ := heq
    push_cast at hx hy
    nlinarith

set_option maxHeartbeats 1000000 in
theorem tabbed_box_overlap (xl xt xr yt ym yb : ℤ)
    (c1 : ((xl : ℚ) < xt ∧ (xt : ℚ) < xr ∧ (yt : ℚ) < ym ∧ (ym : ℚ) < yb) ∨
      ((xr : ℚ) < xt ∧ (xt : ℚ) < xl ∧ (yb : ℚ) < ym ∧ (ym : ℚ) < yt)) :
    ∀ i, i < 6 →
      ¬ EdgesOverlap (([⟨xl, yt⟩, ⟨xt, yt⟩, ⟨xt, ym⟩, ⟨xr, ym⟩, ⟨xr, yb⟩, ⟨xl, yb⟩] : List QPoint).getD i ⟨0, 0⟩)
        (([⟨xl, yt⟩, ⟨xt, yt⟩, ⟨xt, ym⟩, ⟨xr, ym⟩, ⟨xr, yb⟩, ⟨xl, yb⟩] : List QPoint).getD ((i + 1) % 6) ⟨0, 0⟩)
        (([⟨xl, yt⟩, ⟨xt, yt⟩, ⟨xt, ym⟩, ⟨xr, ym⟩, ⟨xr, yb⟩, ⟨xl, yb⟩] : List QPoint).getD ((i + 2) % 6) ⟨0, 0⟩) := by
  intro i hi
  interval_cases i
  all_goals
    simp only [List.length_cons, List.length_nil, List.getD_cons_zero, List.getD_cons_succ,
      Nat.reduceAdd, Nat.reduceMod]
    rintro ⟨s, t, hs0, hs1, ht0, ht1, heq⟩
    simp only [along, Prod.mk.injEq] at heq
    obtain ⟨hx, hy⟩ := heq
    rcases c1 with ⟨a1, a2, a3, a4⟩ | ⟨a1, a2, a3, a4⟩ <;> nlinarith

set_option maxHeartbeats 1000000 in
theorem tabbed_box_meet (xl xt xr yt ym yb : ℤ)
    (c1 : ((xl : ℚ) < xt ∧ (xt : ℚ) < xr ∧ (yt : ℚ) < ym ∧ (ym : ℚ) < yb) ∨
      ((xr : ℚ) < xt ∧ (xt : ℚ) < xl ∧ (yb : ℚ) < ym ∧ (ym : ℚ) < yt)) :
    ∀ i j, i + 1 < j → j < 6 → ¬ (i = 0 ∧ j + 1 = 6) →
      ¬ SegmentsMeet (([⟨xl, yt⟩, ⟨xt, yt⟩, ⟨xt, ym⟩, ⟨xr, ym⟩, ⟨xr, yb⟩, ⟨xl, yb⟩] : List QPoint).getD i ⟨0, 0⟩)
        (([⟨xl, yt⟩, ⟨xt, yt⟩, ⟨xt, ym⟩, ⟨xr, ym⟩, ⟨xr, yb⟩, ⟨xl, yb⟩] : List QPoint).getD ((i + 1) % 6) ⟨0, 0⟩)
        (([⟨xl, yt⟩, ⟨xt, yt⟩, ⟨xt, ym⟩, ⟨xr, ym⟩, ⟨xr, yb⟩, ⟨xl, yb⟩] : List QPoint).getD j ⟨0, 0⟩)
        (([⟨xl, yt⟩, ⟨xt, yt⟩, ⟨xt, ym⟩, ⟨xr, ym⟩, ⟨xr, yb⟩, ⟨xl, yb⟩] : List QPoint).getD ((j + 1) % 6) ⟨0, 0⟩) := by
  intro i j hij hj hn
  have hi : i < 6 := by omega
  interval_cases j <;> interval_cases i <;> try omega
  all_goals
    simp only [List.length_cons, List.length_nil, List.getD_cons_zero, List.getD_cons_succ,
      Nat.reduceAdd, Nat.reduceMod]
    rintro ⟨s, t, hs0, hs1, ht0, ht1, heq⟩
    simp only [along, Prod.mk.injEq] at heq
    obtain ⟨hx, hy⟩ := heq
    rcases c1 with ⟨a1, a2, a3, a4⟩ | ⟨a1, a2, a3, a4⟩ <;> nlinarith

set_option maxHeartbeats 1000000 in
theorem flat_tab_overlap (xl xt xr ym yb : ℤ)
    (c1 : ((xl : ℚ) < xt ∧ (xt : ℚ) < xr ∧ (ym : ℚ) < yb) ∨
      ((xr : ℚ) < xt ∧ (xt : ℚ) < xl ∧ (yb : ℚ) < ym)) :
    ∀ i, i < 5 →
      ¬ EdgesOverlap (([⟨xl, ym⟩, ⟨xt, ym⟩, ⟨xr, ym⟩, ⟨xr, yb⟩, ⟨xl, yb⟩] : List QPoint).getD i ⟨0, 0⟩)
        (([⟨xl, ym⟩, ⟨xt, ym⟩, ⟨xr, ym⟩, ⟨xr, yb⟩, ⟨xl, yb⟩] : List QPoint).getD ((i + 1) % 5) ⟨0, 0⟩)
        (([⟨xl, ym⟩, ⟨xt, ym⟩, ⟨xr, ym⟩, ⟨xr, yb⟩, ⟨xl, yb⟩] : List QPoint).getD ((i + 2) % 5) ⟨0, 0⟩) := by
  intro i hi
  interval_cases i
  all_goals
    simp only [List.length_cons, List.length_nil, List.getD_cons_zero, List.getD_cons_succ,
      Nat.reduceAdd, Nat.reduceMod]
    rintro ⟨s, t, hs0, hs1, ht0, ht1, heq⟩
    simp only [along, Prod.mk.injEq] at heq
    obtain ⟨hx, hy⟩ := heq
    rcases c1 with ⟨a1, a2, a3⟩ | ⟨a1, a2, a3⟩ <;> nlinarith

set_option maxHeartbeats 1000000 in
theorem flat_tab_meet (xl xt xr ym yb : ℤ)
    (c1 : ((xl : ℚ) < xt ∧ (xt : ℚ) < xr ∧ (ym : ℚ) < yb) ∨
      ((xr : ℚ) < xt ∧ (xt : ℚ) < xl ∧ (yb : ℚ) < ym)) :
    ∀ i j, i + 1 < j → j < 5 → ¬ (i = 0 ∧ j + 1 = 5) →
      ¬ SegmentsMeet (([⟨xl, ym⟩, ⟨xt, ym⟩, ⟨xr, ym⟩, ⟨xr, yb⟩, ⟨xl, yb⟩] : List QPoint).getD i ⟨0, 0⟩)
        (([⟨xl, ym⟩, ⟨xt, ym⟩, ⟨xr, ym⟩, ⟨xr, yb⟩, ⟨xl, yb⟩] : List QPoint).getD ((i + 1) % 5) ⟨0, 0⟩)
        (([⟨xl, ym⟩, ⟨xt, ym⟩, ⟨xr, ym⟩, ⟨xr, yb⟩, ⟨xl, yb⟩] : List QPoint).getD j ⟨0, 0⟩)
        (([⟨xl, ym⟩, ⟨xt, ym⟩, ⟨xr, ym⟩, ⟨xr, yb⟩, ⟨xl, yb⟩] : List QPoint).getD ((j + 1) % 5) ⟨0, 0⟩) := by
  intro i j hij hj hn
  have hi : i < 5 := by omega
  interval_cases j <;> interval_cases i <;> try omega
  all_goals
    simp only [List.length_cons, List.length_nil, List.getD_cons_zero, List.getD_cons_succ,
      Nat.reduceAdd, Nat.reduceMod]
    rintro ⟨s, t, hs0, hs1, ht0, ht1, heq⟩
    simp only [along, Prod.mk.injEq] at heq
    obtain ⟨hx, hy⟩ := heq
    rcases c1 with ⟨a1, a2, a3⟩ | ⟨a1, a2, a3⟩ <;> nlinarith

/-- The outline of a tabbed box is simple, in its upright and in its mirrored
position. -/
theorem tabbed_box_simple (xl xt xr yt ym yb : ℤ)
    (h : (xl < xt ∧ xt < xr ∧ yt ≤ ym ∧ ym < yb) ∨ (xr < xt ∧ xt < xl ∧ yb < ym ∧ ym ≤ yt)) :
    Simple [⟨xl, yt⟩, ⟨xt, yt⟩, ⟨xt, ym⟩, ⟨xr, ym⟩, ⟨xr, yb⟩, ⟨xl, yb⟩] := by
  have n1 : xl ≠ xt := by omega
  have n2 : xt ≠ xr := by omega
  have n3 : ym ≠ yb := by omega
  have n4 : xr ≠ xl := by omega
  have n5 : yt ≠ yb := by omega
  by_cases hm : ym = yt
  · subst hm
    have ho : outline [⟨xl, ym⟩, ⟨xt, ym⟩, ⟨xt, ym⟩, ⟨xr, ym⟩, ⟨xr, yb⟩, ⟨xl, yb⟩] =
        [⟨xl, ym⟩, ⟨xt, ym⟩, ⟨xr, ym⟩, ⟨xr, yb⟩, ⟨xl, yb⟩] := by
      simp [outline, dropRepeats, n1, n2, n3, n4, n3.symm]
    have c1 : ((xl : ℚ) < xt ∧ (xt : ℚ) < xr ∧ (ym : ℚ) < yb) ∨
        ((xr : ℚ) < xt ∧ (xt : ℚ) < xl ∧ (yb : ℚ) < ym) := by
      rcases h with ⟨a1, a2, _, a4⟩ | ⟨a1, a2, a3, _⟩
      · exact Or.inl ⟨by exact_mod_cast a1, by exact_mod_cast a2, by exact_mod_cast a4⟩
      · exact Or.inr ⟨by exact_mod_cast a1, by exact_mod_cast a2, by exact_mod_cast a3⟩
    unfold Simple
    rw [ho]
    exact ⟨by simp, flat_tab_overlap xl xt xr ym yb c1, flat_tab_meet xl xt xr ym yb c1⟩
  · have ho : outline [⟨xl, yt⟩, ⟨xt, yt⟩, ⟨xt, ym⟩, ⟨xr, ym⟩, ⟨xr, yb⟩, ⟨xl, yb⟩] =
        [⟨xl, yt⟩, ⟨xt, yt⟩, ⟨xt, ym⟩, ⟨xr, ym⟩, ⟨xr, yb⟩, ⟨xl, yb⟩] := by
      have n6 : yt ≠ ym := fun e => hm e.symm
      simp [outline, dropRepeats, n1, n2, n3, n4, n5, n6, n5.symm]
    have c1 : ((xl : ℚ) < xt ∧ (xt : ℚ) < xr ∧ (yt : ℚ) < ym ∧ (ym : ℚ) < yb) ∨
        ((xr : ℚ) < xt ∧ (xt : ℚ) < xl ∧ (yb : ℚ) < ym ∧ (ym : ℚ) < yt) := by
      rcases h with ⟨a1, a2, a3, a4⟩ | ⟨a1, a2, a3, a4⟩
      · exact Or.inl ⟨by exact_mod_cast a1, by exact_mod_cast a2,
          by exact_mod_cast lt_of_le_of_ne a3 (fun e => hm e.symm), by exact_mod_cast a4⟩
      · exact Or.inr ⟨by exact_mod_cast a1, by exact_mod_cast a2, by exact_mod_cast a3,
          by exact_mod_cast lt_of_le_of_ne a4 hm⟩
    unfold Simple
    rw [ho]
    exact ⟨by simp, tabbed_box_overlap xl xt xr yt ym yb c1, tabbed_box_meet xl xt xr yt ym yb c1⟩

/-- The center polygon is simple when the indicator is at least 4 pixels wide,
and also when its width is at most -4 and the outline is mirrored. -/
theorem centerPolygon_simple (a b c d : ℤ)
    (h : 4 ≤ indicatorWidthOf a b ∨ indicatorWidthOf a b ≤ -4) :
    Simple (centerPolygon a b c d) := by
  rw [centerPolygon_eq]
  simp only []
  have hiw := indicatorWidthOf_bounds a b
  generalize indicatorWidthOf a b = iw at h hiw ⊢
  have h5 := tdiv_cases (3 * iw) 5 (by norm_num)
  generalize Int.tdiv (3 * iw) 5 = q5 at h5 ⊢
  have hih : (2 ≤ min 160 q5 ∧ min 160 q5 ≤ 160 ∧ 4 ≤ iw) ∨
      (-59 ≤ min 160 q5 ∧ min 160 q5 ≤ -2 ∧ iw ≤ -4) := by omega
  generalize min 160 q5 = ih at hih ⊢
  have hw2 := tdiv_cases iw 2 (by norm_num)
  generalize Int.tdiv iw 2 = w2 at hw2 ⊢
  have hh2 := tdiv_cases ih 2 (by norm_num)
  generalize Int.tdiv ih 2 = h2 at hh2 ⊢
  have htw := tdiv_cases (267 * iw) 1000 (by norm_num)
  generalize Int.tdiv (267 * iw) 1000 = tw at htw ⊢
  have hth := tdiv_cases (187 * ih) 1000 (by norm_num)
  generalize Int.tdiv (187 * ih) 1000 = th at hth ⊢
  generalize Int.tdiv (a + b) 2 = cx
  generalize Int.tdiv (c + d) 2 = cy
  clear h5
  apply tabbed_box_simple
  rcases hih with ⟨i1, i2, i3⟩ | ⟨i1, i2, i3⟩
  · left
    refine ⟨?_, ?_, ?_, ?_⟩
    · clear hh2 hth; omega
    · clear hh2 hth; omega
    · clear hw2 htw; omega
    · clear hw2 htw; omega
  · right
    refine ⟨?_, ?_, ?_, ?_⟩
    · clear hh2 hth; omega
    · clear hh2 hth; omega
    · clear hw2 htw; omega
    · clear hw2 htw; omega

/-- C12, as stated, fails: for the container (0,0,800,600), the hovered frame rect
(100,100,200,150) and two panels the stored Center polygon runs from (201,175)
to (199,175) and back; its outline has two distinct vertices only, and its
third and fifth edges, which are not adjacent, coincide. -/
theorem center_polygon_not_simple_200x150 :
    (updateSegments (initial 800 600 (QRect.ofXYWH 100 100 200 150) 2)).m_segments.value
        DropLocation_Center
      = [⟨201, 175⟩, ⟨201, 175⟩, ⟨201, 175⟩, ⟨199, 175⟩, ⟨199, 175⟩, ⟨201, 175⟩] ∧
    ¬ Simple ((updateSegments (initial 800 600 (QRect.ofXYWH 100 100 200 150) 2)).m_segments.value
        DropLocation_Center) ∧
    SegmentsMeet ⟨201, 175⟩ ⟨199, 175⟩ ⟨199, 175⟩ ⟨201, 175⟩ := by
  have hval : (updateSegments (initial 800 600 (QRect.ofXYWH 100 100 200 150) 2)).m_segments.value
        DropLocation_Center
      = [⟨201, 175⟩, ⟨201, 175⟩, ⟨201, 175⟩, ⟨199, 175⟩, ⟨199, 175⟩, ⟨201, 175⟩] := by decide!
  refine ⟨hval, ?_, ?_⟩
  · rw [hval]
    intro h
    have hn := h.1
    have ho : outline [⟨201, 175⟩, ⟨201, 175⟩, ⟨201, 175⟩, ⟨199, 175⟩, ⟨199, 175⟩, ⟨201, 175⟩] =
        [⟨201, 175⟩, ⟨199, 175⟩] := by decide
    rw [ho] at hn
    exact absurd hn (by decide)
  · exact ⟨1 / 2, 1 / 2, by norm_num, by norm_num, by norm_num, by norm_num, by
      simp only [along, Prod.mk.injEq]
      norm_num⟩

/-- On unbounded integers: the polygons of the registry are simple for a
container of at least 104 x 104 pixels and a hovered frame rect with at least
103 from top to bottom and at least 205, or between 103 and 197, from left to
right between its effective sides. -/
theorem registry_polygons_simple_exact (s : SegmentedIndicators)
    (houter : needsOuter s = true → 104 ≤ s.width ∧ 104 ≤ s.height)
    (hinner : s.hoveredFrameRect.isValid = true →
      103 ≤ effBottom s.rect s.hoveredFrameRect (needsOuter s) -
          effTop s.hoveredFrameRect (needsOuter s) ∧
      (205 ≤ effRight s.rect s.hoveredFrameRect (needsOuter s) -
          effLeft s.hoveredFrameRect (needsOuter s) ∨
        (103 ≤ effRight s.rect s.hoveredFrameRect (needsOuter s) -
            effLeft s.hoveredFrameRect (needsOuter s) ∧
          effRight s.rect s.hoveredFrameRect (needsOuter s) -
            effLeft s.hoveredFrameRect (needsOuter s) ≤ 197))) :
    ∀ e ∈ (updateSegments s).m_segments, Simple e.2 := by
  intro e he
  have hcenter : ∀ L R : ℤ, (205 ≤ R - L ∨ (103 ≤ R - L ∧ R - L ≤ 197)) →
      (4 ≤ indicatorWidthOf (L + 52) (R - 50) ∨ indicatorWidthOf (L + 52) (R - 50) ≤ -4) := by
    intro L R h
    unfold indicatorWidthOf
    rw [max_eq_right (show L + 52 ≤ R - 50 by omega), min_eq_left (show L + 52 ≤ R - 50 by omega)]
    omega
  have hrect : s.rect.x = 0 ∧ s.rect.y = 0 ∧ s.rect.right = s.width - 1 ∧
      s.rect.bottom = s.height - 1 := by
    simp [rect, QRect.ofXYWH, QRect.x, QRect.y, QRect.right, QRect.bottom]
  obtain ⟨hx, hy, hrt, hb⟩ := hrect
  obtain ⟨e1, e2, e3, e4⟩ := eff_false s.rect s.rect
  have hinnerMem : s.hoveredFrameRect.isValid = true →
      e ∈ innerEntries s.rect s.hoveredFrameRect (needsOuter s) → Simple e.2 := by
    intro hvalid hmem
    obtain ⟨hh, hw⟩ := hinner hvalid
    simp only [innerEntries, segmentsForRect_eq, List.getD_cons_zero, List.getD_cons_succ,
      List.mem_cons, List.mem_singleton, List.not_mem_nil, or_false] at hmem
    rcases hmem with rfl | rfl | rfl | rfl | rfl
    · exact leftPolygon_simple _ _ _ (by omega)
    · exact topPolygon_simple _ _ _ (by omega)
    · exact rightPolygon_simple _ _ _ (by omega)
    · exact bottomPolygon_simple _ _ _ (by omega)
    · exact centerPolygon_simple _ _ _ _ (hcenter _ _ hw)
  have houterMem : needsOuter s = true → e ∈ outerEntries s.rect → Simple e.2 := by
    intro hno hmem
    obtain ⟨hw, hh⟩ := houter hno
    simp only [outerEntries, segmentsForRect_eq, List.getD_cons_zero, List.getD_cons_succ,
      List.mem_cons, List.mem_singleton, List.not_mem_nil, or_false, e1, e2, e3, e4, hx, hy, hrt,
      hb] at hmem
    rcases hmem with rfl | rfl | rfl | rfl
    · exact leftPolygon_simple _ _ _ (by omega)
    · exact topPolygon_simple _ _ _ (by omega)
    · exact rightPolygon_simple _ _ _ (by omega)
    · exact bottomPolygon_simple _ _ _ (by omega)
  rw [updateSegments_segments, List.mem_append] at he
  rcases he with he | he
  · split_ifs at he with hvalid
    · exact hinnerMem hvalid he
    · exact absurd he (List.not_mem_nil _)
  · split_ifs at he with hno
    · exact houterMem hno he
    · exact absurd he (List.not_mem_nil _)

/-- C12, amended: every polygon stored in the registry by `updateSegments` is a
simple closed polygon, provided that the container is at least 104 wide and 104
high when the outer ring is stored, and that a valid hovered frame rect has
coordinates within `10^9`, so that no `int` operation overflows and the compiled
code computes what `segmentsForRect` gives for it, and has, between its
effective sides (the sides after the offsets), at least 103 from top to bottom
and either at least 205 or between 103 and 197 from left to right. -/
theorem registry_polygons_simple (s : SegmentedIndicators)
    (houter : needsOuter s = true → 104 ≤ s.width ∧ 104 ≤ s.height)
    (hsafe : s.hoveredFrameRect.isValid = true → rectIntSafe s.hoveredFrameRect)
    (hinner : s.hoveredFrameRect.isValid = true →
      103 ≤ effBottom s.rect s.hoveredFrameRect (needsOuter s) -
          effTop s.hoveredFrameRect (needsOuter s) ∧
      (205 ≤ effRight s.rect s.hoveredFrameRect (needsOuter s) -
          effLeft s.hoveredFrameRect (needsOuter s) ∨
        (103 ≤ effRight s.rect s.hoveredFrameRect (needsOuter s) -
            effLeft s.hoveredFrameRect (needsOuter s) ∧
          effRight s.rect s.hoveredFrameRect (needsOuter s) -
            effLeft s.hoveredFrameRect (needsOuter s) ≤ 197))) :
    (s.hoveredFrameRect.isValid = true →
      segmentsForRect32 s.rect s.hoveredFrameRect (needsOuter s) =
        segmentsForRect s.rect s.hoveredFrameRect (needsOuter s)) ∧
    ∀ e ∈ (updateSegments s).m_segments, Simple e.2 :=
  ⟨fun hv => segmentsForRect32_eq _ _ _ (hsafe hv), registry_polygons_simple_exact s houter hinner⟩

/-- C12 at work: the container (0,0,800,600) with the hovered frame rect
(0,100,400,300), which touches the left side, and two panels. -/
theorem registry_polygons_simple_witness :
    (needsOuter (initial 800 600 (QRect.ofXYWH 0 100 400 300) 2) = true →
      104 ≤ (initial 800 600 (QRect.ofXYWH 0 100 400 300) 2).width ∧
        104 ≤ (initial 800 600 (QRect.ofXYWH 0 100 400 300) 2).height) ∧
    rectIntSafe (initial 800 600 (QRect.ofXYWH 0 100 400 300) 2).hoveredFrameRect ∧
    ∀ e ∈ (updateSegments (initial 800 600 (QRect.ofXYWH 0 100 400 300) 2)).m_segments,
      Simple e.2 :=
  ⟨by decide, by decide,
    (registry_polygons_simple (initial 800 600 (QRect.ofXYWH 0 100 400 300) 2)
      (by decide) (by decide) (by decide)).2⟩

end SegmentedIndicators

end KDDockWidgets
